import Mathlib

/-!
Package cnotch/queue: a shallow embedding of `queue.go` and `syncqueue.go`

The Go type `Queue` is a slice `buf` together with a read offset `off`.
A Go slice is modelled by the contents of its backing array from the slice's
base up to its capacity (`arr`, so `cap = arr.length`) plus its length `len`.
Every slice stored in `q.buf` by the code starts at the base of its array, so no
base offset is needed.

Conventions of the embedding:

* `Elem = interface{}` becomes a type `α` with `default : α` standing for the
  zero value `nil`.
* Go `int` arguments that the caller supplies (`Grow`, `Get`, `Skip`, and the
  internal `grow` / `tryGrowByReslice`) are `Int`; lengths, capacities and the
  read offset are `Nat`.
* A runtime panic is an `Except.error`; every slice expression, index
  expression and `make` carries the bounds check of the Go runtime.
* The operations are embedded twice.  The plain functions (`Queue.Push`,
  `Queue.Grow`, ...) return the queue after a normal return; in them `make`
  succeeds for every non-negative size and slices passed in by the caller
  (`PushN`, `PopN`) are values.  They serve the statements in which no
  allocation beyond the limit and no shared slice can arise.
* The functions with the suffix `T` (`Queue.GrowT`, `Queue.PushT`,
  `Queue.PushNT`, `Queue.PopNT`, ...) follow the same statements and add what the
  plain ones leave out: `make` fails beyond an allocation limit `lim` (a
  parameter: the largest length the runtime can allocate), the size `2*c + n`
  wraps as a 64-bit `int` does, the receiver is tracked up to the statement that
  panics, and a slice argument either has storage of its own or is a window of
  the receiver's array (`SliceArg`).  Within the limit both embeddings agree
  (`growT_agree_mk3`, `GrowT_ok_mk3`, `PopNT_own`).
* `SyncQueue` is embedded sequentially: the mutex and the condition variable are
  not represented, and what other goroutines do to the inner queue while `Pop`
  waits is an argument of `SyncQueue.Pop`.
-/

namespace CnotchQueue

set_option linter.unusedSectionVars false

/-- Ways in which a call can terminate abnormally. -/
inductive Panic where
  | indexOutOfRange
  | sliceBounds
  | makeLen
  | growNegativeCount
  deriving DecidableEq, Repr

/-- A Go slice: backing array from the slice base to its capacity, and length. -/
structure Slice (α : Type) where
  arr : List α
  len : Nat
  deriving DecidableEq, Repr

/-- The queue of queue.go: `buf []Elem` and `off int`. -/
structure Queue (α : Type) where
  buf : Slice α
  off : Nat
  deriving DecidableEq, Repr

section Defs

variable {α : Type} [Inhabited α]

/-- Go `cap(s)`. -/
def Slice.cap (s : Slice α) : Nat := s.arr.length

/-- Bounds check of the slice expression `s[lo:hi]`: `0 <= lo <= hi <= cap(s)`. -/
def Slice.check (s : Slice α) (lo hi : Int) : Except Panic Unit :=
  if 0 ≤ lo ∧ lo ≤ hi ∧ hi ≤ (s.cap : Int) then .ok () else .error .sliceBounds

/-- The elements seen through `s[lo:hi]`. -/
def Slice.view (s : Slice α) (lo hi : Nat) : List α := (s.arr.take hi).drop lo

/-- Writing `v` through a sub-slice that starts at `lo`. -/
def Slice.store (s : Slice α) (lo : Nat) (v : List α) : Slice α :=
  { s with arr := s.arr.take lo ++ v ++ s.arr.drop (lo + v.length) }

/-- Index expression `s[i]` (read): panics unless `0 <= i < len(s)`. -/
def Slice.index (s : Slice α) (i : Int) : Except Panic α :=
  if 0 ≤ i ∧ i < (s.len : Int) then .ok (s.arr.getD i.toNat default)
  else .error .indexOutOfRange

/-- Index expression `s[i] = e` (write): panics unless `0 <= i < len(s)`. -/
def Slice.setIndex (s : Slice α) (i : Int) (e : α) : Except Panic (Slice α) :=
  if 0 ≤ i ∧ i < (s.len : Int) then .ok { s with arr := s.arr.set i.toNat e }
  else .error .indexOutOfRange

/-- Reslice `s[:hi]`. -/
def Slice.reslice (s : Slice α) (hi : Int) : Except Panic (Slice α) := do
  s.check 0 hi
  pure { s with len := hi.toNat }

/-- Go `make([]Elem, n)`. -/
def Slice.make (n : Int) : Except Panic (Slice α) :=
  if n < 0 then .error .makeLen
  else .ok { arr := List.replicate n.toNat default, len := n.toNat }

/-- Go builtin `copy(dst, src)`: the new contents of `dst` and the count copied. -/
def copy (dst src : List α) : List α × Nat :=
  let n := min dst.length src.length
  (src.take n ++ dst.drop n, n)

/-- The loop of `resetSlice`: every slot of the view is set to the zero value. -/
def resetSlice : List α → List α
  | [] => []
  | _ :: sl => default :: resetSlice sl

/-- The zero value `Queue{}`. -/
def Queue.zero : Queue α := { buf := { arr := [], len := 0 }, off := 0 }

/-- Constructor `NewQueue(buf)`. -/
def NewQueue (buf : Slice α) : Queue α := { buf := buf, off := 0 }

/-- Method `Empty`: `len(q.buf) <= q.off`. -/
def Queue.Empty (q : Queue α) : Bool := decide (q.buf.len ≤ q.off)

/-- Method `Elems`: `q.buf[q.off:]`. -/
def Queue.Elems (q : Queue α) : Except Panic (List α) := do
  q.buf.check q.off q.buf.len
  pure (q.buf.view q.off q.buf.len)

/-- Method `Len`: `len(q.buf) - q.off`. -/
def Queue.Len (q : Queue α) : Int := (q.buf.len : Int) - (q.off : Int)

/-- Method `Cap`: `cap(q.buf)`. -/
def Queue.Cap (q : Queue α) : Nat := q.buf.cap

/-- Method `Reset`. -/
def Queue.Reset (q : Queue α) : Except Panic (Queue α) := do
  -- resetSlice(q.buf[q.off:])
  q.buf.check q.off q.buf.len
  let buf := q.buf.store q.off (resetSlice (q.buf.view q.off q.buf.len))
  -- q.buf = q.buf[:0]; q.off = 0
  let buf ← buf.reslice 0
  pure { buf := buf, off := 0 }

/-- Method `tryGrowByReslice`. -/
def Queue.tryGrowByReslice (q : Queue α) (n : Int) : Except Panic (Int × Bool × Queue α) :=
  let l : Int := q.buf.len
  if n ≤ (q.buf.cap : Int) - l then do
    let buf ← q.buf.reslice (l + n)
    pure (l, true, { q with buf := buf })
  else
    pure (0, false, q)

/-- The slide branch of `grow`: live elements are copied to the front of the
same array and the slots from `m` up to the old length are cleared. -/
def Queue.growSlide (q : Queue α) (m : Int) : Except Panic (Slice α) := do
  -- copy(q.buf, q.buf[q.off:])
  q.buf.check q.off q.buf.len
  let buf := q.buf.store 0 (copy (q.buf.view 0 q.buf.len) (q.buf.view q.off q.buf.len)).1
  -- resetSlice(q.buf[m:])
  buf.check m buf.len
  pure (buf.store m.toNat (resetSlice (buf.view m.toNat buf.len)))

/-- The allocate branch of `grow`: the new buffer, and the old buffer as the
branch leaves it (unreachable from the queue afterwards). -/
def Queue.growAlloc (q : Queue α) (c n : Int) : Except Panic (Slice α × Slice α) := do
  -- buf := make([]Elem, 2*c+n)
  let buf ← Slice.make (2 * c + n)
  -- copy(buf, q.buf[q.off:])
  q.buf.check q.off q.buf.len
  let buf := buf.store 0 (copy (buf.view 0 buf.len) (q.buf.view q.off q.buf.len)).1
  -- resetSlice(q.buf[q.off:])
  q.buf.check q.off q.buf.len
  let old := q.buf.store q.off (resetSlice (q.buf.view q.off q.buf.len))
  -- q.buf = buf
  pure (buf, old)

/-- Method `grow`. -/
def Queue.grow (q : Queue α) (n : Int) : Except Panic (Int × Queue α) := do
  let m := q.Len
  -- If buffer is empty, reset to recover space.
  let q ← if m = 0 ∧ q.off ≠ 0 then q.Reset else pure q
  -- Try to grow by means of a reslice.
  let (i, ok, q) ← q.tryGrowByReslice n
  if ok then pure (i, q) else
  let c : Int := q.buf.cap
  let buf ← if n ≤ c / 2 - m then q.growSlide m else (fun r => r.1) <$> q.growAlloc c n
  -- set new off and buf
  let buf ← buf.reslice (m + n)
  pure (m, { buf := buf, off := 0 })

/-- Method `Grow`. -/
def Queue.Grow (q : Queue α) (n : Int) : Except Panic (Queue α) := do
  if n < 0 then throw Panic.growNegativeCount
  let (m, q) ← q.grow n
  let buf ← q.buf.reslice m
  pure { q with buf := buf }

/-- Method `Get`: `q.buf[q.off+i]`. -/
def Queue.Get (q : Queue α) (i : Int) : Except Panic α :=
  q.buf.index ((q.off : Int) + i)

/-- Method `Push`. -/
def Queue.Push (q : Queue α) (e : α) : Except Panic (Queue α) := do
  let (m, ok, q) ← q.tryGrowByReslice 1
  let (m, q) ← if ok then pure (m, q) else q.grow 1
  let buf ← q.buf.setIndex m e
  pure { q with buf := buf }

/-- Method `PushN`. -/
def Queue.PushN (q : Queue α) (elems : List α) : Except Panic (Queue α) := do
  let (m, ok, q) ← q.tryGrowByReslice elems.length
  let (m, q) ← if ok then pure (m, q) else q.grow elems.length
  -- copy(q.buf[m:], elems)
  q.buf.check m q.buf.len
  let buf := q.buf.store m.toNat (copy (q.buf.view m.toNat q.buf.len) elems).1
  pure { q with buf := buf }

/-- Method `Pop`: the element, the flag and the queue afterwards. -/
def Queue.Pop (q : Queue α) : Except Panic (α × Bool × Queue α) := do
  if q.Empty then
    -- Queue is empty, reset to recover space.
    let q ← q.Reset
    pure (default, false, q)
  else
    let v ← q.buf.index q.off
    -- resetSlice(q.buf[q.off : q.off+1])
    q.buf.check q.off ((q.off : Int) + 1)
    let buf := q.buf.store q.off (resetSlice (q.buf.view q.off (q.off + 1)))
    pure (v, true, { buf := buf, off := q.off + 1 })

/-- Method `PopN`: the count, the destination afterwards and the queue afterwards. -/
def Queue.PopN (q : Queue α) (elems : List α) : Except Panic (Nat × List α × Queue α) := do
  if q.Empty then
    let q ← q.Reset
    pure (0, elems, q)
  else
    -- n = copy(elems, q.buf[q.off:])
    q.buf.check q.off q.buf.len
    let (elems, n) := copy elems (q.buf.view q.off q.buf.len)
    -- resetSlice(q.buf[q.off : q.off+n])
    q.buf.check q.off ((q.off : Int) + n)
    let buf := q.buf.store q.off (resetSlice (q.buf.view q.off (q.off + n)))
    pure (n, elems, { buf := buf, off := q.off + n })

/-- Method `Skip`: the count discarded and the queue afterwards. -/
def Queue.Skip (q : Queue α) (n : Int) : Except Panic (Int × Queue α) := do
  if q.Empty then
    let q ← q.Reset
    pure (0, q)
  else
    let len := q.Len
    let n := if n > len then len else n
    -- resetSlice(q.buf[q.off : q.off+n])
    q.buf.check q.off ((q.off : Int) + n)
    let buf := q.buf.store q.off (resetSlice (q.buf.view q.off (q.off + n).toNat))
    pure (n, { buf := buf, off := (q.off + n).toNat })

/-- Well-formed queue: `0 <= off <= len(buf) <= cap(buf)`. -/
def Queue.WF (q : Queue α) : Prop := q.off ≤ q.buf.len ∧ q.buf.len ≤ q.buf.cap

/-- The live elements `buf[off : len(buf)]`. -/
def Queue.live (q : Queue α) : List α := q.buf.view q.off q.buf.len

/-- The queue whose array is `pre ++ lv ++ post` with live region `lv`. -/
def Queue.mk3 (pre lv post : List α) : Queue α :=
  { buf := { arr := pre ++ (lv ++ post), len := pre.length + lv.length }, off := pre.length }

/-- What every path of growing by `k` slots establishes: the live elements are
kept, `k` slots follow them, the first result is the index of the first new
slot, and the capacity has not shrunk. -/
def GrowPost (pre lv post : List α) (k : Nat) (r : Except Panic (Int × Queue α)) : Prop :=
  ∃ pre' fill post' : List α,
    r = Except.ok (((pre'.length + lv.length : Nat) : Int), Queue.mk3 pre' (lv ++ fill) post') ∧
    fill.length = k ∧
    pre.length + lv.length + post.length ≤ pre'.length + lv.length + k + post'.length

/-- A call in an interleaving of `Push` and `Pop`. -/
inductive Op (α : Type) where
  | push (e : α)
  | pop
  deriving DecidableEq, Repr

/-- Runs an interleaving of `Push` and `Pop`; collects what each `Pop` returned. -/
def runOps (q : Queue α) : List (Op α) → Except Panic (Queue α × List (α × Bool))
  | [] => pure (q, [])
  | Op.push e :: ops => do
    let q ← q.Push e
    runOps q ops
  | Op.pop :: ops => do
    let (v, ok, q) ← q.Pop
    let (q, rs) ← runOps q ops
    pure (q, (v, ok) :: rs)

/-- The elements pushed by an interleaving, in push order. -/
def pushed : List (Op α) → List α
  | [] => []
  | Op.push e :: ops => e :: pushed ops
  | Op.pop :: ops => pushed ops

/-- The number of `Pop` calls of an interleaving. -/
def popCount : List (Op α) → Nat
  | [] => 0
  | Op.push _ :: ops => popCount ops
  | Op.pop :: ops => popCount ops + 1

/-- No `Pop` of the interleaving meets an empty queue, when `n` elements are
present at its start (counting pushes and pops only). -/
def noOverPop : Nat → List (Op α) → Bool
  | _, [] => true
  | n, Op.push _ :: ops => noOverPop (n + 1) ops
  | 0, Op.pop :: _ => false
  | n + 1, Op.pop :: ops => noOverPop n ops

/-- Drain by repeated `Pop` until it reports `ok = false`; at most `fuel` calls
(`none` when the fuel runs out first). -/
def drain : Nat → Queue α → Except Panic (Option (List α))
  | 0, _ => pure none
  | fuel + 1, q => do
    let (v, ok, q) ← q.Pop
    if ok then do
      let r ← drain fuel q
      pure (r.map (fun l => v :: l))
    else
      pure (some [])

/-- The calls of the public contract that observe or change the live contents;
`skip` carries a count that is non-negative by type. -/
inductive Call (α : Type) where
  | push (e : α)
  | pushN (es : List α)
  | pop
  | popN (dst : List α)
  | skip (n : Nat)
  | len
  | empty
  | elems
  | get (i : Int)
  deriving DecidableEq, Repr

/-- What a call returns to its caller. -/
inductive Ret (α : Type) where
  | unit
  | pop (v : α) (ok : Bool)
  | popN (n : Nat) (dst : List α)
  | skip (r : Int)
  | len (n : Int)
  | empty (b : Bool)
  | elems (l : List α)
  | get (v : α)
  deriving DecidableEq, Repr

/-- Performs one call: its return value and the queue afterwards. -/
def Queue.call (q : Queue α) : Call α → Except Panic (Ret α × Queue α)
  | Call.push e => do
    let q ← q.Push e
    pure (Ret.unit, q)
  | Call.pushN es => do
    let q ← q.PushN es
    pure (Ret.unit, q)
  | Call.pop => do
    let (v, ok, q) ← q.Pop
    pure (Ret.pop v ok, q)
  | Call.popN dst => do
    let (n, dst, q) ← q.PopN dst
    pure (Ret.popN n dst, q)
  | Call.skip n => do
    let (r, q) ← q.Skip n
    pure (Ret.skip r, q)
  | Call.len => pure (Ret.len q.Len, q)
  | Call.empty => pure (Ret.empty q.Empty, q)
  | Call.elems => do
    let l ← q.Elems
    pure (Ret.elems l, q)
  | Call.get i => do
    let v ← q.Get i
    pure (Ret.get v, q)

/-- Runs a sequence of calls; records, for every step, the return value and the
live contents (`Elems`) after the step. -/
def runCalls (q : Queue α) : List (Call α) → Except Panic (List (Ret α × List α))
  | [] => pure []
  | c :: cs => do
    let (r, q) ← q.call c
    let l ← q.Elems
    let rest ← runCalls q cs
    pure ((r, l) :: rest)

/-- Every `Get` of the sequence, run from `q`, has an index `0 <= i < Len()`. -/
def getsInRange (q : Queue α) : List (Call α) → Bool
  | [] => true
  | c :: cs =>
    (match c with
      | Call.get i => decide (0 ≤ i ∧ i < q.Len)
      | _ => true) &&
    (match q.call c with
      | Except.ok (_, q') => getsInRange q' cs
      | Except.error _ => false)

/-- States reachable from the zero-value queue by public operations that
return normally. -/
inductive Reachable : Queue α → Prop where
  | zero : Reachable Queue.zero
  | push {q q' : Queue α} (e : α) : Reachable q → q.Push e = Except.ok q' → Reachable q'
  | pushN {q q' : Queue α} (es : List α) :
      Reachable q → q.PushN es = Except.ok q' → Reachable q'
  | pop {q q' : Queue α} (v : α) (ok : Bool) :
      Reachable q → q.Pop = Except.ok (v, ok, q') → Reachable q'
  | popN {q q' : Queue α} (dst dst' : List α) (n : Nat) :
      Reachable q → q.PopN dst = Except.ok (n, dst', q') → Reachable q'
  | skip {q q' : Queue α} (n r : Int) :
      Reachable q → q.Skip n = Except.ok (r, q') → Reachable q'
  | grow {q q' : Queue α} (n : Int) : Reachable q → q.Grow n = Except.ok q' → Reachable q'
  | reset {q q' : Queue α} : Reachable q → q.Reset = Except.ok q' → Reachable q'

/-- Slots that all hold the zero value. -/
def AllZero (l : List α) : Prop := ∀ x ∈ l, x = default

/-- Every slot of the storage outside the live region `[off, len(buf))`, before
`off` or from `len(buf)` up to the capacity, holds the zero value. -/
def Queue.Clean (q : Queue α) : Prop :=
  ∀ i : Nat, i < q.buf.cap → (i < q.off ∨ q.buf.len ≤ i) → q.buf.arr[i]? = some default

/-- The capacity after a request of `n` new slots as the growth rule words it, for
capacity `c`, storage length `l` and live count `m`: unchanged on reslice, on
reclaiming a drained buffer and on slide, `2*c + n` otherwise. -/
def sizingRule (c l m n : Int) : Int :=
  if n ≤ c - l ∨ (m = 0 ∧ n ≤ c) ∨ n ≤ c / 2 - m then c else 2 * c + n

/-- The postcondition `GrowPost` with the exact capacity, the read offset and the
zero slots: the capacity follows `sizingRule`, the read offset is 0 unless the
request fitted behind the tail, and zero slots outside the live region stay
zero, the new slots included. -/
def GrowPostFull (pre lv post : List α) (k : Nat) (r : Except Panic (Int × Queue α)) : Prop :=
  ∃ pre' fill post' : List α,
    r = Except.ok (((pre'.length + lv.length : Nat) : Int), Queue.mk3 pre' (lv ++ fill) post') ∧
    fill.length = k ∧
    ((pre'.length + lv.length + k + post'.length : Nat) : Int) =
      sizingRule ((pre.length + lv.length + post.length : Nat) : Int)
        ((pre.length + lv.length : Nat) : Int) (lv.length : Int) (k : Int) ∧
    ((k ≤ post.length ∧ pre' = pre) ∨ pre' = []) ∧
    (AllZero pre → AllZero post → AllZero pre' ∧ AllZero fill ∧ AllZero post')

/-- One public operation that returns normally, taking the queue from the first
state to the second. -/
inductive Step : Queue α → Queue α → Prop where
  | push {q q' : Queue α} (e : α) : q.Push e = Except.ok q' → Step q q'
  | pushN {q q' : Queue α} (es : List α) : q.PushN es = Except.ok q' → Step q q'
  | pop {q q' : Queue α} (v : α) (ok : Bool) : q.Pop = Except.ok (v, ok, q') → Step q q'
  | popN {q q' : Queue α} (dst dst' : List α) (n : Nat) :
      q.PopN dst = Except.ok (n, dst', q') → Step q q'
  | skip {q q' : Queue α} (n r : Int) : q.Skip n = Except.ok (r, q') → Step q q'
  | grow {q q' : Queue α} (n : Int) : q.Grow n = Except.ok q' → Step q q'
  | reset {q q' : Queue α} : q.Reset = Except.ok q' → Step q q'

/-- States reachable from `q0` by public operations that return normally
(`Empty`, `Elems`, `Len`, `Cap` and `Get` leave the queue as it is). -/
inductive ReachableFrom (q0 : Queue α) : Queue α → Prop where
  | start : ReachableFrom q0 q0
  | step {q q' : Queue α} : ReachableFrom q0 q → Step q q' → ReachableFrom q0 q'

/-- The SyncQueue of syncqueue.go: the inner queue. The mutex and the condition
variable carry no data of the queue and are not represented. -/
structure SyncQueue (α : Type) where
  queue : Queue α
  deriving DecidableEq, Repr

/-- Constructor `NewSyncQueue`. -/
def NewSyncQueue : SyncQueue α := { queue := Queue.zero }

/-- Method `SyncQueue.Push`: under the lock, `q.queue.Push(e)` and a signal. -/
def SyncQueue.Push (s : SyncQueue α) (e : α) : Except Panic (SyncQueue α) := do
  let q ← s.queue.Push e
  pure { queue := q }

/-- Method `SyncQueue.Pop`: the element, whether `cond.Wait()` was called, and the
SyncQueue afterwards. `woken` is the inner queue as the caller finds it when
`Wait` returns (other goroutines may have run in between). -/
def SyncQueue.Pop (s : SyncQueue α) (woken : Queue α) :
    Except Panic (α × Bool × SyncQueue α) := do
  -- if q.queue.Len() <= 0 { q.cond.Wait() }
  let waited := decide (s.queue.Len ≤ 0)
  let q := if waited then woken else s.queue
  -- e, _ := q.queue.Pop()
  let (e, _, q) ← q.Pop
  pure (e, waited, { queue := q })

/-- Method `SyncQueue.Len`: under the lock, `q.queue.Len()`. -/
def SyncQueue.Len (s : SyncQueue α) : Int := s.queue.Len

/-- Method `SyncQueue.Reset`: under the lock, `q.queue.Reset()`. -/
def SyncQueue.Reset (s : SyncQueue α) : Except Panic (SyncQueue α) := do
  let q ← s.queue.Reset
  pure { queue := q }

/-- The inner queue as `SyncQueue.Pop` finds it when it calls `Queue.Pop`: the
queue at entry if that was non-empty, else the queue as found after the wait. -/
def SyncQueue.afterWait (s : SyncQueue α) (woken : Queue α) : Queue α :=
  if s.queue.Len ≤ 0 then woken else s.queue

/-- Two's-complement wrap-around of Go's 64-bit `int`. -/
def wrapInt (x : Int) : Int :=
  (x + 9223372036854775808) % 18446744073709551616 - 9223372036854775808

/-- Go `make([]Elem, n)` under an allocation limit: `lim` is the largest length
the runtime can allocate for this element type; a negative or larger request
fails (`makeslice: len out of range`, or memory exhausted). -/
def Slice.makeLim (lim : Nat) (n : Int) : Except Panic (Slice α) :=
  if n < 0 ∨ (lim : Int) < n then .error .makeLen
  else .ok { arr := List.replicate n.toNat default, len := n.toNat }

/-- A slice argument of `PushN` or `PopN`: `own l` has storage of its own holding
`l`; `shared lo hi` is the window `[lo, hi)` of the array that backs the
receiver when the call begins, as `q.Elems()[a:b]` is. -/
inductive SliceArg (α : Type) where
  | own (l : List α)
  | shared (lo hi : Nat)
  deriving DecidableEq, Repr

/-- Go `len(elems)` of a slice argument. -/
def SliceArg.len : SliceArg α → Nat
  | SliceArg.own l => l.length
  | SliceArg.shared lo hi => hi - lo

/-- The elements of a slice argument, `arr` being the present contents of the
array that backed the receiver when the call began. -/
def SliceArg.read : SliceArg α → List α → List α
  | SliceArg.own l, _ => l
  | SliceArg.shared lo hi, arr => (arr.take hi).drop lo

/-- The receiver's buffer after `w` has been written through a slice argument:
untouched for storage of its own, written at `lo` for a shared window. -/
def SliceArg.writeThrough : SliceArg α → Slice α → List α → Slice α
  | SliceArg.own _, buf, _ => buf
  | SliceArg.shared lo _, buf, w => buf.store lo w

/-- The elements of a slice argument after the call: `w` as written for storage
of its own, the window of the array `arr` as the call leaves it when shared. -/
def SliceArg.after : SliceArg α → List α → List α → List α
  | SliceArg.own _, w, _ => w
  | SliceArg.shared lo hi, _, arr => (arr.take hi).drop lo

/-- Method `Reset`, statement by statement, with the receiver as the call leaves
it, also when it panics. -/
def Queue.ResetT (q : Queue α) : Except Panic Unit × Queue α :=
  -- resetSlice(q.buf[q.off:])
  match q.buf.check q.off q.buf.len with
  | .error e => (.error e, q)
  | .ok _ =>
    let z := resetSlice (q.buf.view q.off q.buf.len)
    let q1 : Queue α := { q with buf := q.buf.store q.off z }
    -- q.buf = q.buf[:0]
    match q1.buf.reslice 0 with
    | .error e => (.error e, q1)
    | .ok buf =>
      -- q.off = 0
      (.ok (), { buf := buf, off := 0 })

/-- Method `tryGrowByReslice` with the receiver as the call leaves it. The sum
`l + n` is at most the capacity, so it does not wrap. -/
def Queue.tryGrowByResliceT (q : Queue α) (n : Int) : Except Panic (Int × Bool) × Queue α :=
  let l : Int := q.buf.len
  if n ≤ (q.buf.cap : Int) - l then
    match q.buf.reslice (l + n) with
    | .error e => (.error e, q)
    | .ok buf => (.ok (l, true), { q with buf := buf })
  else
    (.ok (0, false), q)

/-- The slide branch of `grow` with the receiver as it leaves it. -/
def Queue.growSlideT (q : Queue α) (m : Int) : Except Panic Unit × Queue α :=
  -- copy(q.buf, q.buf[q.off:])
  match q.buf.check q.off q.buf.len with
  | .error e => (.error e, q)
  | .ok _ =>
    let w := (copy (q.buf.view 0 q.buf.len) (q.buf.view q.off q.buf.len)).1
    let q1 : Queue α := { q with buf := q.buf.store 0 w }
    -- resetSlice(q.buf[m:])
    match q1.buf.check m q1.buf.len with
    | .error e => (.error e, q1)
    | .ok _ =>
      let z := resetSlice (q1.buf.view m.toNat q1.buf.len)
      (.ok (), { q1 with buf := q1.buf.store m.toNat z })

/-- The allocate branch of `grow` under the allocation limit `lim`: the old
buffer as the branch leaves it, and the receiver, which now holds the new
buffer. `2*c + n` is computed in `int` and wraps. -/
def Queue.growAllocT (lim : Nat) (q : Queue α) (c n : Int) :
    Except Panic (Slice α) × Queue α :=
  -- buf := make([]Elem, 2*c+n)
  match (Slice.makeLim lim (wrapInt (2 * c + n)) : Except Panic (Slice α)) with
  | .error e => (.error e, q)
  | .ok buf =>
    -- copy(buf, q.buf[q.off:])
    match q.buf.check q.off q.buf.len with
    | .error e => (.error e, q)
    | .ok _ =>
      let buf := buf.store 0 (copy (buf.view 0 buf.len) (q.buf.view q.off q.buf.len)).1
      -- resetSlice(q.buf[q.off:])
      let old := q.buf.store q.off (resetSlice (q.buf.view q.off q.buf.len))
      -- q.buf = buf
      (.ok old, { q with buf := buf })

/-- Method `grow` under the allocation limit `lim`, statement by statement: the
result, the receiver as the call leaves it (also when it panics), and the
buffer abandoned by a reallocation, if there was one. The sum `m + n` stays in
range for capacities below `2^62`. -/
def Queue.growT (lim : Nat) (q : Queue α) (n : Int) :
    Except Panic Int × Queue α × Option (Slice α) :=
  let m := q.Len
  -- If buffer is empty, reset to recover space.
  let r0 := if m = 0 ∧ q.off ≠ 0 then q.ResetT else (.ok (), q)
  match r0 with
  | (.error e, q0) => (.error e, q0, none)
  | (.ok _, q0) =>
    -- Try to grow by means of a reslice.
    match q0.tryGrowByResliceT n with
    | (.error e, q1) => (.error e, q1, none)
    | (.ok (i, true), q1) => (.ok i, q1, none)
    | (.ok (_, false), q1) =>
      let c : Int := q1.buf.cap
      let r2 : Except Panic Unit × Queue α × Option (Slice α) :=
        if n ≤ c / 2 - m then
          match q1.growSlideT m with
          | (.error e, q2) => (.error e, q2, none)
          | (.ok _, q2) => (.ok (), q2, none)
        else
          match q1.growAllocT lim c n with
          | (.error e, q2) => (.error e, q2, none)
          | (.ok old, q2) => (.ok (), q2, some old)
      match r2 with
      | (.error e, q2, old) => (.error e, q2, old)
      | (.ok _, q2, old) =>
        -- set new off and buf
        let q3 : Queue α := { q2 with off := 0 }
        match q3.buf.reslice (m + n) with
        | .error e => (.error e, q3, old)
        | .ok buf => (.ok m, { q3 with buf := buf }, old)

/-- Method `Grow` under the allocation limit `lim`, with the receiver as the
call leaves it, also when it panics. -/
def Queue.GrowT (lim : Nat) (q : Queue α) (n : Int) : Except Panic Unit × Queue α :=
  if n < 0 then (.error Panic.growNegativeCount, q)
  else
    match q.growT lim n with
    | (.error e, q1, _) => (.error e, q1)
    | (.ok m, q1, _) =>
      -- q.buf = q.buf[:m]
      match q1.buf.reslice m with
      | .error e => (.error e, q1)
      | .ok buf => (.ok (), { q1 with buf := buf })

/-- The prologue shared by `Push` and `PushN` under the allocation limit:
`tryGrowByReslice(n)`, and `grow(n)` when it fails. -/
def Queue.tryGrowOrGrowT (lim : Nat) (q : Queue α) (n : Int) :
    Except Panic Int × Queue α × Option (Slice α) :=
  match q.tryGrowByResliceT n with
  | (.error e, q1) => (.error e, q1, none)
  | (.ok (m, true), q1) => (.ok m, q1, none)
  | (.ok (_, false), q1) => q1.growT lim n

/-- Method `Push` under the allocation limit `lim`, with the receiver as the
call leaves it. -/
def Queue.PushT (lim : Nat) (q : Queue α) (e : α) : Except Panic Unit × Queue α :=
  match q.tryGrowOrGrowT lim 1 with
  | (.error x, q1, _) => (.error x, q1)
  | (.ok m, q1, _) =>
    -- q.buf[m] = e
    match q1.buf.setIndex m e with
    | .error x => (.error x, q1)
    | .ok buf => (.ok (), { q1 with buf := buf })

/-- Method `PushN` under the allocation limit `lim`, for an argument that has
storage of its own or shares the receiver's array. The elements are read when
`copy` runs, from the array the argument points into as growth has left it. -/
def Queue.PushNT (lim : Nat) (q : Queue α) (elems : SliceArg α) :
    Except Panic Unit × Queue α :=
  match q.tryGrowOrGrowT lim elems.len with
  | (.error x, q1, _) => (.error x, q1)
  | (.ok m, q1, old) =>
    -- copy(q.buf[m:], elems)
    match q1.buf.check m q1.buf.len with
    | .error x => (.error x, q1)
    | .ok _ =>
      let src := elems.read (match old with
        | some o => o.arr
        | none => q1.buf.arr)
      let w := (copy (q1.buf.view m.toNat q1.buf.len) src).1
      (.ok (), { q1 with buf := q1.buf.store m.toNat w })

/-- Method `PopN` for a destination that has storage of its own or shares the
receiver's array: the count, the destination after the call and the queue after
the call. -/
def Queue.PopNT (q : Queue α) (elems : SliceArg α) :
    Except Panic (Nat × List α × Queue α) := do
  if q.Empty then
    -- Queue is empty, reset to recover space.
    let q1 ← q.Reset
    pure (0, elems.after (elems.read q.buf.arr) q1.buf.arr, q1)
  else
    -- n = copy(elems, q.buf[q.off:])
    q.buf.check q.off q.buf.len
    let (w, n) := copy (elems.read q.buf.arr) (q.buf.view q.off q.buf.len)
    let buf1 := elems.writeThrough q.buf w
    -- resetSlice(q.buf[q.off : q.off+n])
    buf1.check q.off ((q.off : Int) + n)
    let buf2 := buf1.store q.off (resetSlice (buf1.view q.off (q.off + n)))
    pure (n, elems.after w buf2.arr, { buf := buf2, off := q.off + n })

/-- Repeated `Push` under the allocation limit; stops at the first panic. -/
def pushAllT (lim : Nat) (q : Queue α) : List α → Except Panic Unit × Queue α
  | [] => (.ok (), q)
  | e :: es =>
    match q.PushT lim e with
    | (.error x, q1) => (.error x, q1)
    | (.ok _, q1) => pushAllT lim q1 es

/-- The request of `n` slots is served without allocation: it fits behind the
tail, or the buffer is drained and large enough, or the live elements can slide. -/
def fitsInPlace (c l m n : Int) : Prop :=
  n ≤ c - l ∨ (m = 0 ∧ n ≤ c) ∨ n ≤ c / 2 - m

/-- The request of `n` slots can be served under the allocation limit `lim`: in
place, or by the allocation of `2*c + n` slots, which is within the limit. -/
def Queue.canGrow (lim : Nat) (q : Queue α) (n : Int) : Prop :=
  fitsInPlace q.Cap q.buf.len q.Len n ∨ 2 * (q.Cap : Int) + n ≤ lim

/-- The first statement of `grow`, `if m == 0 && q.off != 0 { q.Reset() }`: the
receiver as that statement leaves it. -/
def Queue.resetIfDrained (q : Queue α) : Queue α :=
  if q.Len = 0 ∧ q.off ≠ 0 then q.ResetT.2 else q

end Defs

section Basic

variable {α : Type} [Inhabited α]

theorem Len_eq_length_live {q : Queue α} (h : q.WF) : q.Len = q.live.length := by
  simp only [Queue.WF, Slice.cap] at h
  simp only [Queue.Len, Queue.live, Slice.view, List.length_drop, List.length_take]
  omega

theorem resetSlice_eq (l : List α) : resetSlice l = List.replicate l.length default := by
  induction l with
  | nil => rfl
  | cons a l ih => simp [resetSlice, ih, List.replicate_succ]

/-- A well-formed queue splits as consumed prefix, live region, spare tail. -/
theorem Queue.WF.split {q : Queue α} (h : q.WF) :
    ∃ pre lv post : List α, q = Queue.mk3 pre lv post := by
  obtain ⟨⟨arr, len⟩, off⟩ := q
  simp only [Queue.WF, Slice.cap] at h
  refine ⟨arr.take off, (arr.take len).drop off, arr.drop len, ?_⟩
  have h1 : (arr.take off).length = off := by simp; omega
  have h2 : ((arr.take len).drop off).length = len - off := by simp; omega
  have h3 : arr.take off ++ ((arr.take len).drop off ++ arr.drop len) = arr := by
    have : arr.take off = (arr.take len).take off := by
      rw [List.take_take]; congr 1; omega
    rw [this, ← List.append_assoc, List.take_append_drop, List.take_append_drop]
  simp only [Queue.mk3]
  rw [h3, h1, h2]
  congr 2
  omega

theorem WF_mk3 (pre lv post : List α) : (Queue.mk3 pre lv post).WF := by
  simp [Queue.WF, Queue.mk3, Slice.cap]

theorem Empty_mk3 (pre lv post : List α) :
    (Queue.mk3 pre lv post).Empty = lv.isEmpty := by
  cases lv <;> simp [Queue.Empty, Queue.mk3]

theorem live_split (pre lv post : List α) : (Queue.mk3 pre lv post).live = lv := by
  simp [Queue.live, Slice.view, Queue.mk3, List.take_append, List.take_left, List.drop_left]

theorem Elems_mk3 (pre lv post : List α) : (Queue.mk3 pre lv post).Elems = Except.ok lv := by
  have h := live_split pre lv post
  simp only [Queue.live] at h
  simp [Queue.Elems, h, bind, Except.bind, pure, Except.pure]
  simp [Slice.check, Slice.cap, Queue.mk3]

theorem Get_mk3 (pre lv post : List α) (i : Nat) (v : α) (h : lv[i]? = some v) :
    (Queue.mk3 pre lv post).Get i = Except.ok v := by
  obtain ⟨hi, rfl⟩ := List.getElem?_eq_some_iff.mp h
  have e1 : ((pre.length : Int) + i).toNat = pre.length + i := by omega
  have e2 : (i : Int) < lv.length := by omega
  have e3 : (pre ++ (lv ++ post))[pre.length + i]? = some lv[i] := by
    rw [List.getElem?_append_right (by omega), Nat.add_sub_cancel_left,
      List.getElem?_append_left hi, List.getElem?_eq_getElem hi]
  simp [Queue.Get, Slice.index, Queue.mk3, e1, e2, Int.add_nonneg, e3]

theorem Reset_mk3 (pre lv post : List α) :
    (Queue.mk3 pre lv post).Reset =
      Except.ok (Queue.mk3 [] [] (pre ++ (List.replicate lv.length default ++ post))) := by
  simp [Queue.Reset, Slice.check, Slice.cap, Slice.store, Slice.view, Slice.reslice,
    resetSlice_eq, bind, Except.bind, pure, Except.pure, Queue.mk3, List.take_append,
    List.take_left, List.drop_left, List.drop_append, Int.add_nonneg]

theorem tryGrowByReslice_mk3_fit (pre lv post : List α) (k : Nat) (h : k ≤ post.length) :
    (Queue.mk3 pre lv post).tryGrowByReslice k =
      Except.ok (((pre.length + lv.length : Nat) : Int), true,
        Queue.mk3 pre (lv ++ post.take k) (post.drop k)) := by
  have h1 : (k : Int) ≤ post.length := by exact_mod_cast h
  have h2 : ((pre.length : Int) + lv.length + k).toNat = pre.length + (lv.length + k) := by omega
  have h3 : (pre.length : Int) + lv.length + k ≤ pre.length + (lv.length + post.length) := by omega
  simp [Queue.tryGrowByReslice, Slice.check, Slice.cap, Slice.reslice,
    bind, Except.bind, pure, Except.pure, Queue.mk3, Int.add_nonneg, h1, h2, h3, h]

theorem tryGrowByReslice_mk3_full (pre lv post : List α) (k : Nat) (h : post.length < k) :
    (Queue.mk3 pre lv post).tryGrowByReslice k =
      Except.ok (0, false, Queue.mk3 pre lv post) := by
  have h1 : ¬ ((k : Int) ≤ post.length) := by omega
  simp [Queue.tryGrowByReslice, Slice.cap, pure, Except.pure, Queue.mk3, h1]

theorem Pop_mk3_cons (pre : List α) (x : α) (xs post : List α) :
    (Queue.mk3 pre (x :: xs) post).Pop =
      Except.ok (x, true, Queue.mk3 (pre ++ [default]) xs post) := by
  simp [Queue.Pop, Queue.Empty, Slice.index, Slice.check, Slice.cap, Slice.store, Slice.view,
    resetSlice_eq, bind, Except.bind, pure, Except.pure, Queue.mk3, List.take_append,
    List.take_left, List.drop_left, List.drop_append, Int.add_nonneg]
  exact ⟨by simp [List.getElem_append_right], by omega⟩

theorem Pop_mk3_nil (pre post : List α) :
    (Queue.mk3 pre [] post).Pop =
      Except.ok (default, false, Queue.mk3 [] [] (pre ++ post)) := by
  simp [Queue.Pop, Queue.Empty, Reset_mk3, bind, Except.bind, pure, Except.pure]
  simp [Queue.mk3]

theorem PopN_mk3 (pre lv post dst : List α) (h : lv ≠ []) :
    (Queue.mk3 pre lv post).PopN dst =
      Except.ok (min dst.length lv.length,
        lv.take (min dst.length lv.length) ++ dst.drop (min dst.length lv.length),
        Queue.mk3 (pre ++ List.replicate (min dst.length lv.length) default)
          (lv.drop (min dst.length lv.length)) post) := by
  have hl : 0 < lv.length := List.length_pos.mpr h
  have he : ¬ (lv.length = 0) := by omega
  simp [Queue.PopN, Queue.Empty, Slice.check, Slice.cap, Slice.store, Slice.view, copy,
    resetSlice_eq, bind, Except.bind, pure, Except.pure, Queue.mk3, List.take_append,
    List.take_left, List.drop_left, List.drop_append, Int.add_nonneg, he]
  exact ⟨List.drop_append_of_le_length (by omega), by omega⟩

theorem Skip_mk3 (pre lv post : List α) (n : Int) (h : lv ≠ []) (hn : 0 ≤ n) :
    (Queue.mk3 pre lv post).Skip n =
      Except.ok (((min n.toNat lv.length : Nat) : Int),
        Queue.mk3 (pre ++ List.replicate (min n.toNat lv.length) default)
          (lv.drop (min n.toNat lv.length)) post) := by
  have hl : 0 < lv.length := List.length_pos.mpr h
  have he : ¬ (lv.length = 0) := by omega
  obtain ⟨r, rfl⟩ := Int.eq_ofNat_of_zero_le hn
  by_cases hc : (lv.length : Int) < (r : Int)
  · have e1 : ((pre.length : Int) + lv.length).toNat = pre.length + lv.length := by omega
    have e2 : min r lv.length = lv.length := by omega
    have e3 : min (r : Int) lv.length = lv.length := by omega
    simp [Queue.Skip, Queue.Empty, Queue.Len, Slice.check, Slice.cap, Slice.store, Slice.view,
      resetSlice_eq, bind, Except.bind, pure, Except.pure, Queue.mk3, List.take_append,
      List.take_left, List.drop_left, List.drop_append, Int.add_nonneg, he, hc, e1, e2, e3]
  · have e1 : ((pre.length : Int) + r).toNat = pre.length + r := by omega
    have e2 : min r lv.length = r := by omega
    have e3 : min (r : Int) lv.length = r := by omega
    have e4 : (r : Int) ≤ lv.length + post.length := by omega
    have e5 : min (pre.length + r) (pre.length + (lv.length + post.length)) = pre.length + r := by
      omega
    have e6 : r ≤ lv.length := by omega
    simp [Queue.Skip, Queue.Empty, Queue.Len, Slice.check, Slice.cap, Slice.store, Slice.view,
      resetSlice_eq, bind, Except.bind, pure, Except.pure, Queue.mk3, List.take_append,
      List.take_left, List.drop_left, List.drop_append, Int.add_nonneg, he, hc, e1, e2, e3, e4,
      e5, List.drop_append_of_le_length, e6]
    have e7 : min r (lv.length + post.length) = r := by omega
    rw [e7]
    exact ⟨rfl, by omega⟩

theorem growSlide_mk3 (pre lv post : List α) :
    (Queue.mk3 pre lv post).growSlide lv.length =
      Except.ok ⟨lv ++ (List.replicate pre.length default ++ post), pre.length + lv.length⟩ := by
  obtain ⟨Y, hY, hYl⟩ : ∃ Y, List.drop lv.length (pre ++ lv) = Y ∧ Y.length = pre.length :=
    ⟨_, rfl, by simp⟩
  have v0 : Slice.view (Queue.mk3 pre lv post).buf 0 (Queue.mk3 pre lv post).buf.len
      = pre ++ lv := by
    simp [Slice.view, Queue.mk3, List.take_append, List.take_left]
  have c1 : (copy (pre ++ lv) lv).1 = lv ++ Y := by simp [copy, hY]
  have s1 : Slice.store (Queue.mk3 pre lv post).buf 0 (lv ++ Y)
      = ⟨lv ++ (Y ++ post), pre.length + lv.length⟩ := by
    have : lv.length + Y.length = pre.length + lv.length := by omega
    simp [Slice.store, Queue.mk3, this, List.drop_append]
  have v2 : Slice.view (⟨lv ++ (Y ++ post), pre.length + lv.length⟩ : Slice α)
      lv.length (pre.length + lv.length) = Y := by
    have : pre.length + lv.length = lv.length + Y.length := by omega
    simp [Slice.view, this, List.take_append, List.take_left, List.drop_left]
  have s2 : Slice.store (⟨lv ++ (Y ++ post), pre.length + lv.length⟩ : Slice α)
      lv.length (List.replicate pre.length default)
      = ⟨lv ++ (List.replicate pre.length default ++ post), pre.length + lv.length⟩ := by
    simp [Slice.store, List.take_left, List.drop_append, ← hYl, List.drop_left]
  have k1 : Slice.check (Queue.mk3 pre lv post).buf (Queue.mk3 pre lv post).off
      (Queue.mk3 pre lv post).buf.len = Except.ok () := by
    simp [Slice.check, Slice.cap, Queue.mk3]
  have k2 : Slice.check (⟨lv ++ (Y ++ post), pre.length + lv.length⟩ : Slice α)
      lv.length ((pre.length + lv.length : Nat) : Int) = Except.ok () := by
    have : (pre.length : Int) + lv.length ≤ lv.length + (Y.length + post.length) := by omega
    simp [Slice.check, Slice.cap, this]
  have v1 : Slice.view (Queue.mk3 pre lv post).buf (Queue.mk3 pre lv post).off
      (Queue.mk3 pre lv post).buf.len = lv := live_split pre lv post
  simp only [Queue.growSlide, k1, v1, v0, c1, s1, k2, Int.toNat_ofNat, v2,
    resetSlice_eq, hYl, s2, bind, Except.bind, pure, Except.pure]

theorem growAlloc_mk3 (pre lv post : List α) (c n : Int) (h : (lv.length : Int) ≤ 2 * c + n) :
    (Queue.mk3 pre lv post).growAlloc c n =
      Except.ok (⟨lv ++ List.replicate ((2 * c + n).toNat - lv.length) default, (2 * c + n).toNat⟩,
        ⟨pre ++ (List.replicate lv.length default ++ post), pre.length + lv.length⟩) := by
  have h0 : ¬ (2 * c + n < 0) := by omega
  have h1 : min (2 * c + n).toNat lv.length = lv.length := by omega
  simp [Queue.growAlloc, Slice.make, Slice.check, Slice.cap, Slice.store, Slice.view, copy,
    resetSlice_eq, bind, Except.bind, pure, Except.pure, Queue.mk3, List.take_append,
    List.take_left, List.drop_left, List.drop_append, Int.add_nonneg, h0, h1]
  omega

theorem reslice_ok (s : Slice α) (hi : Int) (h0 : 0 ≤ hi) (h : hi ≤ s.arr.length) :
    s.reslice hi = Except.ok { s with len := hi.toNat } := by
  simp [Slice.reslice, Slice.check, Slice.cap, h0, h, bind, Except.bind, pure, Except.pure]

theorem Len_mk3 (pre lv post : List α) : (Queue.mk3 pre lv post).Len = lv.length := by
  simp [Queue.Len, Queue.mk3]

theorem Cap_mk3 (pre lv post : List α) :
    (Queue.mk3 pre lv post).Cap = pre.length + lv.length + post.length := by
  simp [Queue.Cap, Slice.cap, Queue.mk3]; omega

theorem grow_mk3_reset (pre post : List α) (n : Int) (h : pre ≠ []) :
    (Queue.mk3 pre [] post).grow n = (Queue.mk3 [] [] (pre ++ post)).grow n := by
  have hl : pre.length ≠ 0 := fun h0 => h (List.length_eq_zero.mp h0)
  have e1 : (Queue.mk3 pre [] post).off ≠ 0 := by simpa [Queue.mk3] using hl
  have e2 : (Queue.mk3 ([] : List α) [] (pre ++ post)).off = 0 := by simp [Queue.mk3]
  simp only [Queue.grow, Len_mk3, Reset_mk3, e1, e2, List.length_nil, Nat.cast_zero,
    ne_eq, not_true_eq_false, not_false_eq_true, and_self, and_false, if_true, if_false,
    List.replicate, List.nil_append, bind, Except.bind, pure, Except.pure]

theorem grow_mk3_fit (pre lv post : List α) (k : Nat) (hr : lv ≠ [] ∨ pre = [])
    (h : k ≤ post.length) :
    (Queue.mk3 pre lv post).grow k =
      Except.ok (((pre.length + lv.length : Nat) : Int),
        Queue.mk3 pre (lv ++ post.take k) (post.drop k)) := by
  have hc : ¬ ((lv.length : Int) = 0 ∧ (Queue.mk3 pre lv post).off ≠ 0) := by
    rcases hr with hr | hr
    · have := List.length_pos.mpr hr; omega
    · simp [Queue.mk3, hr]
  simp only [Queue.grow, Len_mk3, if_neg hc, tryGrowByReslice_mk3_fit pre lv post k h,
    bind, Except.bind, pure, Except.pure, if_true]

theorem grow_mk3_slide (pre lv post : List α) (k : Nat) (hr : lv ≠ [] ∨ pre = [])
    (h : post.length < k)
    (hs : (k : Int) ≤ ((pre.length + lv.length + post.length : Nat) : Int) / 2 - lv.length) :
    (Queue.mk3 pre lv post).grow k =
      Except.ok ((lv.length : Int),
        Queue.mk3 [] (lv ++ (List.replicate pre.length default ++ post).take k)
          ((List.replicate pre.length default ++ post).drop k)) := by
  have hc : ¬ ((lv.length : Int) = 0 ∧ (Queue.mk3 pre lv post).off ≠ 0) := by
    rcases hr with hr | hr
    · have := List.length_pos.mpr hr; omega
    · simp [Queue.mk3, hr]
  have hcap : (Queue.mk3 pre lv post).buf.cap = pre.length + lv.length + post.length :=
    Cap_mk3 pre lv post
  simp only [Queue.grow, Len_mk3, if_neg hc, tryGrowByReslice_mk3_full pre lv post k h,
    bind, Except.bind, pure, Except.pure, if_true, hcap, if_pos hs, growSlide_mk3]
  rw [reslice_ok _ _ (by omega) (by simp; omega)]
  have e1 : ((lv.length : Int) + k).toNat = lv.length + k := by omega
  have e2 : min k (pre.length + post.length) = k := by omega
  simp [Queue.mk3, e1, e2]

theorem grow_mk3_alloc (pre lv post : List α) (k : Nat) (hr : lv ≠ [] ∨ pre = [])
    (h : post.length < k)
    (hs : ¬ (k : Int) ≤ ((pre.length + lv.length + post.length : Nat) : Int) / 2 - lv.length) :
    (Queue.mk3 pre lv post).grow k =
      Except.ok ((lv.length : Int),
        Queue.mk3 [] (lv ++ List.replicate k default)
          (List.replicate (2 * (pre.length + lv.length + post.length) - lv.length) default)) := by
  have hc : ¬ ((lv.length : Int) = 0 ∧ (Queue.mk3 pre lv post).off ≠ 0) := by
    rcases hr with hr | hr
    · have := List.length_pos.mpr hr; omega
    · simp [Queue.mk3, hr]
  have hcap : (Queue.mk3 pre lv post).buf.cap = pre.length + lv.length + post.length :=
    Cap_mk3 pre lv post
  have ha := growAlloc_mk3 pre lv post ((pre.length + lv.length + post.length : Nat) : Int) k
    (by omega)
  simp only [Queue.grow, Len_mk3, if_neg hc, tryGrowByReslice_mk3_full pre lv post k h,
    bind, Except.bind, pure, Except.pure, if_true, hcap, if_neg hs, ha, Functor.map, Except.map]
  rw [reslice_ok _ _ (by omega) (by simp; omega)]
  have e1 : ((lv.length : Int) + k).toNat = lv.length + k := by omega
  simp [Queue.mk3, e1]
  omega

theorem grow_mk3_noreset (pre lv post : List α) (k : Nat) (hr : lv ≠ [] ∨ pre = []) :
    GrowPost pre lv post k ((Queue.mk3 pre lv post).grow k) := by
  by_cases h : k ≤ post.length
  · refine ⟨pre, post.take k, post.drop k, grow_mk3_fit pre lv post k hr h, by simp [h], ?_⟩
    simp; omega
  · have h' : post.length < k := by omega
    by_cases hs : (k : Int) ≤ ((pre.length + lv.length + post.length : Nat) : Int) / 2 - lv.length
    · refine ⟨[], (List.replicate pre.length default ++ post).take k,
        (List.replicate pre.length default ++ post).drop k, ?_, ?_, ?_⟩
      · simpa using grow_mk3_slide pre lv post k hr h' hs
      · simp; omega
      · simp; omega
    · refine ⟨[], List.replicate k default,
        List.replicate (2 * (pre.length + lv.length + post.length) - lv.length) default,
        ?_, ?_, ?_⟩
      · simpa using grow_mk3_alloc pre lv post k hr h' hs
      · simp
      · simp; omega

theorem grow_mk3 (pre lv post : List α) (k : Nat) :
    GrowPost pre lv post k ((Queue.mk3 pre lv post).grow k) := by
  by_cases hr : lv ≠ [] ∨ pre = []
  · exact grow_mk3_noreset pre lv post k hr
  · have h1 : lv = [] := by
      by_contra h; exact hr (Or.inl h)
    have h2 : pre ≠ [] := fun h => hr (Or.inr h)
    subst h1
    rw [grow_mk3_reset pre post k h2]
    obtain ⟨pre', fill, post', e, hf, hc⟩ := grow_mk3_noreset [] [] (pre ++ post) k (Or.inr rfl)
    exact ⟨pre', fill, post', e, hf, by simp at hc ⊢; omega⟩

/-- The common prologue of `Push` and `PushN`: `tryGrowByReslice(k)`, and `grow(k)`
when it fails. -/
theorem tryGrow_or_grow_mk3 (pre lv post : List α) (k : Nat) :
    GrowPost pre lv post k
      ((Queue.mk3 pre lv post).tryGrowByReslice k >>= fun r =>
        if r.2.1 then pure (r.1, r.2.2) else r.2.2.grow k) := by
  by_cases h : k ≤ post.length
  · refine ⟨pre, post.take k, post.drop k, ?_, by simp [h], ?_⟩
    · simp [tryGrowByReslice_mk3_fit pre lv post k h, bind, Except.bind, pure, Except.pure]
    · simp; omega
  · have h' : post.length < k := by omega
    simpa [tryGrowByReslice_mk3_full pre lv post k h', bind, Except.bind]
      using grow_mk3 pre lv post k

theorem drop_take4 (a b c d : List α) :
    List.drop (a.length + b.length)
      (List.take (a.length + b.length + c.length) (a ++ (b ++ (c ++ d)))) = c := by
  rw [← List.append_assoc a b, ← List.length_append, List.take_append, List.take_left,
    List.drop_left]

theorem drop4 (a b c d : List α) (n : Nat) (hn : n = c.length) :
    List.drop (a.length + b.length + n) (a ++ (b ++ (c ++ d))) = d := by
  subst hn
  rw [← List.append_assoc a b, ← List.append_assoc, ← List.length_append,
    ← List.length_append, List.drop_left]

theorem take4 (a b c d : List α) :
    List.take (a.length + b.length) (a ++ (b ++ (c ++ d))) = a ++ b := by
  rw [← List.append_assoc a b, ← List.length_append, List.take_left]

theorem setIndex_mk3 (pre lv fill post : List α) (e : α) (hf : fill.length = 1) :
    (Queue.mk3 pre (lv ++ fill) post).buf.setIndex ((pre.length + lv.length : Nat) : Int) e =
      Except.ok (Queue.mk3 pre (lv ++ [e]) post).buf := by
  obtain ⟨f, rfl⟩ := List.length_eq_one.mp hf
  have e1 : ((pre.length : Int) + lv.length).toNat = pre.length + lv.length := by omega
  simp [Slice.setIndex, Queue.mk3, List.set_append, e1, Int.add_nonneg]

theorem storeTail_mk3 (pre lv fill post es : List α) (hf : fill.length = es.length) :
    (Queue.mk3 pre (lv ++ fill) post).buf.store (pre.length + lv.length)
      (copy ((Queue.mk3 pre (lv ++ fill) post).buf.view (pre.length + lv.length)
        (Queue.mk3 pre (lv ++ fill) post).buf.len) es).1 =
      (Queue.mk3 pre (lv ++ es) post).buf := by
  have v : (Queue.mk3 pre (lv ++ fill) post).buf.view (pre.length + lv.length)
      (Queue.mk3 pre (lv ++ fill) post).buf.len = fill := by
    simp [Slice.view, Queue.mk3, ← Nat.add_assoc, drop_take4]
  rw [v]
  simp [copy, hf, Slice.store, Queue.mk3, ← Nat.add_assoc, drop4, take4]

theorem Push_mk3 (pre lv post : List α) (e : α) :
    ∃ pre' post' : List α,
      (Queue.mk3 pre lv post).Push e = Except.ok (Queue.mk3 pre' (lv ++ [e]) post') ∧
      pre.length + lv.length + post.length ≤ pre'.length + lv.length + 1 + post'.length := by
  obtain ⟨pre', fill, post', hg, hf, hc⟩ := tryGrow_or_grow_mk3 pre lv post 1
  refine ⟨pre', post', ?_, hc⟩
  have hs := setIndex_mk3 pre' lv fill post' e hf
  simp only [Nat.cast_one, bind, Except.bind] at hg
  simp only [Queue.Push, bind, Except.bind]
  cases ht : (Queue.mk3 pre lv post).tryGrowByReslice 1 with
  | error x => rw [ht] at hg; simp at hg
  | ok r =>
    obtain ⟨m, ok, q1⟩ := r
    rw [ht] at hg
    cases ok <;> simp only [if_true, if_false, Bool.false_eq_true] at hg ⊢ <;> rw [hg] <;>
      simp only []
    all_goals
      simp only [hs, pure, Except.pure]
      rfl

theorem PushN_mk3 (pre lv post es : List α) :
    ∃ pre' post' : List α,
      (Queue.mk3 pre lv post).PushN es = Except.ok (Queue.mk3 pre' (lv ++ es) post') ∧
      pre.length + lv.length + post.length ≤
        pre'.length + lv.length + es.length + post'.length := by
  obtain ⟨pre', fill, post', hg, hf, hc⟩ := tryGrow_or_grow_mk3 pre lv post es.length
  refine ⟨pre', post', ?_, hc⟩
  have hs := storeTail_mk3 pre' lv fill post' es hf
  have hk : (Queue.mk3 pre' (lv ++ fill) post').buf.check ((pre'.length + lv.length : Nat) : Int)
      (Queue.mk3 pre' (lv ++ fill) post').buf.len = Except.ok () := by
    simp [Slice.check, Slice.cap, Queue.mk3]; omega
  simp only [bind, Except.bind] at hg
  simp only [Queue.PushN, bind, Except.bind]
  cases ht : (Queue.mk3 pre lv post).tryGrowByReslice es.length with
  | error x => rw [ht] at hg; simp at hg
  | ok r =>
    obtain ⟨m, ok, q1⟩ := r
    rw [ht] at hg
    cases ok <;> simp only [if_true, if_false, Bool.false_eq_true] at hg ⊢ <;> rw [hg] <;>
      simp only []
    all_goals
      simp only [hk, Int.toNat_ofNat, hs, pure, Except.pure]
      rfl

theorem Grow_mk3 (pre lv post : List α) (k : Nat) :
    ∃ pre' post' : List α,
      (Queue.mk3 pre lv post).Grow k = Except.ok (Queue.mk3 pre' lv post') ∧
      k ≤ post'.length ∧
      pre.length + lv.length + post.length ≤ pre'.length + lv.length + post'.length := by
  obtain ⟨pre', fill, post', hg, hf, hc⟩ := grow_mk3 pre lv post k
  refine ⟨pre', fill ++ post', ?_, by simp; omega, by simp; omega⟩
  have h0 : ¬ ((k : Int) < 0) := by omega
  simp only [Queue.Grow, hg, bind, Except.bind, pure, Except.pure, h0, if_false]
  rw [reslice_ok _ _ (by omega) (by simp [Queue.mk3]; omega)]
  simp [Queue.mk3]
  omega

theorem zero_eq_mk3 : (Queue.zero : Queue α) = Queue.mk3 [] [] [] := rfl

theorem runOps_mk3 (ops : List (Op α)) :
    ∀ pre lv post : List α, noOverPop lv.length ops = true →
      ∃ pre' post' : List α,
        runOps (Queue.mk3 pre lv post) ops =
          Except.ok (Queue.mk3 pre' ((lv ++ pushed ops).drop (popCount ops)) post',
            ((lv ++ pushed ops).take (popCount ops)).map (fun x => (x, true))) := by
  induction ops with
  | nil =>
    intro pre lv post _
    exact ⟨pre, post, by simp [runOps, pushed, popCount, pure, Except.pure]⟩
  | cons op ops ih =>
    intro pre lv post h
    cases op with
    | push e =>
      obtain ⟨pre1, post1, hp, _⟩ := Push_mk3 pre lv post e
      have h' : noOverPop (lv ++ [e]).length ops = true := by
        simpa [noOverPop] using h
      obtain ⟨pre2, post2, hr⟩ := ih pre1 (lv ++ [e]) post1 h'
      refine ⟨pre2, post2, ?_⟩
      simp only [runOps, hp, bind, Except.bind, hr, pushed, popCount]
      simp
    | pop =>
      cases lv with
      | nil => simp [noOverPop] at h
      | cons x xs =>
        have h' : noOverPop xs.length ops = true := by
          simpa [noOverPop] using h
        obtain ⟨pre2, post2, hr⟩ := ih (pre ++ [default]) xs post h'
        refine ⟨pre2, post2, ?_⟩
        simp only [runOps, Pop_mk3_cons, bind, Except.bind, hr, pushed, popCount, pure,
          Except.pure]
        simp

theorem drain_mk3 (lv : List α) :
    ∀ (pre post : List α) (fuel : Nat), lv.length < fuel →
      drain fuel (Queue.mk3 pre lv post) = Except.ok (some lv) := by
  induction lv with
  | nil =>
    intro pre post fuel h
    cases fuel with
    | zero => simp at h
    | succ f => simp [drain, Pop_mk3_nil, bind, Except.bind, pure, Except.pure]
  | cons x xs ih =>
    intro pre post fuel h
    cases fuel with
    | zero => simp at h
    | succ f =>
      have hf : xs.length < f := by simpa using h
      simp [drain, Pop_mk3_cons, bind, Except.bind, pure, Except.pure,
        ih (pre ++ [default]) post f hf]

theorem PopN_mk3_nil (pre post dst : List α) :
    (Queue.mk3 pre [] post).PopN dst =
      Except.ok (0, dst, Queue.mk3 [] [] (pre ++ post)) := by
  simp [Queue.PopN, Empty_mk3, Reset_mk3, bind, Except.bind, pure, Except.pure]

theorem Skip_mk3_nil (pre post : List α) (n : Int) :
    (Queue.mk3 pre [] post).Skip n = Except.ok (0, Queue.mk3 [] [] (pre ++ post)) := by
  simp [Queue.Skip, Empty_mk3, Reset_mk3, bind, Except.bind, pure, Except.pure]

theorem Skip_mk3_neg (pre lv post : List α) (n : Int) (h : lv ≠ []) (hn : n < 0) :
    (Queue.mk3 pre lv post).Skip n = Except.error Panic.sliceBounds := by
  have hl : 0 < lv.length := List.length_pos.mpr h
  have he : ¬ (lv.length = 0) := by omega
  have h1 : ¬ ((lv.length : Int) < n) := by omega
  have h2 : ¬ (0 ≤ n) := by omega
  simp [Queue.Skip, Queue.Empty, Queue.Len, Slice.check, Queue.mk3, he, h1, h2, bind,
    Except.bind]

theorem Grow_neg (q : Queue α) (n : Int) (hn : n < 0) :
    q.Grow n = Except.error Panic.growNegativeCount := by
  simp [Queue.Grow, hn, bind, Except.bind, throw, throwThe, MonadExceptOf.throw]

theorem Reachable.wf {q : Queue α} (h : Reachable q) : q.WF := by
  induction h with
  | zero => exact WF_mk3 [] [] []
  | push e _ hp ih =>
    obtain ⟨pre, lv, post, rfl⟩ := ih.split
    obtain ⟨pre', post', hp', _⟩ := Push_mk3 pre lv post e
    rw [hp'] at hp; cases hp; exact WF_mk3 _ _ _
  | pushN es _ hp ih =>
    obtain ⟨pre, lv, post, rfl⟩ := ih.split
    obtain ⟨pre', post', hp', _⟩ := PushN_mk3 pre lv post es
    rw [hp'] at hp; cases hp; exact WF_mk3 _ _ _
  | pop v ok _ hp ih =>
    obtain ⟨pre, lv, post, rfl⟩ := ih.split
    cases lv with
    | nil => rw [Pop_mk3_nil] at hp; cases hp; exact WF_mk3 _ _ _
    | cons x xs => rw [Pop_mk3_cons] at hp; cases hp; exact WF_mk3 _ _ _
  | popN dst dst' n _ hp ih =>
    obtain ⟨pre, lv, post, rfl⟩ := ih.split
    by_cases hl : lv = []
    · subst hl; rw [PopN_mk3_nil] at hp; cases hp; exact WF_mk3 _ _ _
    · rw [PopN_mk3 pre lv post dst hl] at hp; cases hp; exact WF_mk3 _ _ _
  | skip n r _ hp ih =>
    obtain ⟨pre, lv, post, rfl⟩ := ih.split
    by_cases hl : lv = []
    · subst hl; rw [Skip_mk3_nil] at hp; cases hp; exact WF_mk3 _ _ _
    · by_cases hn : 0 ≤ n
      · rw [Skip_mk3 pre lv post n hl hn] at hp; cases hp; exact WF_mk3 _ _ _
      · rw [Skip_mk3_neg pre lv post n hl (by omega)] at hp; cases hp
  | grow n _ hp ih =>
    obtain ⟨pre, lv, post, rfl⟩ := ih.split
    by_cases hn : 0 ≤ n
    · obtain ⟨k, rfl⟩ := Int.eq_ofNat_of_zero_le hn
      obtain ⟨pre', post', hp', _⟩ := Grow_mk3 pre lv post k
      rw [hp'] at hp; cases hp; exact WF_mk3 _ _ _
    · rw [Grow_neg _ n (by omega)] at hp; cases hp
  | reset _ hp ih =>
    obtain ⟨pre, lv, post, rfl⟩ := ih.split
    rw [Reset_mk3] at hp; cases hp; exact WF_mk3 _ _ _

/-- A call's return value and the live contents afterwards depend on the live
contents alone, not on the consumed prefix or the spare tail. -/
theorem call_mk3 (c : Call α) (lv : List α)
    (hg : ∀ i : Int, c = Call.get i → 0 ≤ i ∧ i < (lv.length : Int)) :
    ∃ (r : Ret α) (lv' : List α), ∀ pre post : List α, ∃ pre' post' : List α,
      (Queue.mk3 pre lv post).call c = Except.ok (r, Queue.mk3 pre' lv' post') := by
  cases c with
  | push e =>
    refine ⟨Ret.unit, lv ++ [e], fun pre post => ?_⟩
    obtain ⟨pre', post', hp, _⟩ := Push_mk3 pre lv post e
    exact ⟨pre', post', by simp [Queue.call, hp, bind, Except.bind, pure, Except.pure]⟩
  | pushN es =>
    refine ⟨Ret.unit, lv ++ es, fun pre post => ?_⟩
    obtain ⟨pre', post', hp, _⟩ := PushN_mk3 pre lv post es
    exact ⟨pre', post', by simp [Queue.call, hp, bind, Except.bind, pure, Except.pure]⟩
  | pop =>
    cases lv with
    | nil =>
      exact ⟨Ret.pop default false, [], fun pre post => ⟨[], pre ++ post, by
        simp [Queue.call, Pop_mk3_nil, bind, Except.bind, pure, Except.pure]⟩⟩
    | cons x xs =>
      exact ⟨Ret.pop x true, xs, fun pre post => ⟨pre ++ [default], post, by
        simp [Queue.call, Pop_mk3_cons, bind, Except.bind, pure, Except.pure]⟩⟩
  | popN dst =>
    by_cases hl : lv = []
    · subst hl
      exact ⟨Ret.popN 0 dst, [], fun pre post => ⟨[], pre ++ post, by
        simp [Queue.call, PopN_mk3_nil, bind, Except.bind, pure, Except.pure]⟩⟩
    · exact ⟨Ret.popN (min dst.length lv.length)
        (lv.take (min dst.length lv.length) ++ dst.drop (min dst.length lv.length)),
        lv.drop (min dst.length lv.length), fun pre post =>
        ⟨pre ++ List.replicate (min dst.length lv.length) default, post, by
        simp [Queue.call, PopN_mk3 pre lv post dst hl, bind, Except.bind, pure, Except.pure]⟩⟩
  | skip n =>
    by_cases hl : lv = []
    · subst hl
      exact ⟨Ret.skip 0, [], fun pre post => ⟨[], pre ++ post, by
        simp [Queue.call, Skip_mk3_nil, bind, Except.bind, pure, Except.pure]⟩⟩
    · exact ⟨Ret.skip ((min n lv.length : Nat) : Int), lv.drop (min n lv.length),
        fun pre post => ⟨pre ++ List.replicate (min n lv.length) default, post, by
          have := Skip_mk3 pre lv post n hl (by omega)
          simp only [Int.toNat_ofNat] at this
          simp [Queue.call, this, bind, Except.bind, pure, Except.pure]⟩⟩
  | len =>
    exact ⟨Ret.len lv.length, lv, fun pre post => ⟨pre, post, by
      simp [Queue.call, Len_mk3, pure, Except.pure]⟩⟩
  | empty =>
    exact ⟨Ret.empty lv.isEmpty, lv, fun pre post => ⟨pre, post, by
      simp [Queue.call, Empty_mk3, pure, Except.pure]⟩⟩
  | elems =>
    exact ⟨Ret.elems lv, lv, fun pre post => ⟨pre, post, by
      simp [Queue.call, Elems_mk3, bind, Except.bind, pure, Except.pure]⟩⟩
  | get i =>
    obtain ⟨h0, h1⟩ := hg i rfl
    obtain ⟨k, rfl⟩ := Int.eq_ofNat_of_zero_le h0
    have hk : k < lv.length := by omega
    exact ⟨Ret.get lv[k], lv, fun pre post => ⟨pre, post, by
      simp [Queue.call, Get_mk3 pre lv post k lv[k] (List.getElem?_eq_getElem hk), bind,
        Except.bind, pure, Except.pure]⟩⟩

theorem runCalls_mk3 (cs : List (Call α)) :
    ∀ lv pre1 post1 pre2 post2 : List α,
      getsInRange (Queue.mk3 pre1 lv post1) cs = true →
      getsInRange (Queue.mk3 pre2 lv post2) cs = true ∧
      ∃ obs : List (Ret α × List α),
        runCalls (Queue.mk3 pre1 lv post1) cs = Except.ok obs ∧
        runCalls (Queue.mk3 pre2 lv post2) cs = Except.ok obs := by
  induction cs with
  | nil => intro lv pre1 post1 pre2 post2 _; exact ⟨rfl, [], rfl, rfl⟩
  | cons c cs ih =>
    intro lv pre1 post1 pre2 post2 h
    simp only [getsInRange, Bool.and_eq_true] at h
    obtain ⟨hc, hrest⟩ := h
    have hg : ∀ i : Int, c = Call.get i → 0 ≤ i ∧ i < (lv.length : Int) := by
      intro i hi
      subst hi
      simpa [Len_mk3] using hc
    obtain ⟨r, lv', hcall⟩ := call_mk3 c lv hg
    obtain ⟨preA, postA, hA⟩ := hcall pre1 post1
    obtain ⟨preB, postB, hB⟩ := hcall pre2 post2
    rw [hA] at hrest
    simp only at hrest
    obtain ⟨hB', obs, h1, h2⟩ := ih lv' preA postA preB postB hrest
    refine ⟨?_, (r, lv') :: obs, ?_, ?_⟩
    · simp only [getsInRange, Bool.and_eq_true, hB, hB', and_true]
      cases c <;> first | rfl | (simpa [Len_mk3] using hc)
    · simp [runCalls, hA, Elems_mk3, h1, bind, Except.bind, pure, Except.pure]
    · simp [runCalls, hB, Elems_mk3, h2, bind, Except.bind, pure, Except.pure]

theorem AllZero.append {a b : List α} (ha : AllZero a) (hb : AllZero b) : AllZero (a ++ b) := by
  intro x hx
  rcases List.mem_append.mp hx with h | h
  · exact ha x h
  · exact hb x h

theorem AllZero.take {a : List α} (ha : AllZero a) (n : Nat) : AllZero (a.take n) :=
  fun x hx => ha x (List.mem_of_mem_take hx)

theorem AllZero.drop {a : List α} (ha : AllZero a) (n : Nat) : AllZero (a.drop n) :=
  fun x hx => ha x (List.mem_of_mem_drop hx)

theorem AllZero.replicate (n : Nat) : AllZero (List.replicate n (default : α)) :=
  fun _ hx => (List.mem_replicate.mp hx).2

theorem AllZero.nil : AllZero ([] : List α) := fun _ hx => by simp at hx

theorem AllZero.getElem? {a : List α} (ha : AllZero a) {i : Nat} (hi : i < a.length) :
    a[i]? = some default := by
  rw [List.getElem?_eq_getElem hi]
  exact congrArg some (ha _ (List.getElem_mem _))

theorem sizingRule_fit (c l m n : Int) (h : n ≤ c - l) : sizingRule c l m n = c := by
  simp [sizingRule, h]

theorem grow_mk3_noreset_full (pre lv post : List α) (k : Nat) (hr : lv ≠ [] ∨ pre = []) :
    GrowPostFull pre lv post k ((Queue.mk3 pre lv post).grow k) := by
  have hm : (lv.length : Int) = 0 → pre = [] := by
    intro h0
    rcases hr with hr | hr
    · have := List.length_pos.mpr hr; omega
    · exact hr
  by_cases h : k ≤ post.length
  · refine ⟨pre, post.take k, post.drop k, grow_mk3_fit pre lv post k hr h, by simp [h], ?_,
      Or.inl ⟨h, rfl⟩, fun hp hq => ⟨hp, hq.take k, hq.drop k⟩⟩
    rw [sizingRule_fit _ _ _ _ (by push_cast; omega)]
    simp; omega
  · have h' : post.length < k := by omega
    by_cases hs : (k : Int) ≤ ((pre.length + lv.length + post.length : Nat) : Int) / 2 - lv.length
    · refine ⟨[], (List.replicate pre.length default ++ post).take k,
        (List.replicate pre.length default ++ post).drop k, ?_, ?_, ?_, Or.inr rfl,
        fun _ hq => ⟨AllZero.nil, ((AllZero.replicate _).append hq).take k,
          ((AllZero.replicate _).append hq).drop k⟩⟩
      · simpa using grow_mk3_slide pre lv post k hr h' hs
      · simp; omega
      · simp only [sizingRule, hs, or_true, if_true]
        simp; omega
    · refine ⟨[], List.replicate k default,
        List.replicate (2 * (pre.length + lv.length + post.length) - lv.length) default,
        ?_, ?_, ?_, Or.inr rfl,
        fun _ _ => ⟨AllZero.nil, AllZero.replicate _, AllZero.replicate _⟩⟩
      · simpa using grow_mk3_alloc pre lv post k hr h' hs
      · simp
      · have h1 : ¬ ((k : Int) ≤ ((pre.length + lv.length + post.length : Nat) : Int)
            - ((pre.length + lv.length : Nat) : Int)) := by push_cast; omega
        have h2 : ¬ ((lv.length : Int) = 0 ∧
            (k : Int) ≤ ((pre.length + lv.length + post.length : Nat) : Int)) := by
          rintro ⟨h0, hk⟩
          have := hm h0
          subst this
          simp at hk h'
          omega
        simp only [sizingRule, h1, h2, hs, or_self, if_false]
        simp; omega

theorem sizingRule_drained (c l n : Int) (hl : 0 ≤ l) (hc : 0 ≤ c) :
    sizingRule c l 0 n = sizingRule c 0 0 n := by
  unfold sizingRule
  split_ifs <;> first | rfl | omega

theorem grow_mk3_full (pre lv post : List α) (k : Nat) :
    GrowPostFull pre lv post k ((Queue.mk3 pre lv post).grow k) := by
  by_cases hr : lv ≠ [] ∨ pre = []
  · exact grow_mk3_noreset_full pre lv post k hr
  · have h1 : lv = [] := by
      by_contra h; exact hr (Or.inl h)
    have h2 : pre ≠ [] := fun h => hr (Or.inr h)
    subst h1
    rw [grow_mk3_reset pre post k h2]
    obtain ⟨pre', fill, post', e, hf, hc, hp, hz⟩ :=
      grow_mk3_noreset_full [] [] (pre ++ post) k (Or.inr rfl)
    have hp' : pre' = [] := by
      rcases hp with ⟨_, hp⟩ | hp <;> exact hp
    refine ⟨pre', fill, post', e, hf, ?_, Or.inr hp', fun ha hb => hz AllZero.nil (ha.append hb)⟩
    rw [hc]
    simp only [List.length_nil, List.length_append, Nat.zero_add, Nat.add_zero, Nat.cast_zero]
    rw [sizingRule_drained _ (pre.length : Int) _ (by omega) (by omega)]

/-- The common prologue of `Push` and `PushN`, with the exact capacity, the read
offset and the zero slots. -/
theorem tryGrow_or_grow_mk3_full (pre lv post : List α) (k : Nat) :
    GrowPostFull pre lv post k
      ((Queue.mk3 pre lv post).tryGrowByReslice k >>= fun r =>
        if r.2.1 then pure (r.1, r.2.2) else r.2.2.grow k) := by
  by_cases h : k ≤ post.length
  · refine ⟨pre, post.take k, post.drop k, ?_, by simp [h], ?_, Or.inl ⟨h, rfl⟩,
      fun hp hq => ⟨hp, hq.take k, hq.drop k⟩⟩
    · simp [tryGrowByReslice_mk3_fit pre lv post k h, bind, Except.bind, pure, Except.pure]
    · rw [sizingRule_fit _ _ _ _ (by push_cast; omega)]
      simp; omega
  · have h' : post.length < k := by omega
    simpa [tryGrowByReslice_mk3_full pre lv post k h', bind, Except.bind]
      using grow_mk3_full pre lv post k

theorem Push_mk3_full (pre lv post : List α) (e : α) :
    ∃ pre' post' : List α,
      (Queue.mk3 pre lv post).Push e = Except.ok (Queue.mk3 pre' (lv ++ [e]) post') ∧
      ((pre'.length + lv.length + 1 + post'.length : Nat) : Int) =
        sizingRule ((pre.length + lv.length + post.length : Nat) : Int)
          ((pre.length + lv.length : Nat) : Int) (lv.length : Int) 1 ∧
      ((1 ≤ post.length ∧ pre' = pre) ∨ pre' = []) ∧
      (AllZero pre → AllZero post → AllZero pre' ∧ AllZero post') := by
  obtain ⟨pre', fill, post', hg, hf, hc, hp, hz⟩ := tryGrow_or_grow_mk3_full pre lv post 1
  refine ⟨pre', post', ?_, by simpa using hc, hp, fun ha hb => ⟨(hz ha hb).1, (hz ha hb).2.2⟩⟩
  have hs := setIndex_mk3 pre' lv fill post' e hf
  simp only [Nat.cast_one, bind, Except.bind] at hg
  simp only [Queue.Push, bind, Except.bind]
  cases ht : (Queue.mk3 pre lv post).tryGrowByReslice 1 with
  | error x => rw [ht] at hg; simp at hg
  | ok r =>
    obtain ⟨m, ok, q1⟩ := r
    rw [ht] at hg
    cases ok <;> simp only [if_true, if_false, Bool.false_eq_true] at hg ⊢ <;> rw [hg] <;>
      simp only []
    all_goals
      simp only [hs, pure, Except.pure]
      rfl

theorem PushN_mk3_full (pre lv post es : List α) :
    ∃ pre' post' : List α,
      (Queue.mk3 pre lv post).PushN es = Except.ok (Queue.mk3 pre' (lv ++ es) post') ∧
      ((pre'.length + lv.length + es.length + post'.length : Nat) : Int) =
        sizingRule ((pre.length + lv.length + post.length : Nat) : Int)
          ((pre.length + lv.length : Nat) : Int) (lv.length : Int) (es.length : Int) ∧
      ((es.length ≤ post.length ∧ pre' = pre) ∨ pre' = []) ∧
      (AllZero pre → AllZero post → AllZero pre' ∧ AllZero post') := by
  obtain ⟨pre', fill, post', hg, hf, hc, hp, hz⟩ :=
    tryGrow_or_grow_mk3_full pre lv post es.length
  refine ⟨pre', post', ?_, hc, hp, fun ha hb => ⟨(hz ha hb).1, (hz ha hb).2.2⟩⟩
  have hs := storeTail_mk3 pre' lv fill post' es hf
  have hk : (Queue.mk3 pre' (lv ++ fill) post').buf.check ((pre'.length + lv.length : Nat) : Int)
      (Queue.mk3 pre' (lv ++ fill) post').buf.len = Except.ok () := by
    simp [Slice.check, Slice.cap, Queue.mk3]; omega
  simp only [bind, Except.bind] at hg
  simp only [Queue.PushN, bind, Except.bind]
  cases ht : (Queue.mk3 pre lv post).tryGrowByReslice es.length with
  | error x => rw [ht] at hg; simp at hg
  | ok r =>
    obtain ⟨m, ok, q1⟩ := r
    rw [ht] at hg
    cases ok <;> simp only [if_true, if_false, Bool.false_eq_true] at hg ⊢ <;> rw [hg] <;>
      simp only []
    all_goals
      simp only [hk, Int.toNat_ofNat, hs, pure, Except.pure]
      rfl

theorem Grow_mk3_full (pre lv post : List α) (k : Nat) :
    ∃ pre' post' : List α,
      (Queue.mk3 pre lv post).Grow k = Except.ok (Queue.mk3 pre' lv post') ∧
      k ≤ post'.length ∧
      ((pre'.length + lv.length + post'.length : Nat) : Int) =
        sizingRule ((pre.length + lv.length + post.length : Nat) : Int)
          ((pre.length + lv.length : Nat) : Int) (lv.length : Int) (k : Int) ∧
      ((k ≤ post.length ∧ pre' = pre) ∨ pre' = []) ∧
      (AllZero pre → AllZero post → AllZero pre' ∧ AllZero post') := by
  obtain ⟨pre', fill, post', hg, hf, hc, hp, hz⟩ := grow_mk3_full pre lv post k
  refine ⟨pre', fill ++ post', ?_, by simp; omega, ?_, hp,
    fun ha hb => ⟨(hz ha hb).1, (hz ha hb).2.1.append (hz ha hb).2.2⟩⟩
  · have h0 : ¬ ((k : Int) < 0) := by omega
    simp only [Queue.Grow, hg, bind, Except.bind, pure, Except.pure, h0, if_false]
    rw [reslice_ok _ _ (by omega) (by simp [Queue.mk3]; omega)]
    simp [Queue.mk3]
    omega
  · rw [← hc]; simp [hf]; omega

theorem Step.step_wf {q q' : Queue α} (hs : Step q q') (h : q.WF) : q'.WF := by
  obtain ⟨pre, lv, post, rfl⟩ := h.split
  cases hs with
  | push e hp =>
    obtain ⟨pre', post', hp', _⟩ := Push_mk3 pre lv post e
    rw [hp'] at hp; cases hp; exact WF_mk3 _ _ _
  | pushN es hp =>
    obtain ⟨pre', post', hp', _⟩ := PushN_mk3 pre lv post es
    rw [hp'] at hp; cases hp; exact WF_mk3 _ _ _
  | pop v ok hp =>
    cases lv with
    | nil => rw [Pop_mk3_nil] at hp; cases hp; exact WF_mk3 _ _ _
    | cons x xs => rw [Pop_mk3_cons] at hp; cases hp; exact WF_mk3 _ _ _
  | popN dst dst' n hp =>
    by_cases hl : lv = []
    · subst hl; rw [PopN_mk3_nil] at hp; cases hp; exact WF_mk3 _ _ _
    · rw [PopN_mk3 pre lv post dst hl] at hp; cases hp; exact WF_mk3 _ _ _
  | skip n r hp =>
    by_cases hl : lv = []
    · subst hl; rw [Skip_mk3_nil] at hp; cases hp; exact WF_mk3 _ _ _
    · by_cases hn : 0 ≤ n
      · rw [Skip_mk3 pre lv post n hl hn] at hp; cases hp; exact WF_mk3 _ _ _
      · rw [Skip_mk3_neg pre lv post n hl (by omega)] at hp; cases hp
  | grow n hp =>
    by_cases hn : 0 ≤ n
    · obtain ⟨k, rfl⟩ := Int.eq_ofNat_of_zero_le hn
      obtain ⟨pre', post', hp', _⟩ := Grow_mk3 pre lv post k
      rw [hp'] at hp; cases hp; exact WF_mk3 _ _ _
    · rw [Grow_neg _ n (by omega)] at hp; cases hp
  | reset hp =>
    rw [Reset_mk3] at hp; cases hp; exact WF_mk3 _ _ _

theorem ReachableFrom.from_wf {q0 q : Queue α} (h : ReachableFrom q0 q) (h0 : q0.WF) : q.WF := by
  induction h with
  | start => exact h0
  | step _ hs ih => exact hs.step_wf ih

theorem NewQueue_wf (buf : Slice α) (h : buf.len ≤ buf.cap) : (NewQueue buf).WF := by
  simp [Queue.WF, NewQueue, h]

/-- Every reachable state splits into zero slots, live elements, zero slots. -/
theorem Reachable.split_zero {q : Queue α} (h : Reachable q) :
    ∃ pre lv post : List α, q = Queue.mk3 pre lv post ∧ AllZero pre ∧ AllZero post := by
  induction h with
  | zero => exact ⟨[], [], [], rfl, AllZero.nil, AllZero.nil⟩
  | push e _ hp ih =>
    obtain ⟨pre, lv, post, rfl, ha, hb⟩ := ih
    obtain ⟨pre', post', hp', _, _, hz⟩ := Push_mk3_full pre lv post e
    rw [hp'] at hp; cases hp
    exact ⟨_, _, _, rfl, (hz ha hb).1, (hz ha hb).2⟩
  | pushN es _ hp ih =>
    obtain ⟨pre, lv, post, rfl, ha, hb⟩ := ih
    obtain ⟨pre', post', hp', _, _, hz⟩ := PushN_mk3_full pre lv post es
    rw [hp'] at hp; cases hp
    exact ⟨_, _, _, rfl, (hz ha hb).1, (hz ha hb).2⟩
  | pop v ok _ hp ih =>
    obtain ⟨pre, lv, post, rfl, ha, hb⟩ := ih
    cases lv with
    | nil =>
      rw [Pop_mk3_nil] at hp; cases hp
      exact ⟨_, _, _, rfl, AllZero.nil, ha.append hb⟩
    | cons x xs =>
      rw [Pop_mk3_cons] at hp; cases hp
      exact ⟨_, _, _, rfl, ha.append (AllZero.replicate 1), hb⟩
  | popN dst dst' n _ hp ih =>
    obtain ⟨pre, lv, post, rfl, ha, hb⟩ := ih
    by_cases hl : lv = []
    · subst hl; rw [PopN_mk3_nil] at hp; cases hp
      exact ⟨_, _, _, rfl, AllZero.nil, ha.append hb⟩
    · rw [PopN_mk3 pre lv post dst hl] at hp; cases hp
      exact ⟨_, _, _, rfl, ha.append (AllZero.replicate _), hb⟩
  | skip n r _ hp ih =>
    obtain ⟨pre, lv, post, rfl, ha, hb⟩ := ih
    by_cases hl : lv = []
    · subst hl; rw [Skip_mk3_nil] at hp; cases hp
      exact ⟨_, _, _, rfl, AllZero.nil, ha.append hb⟩
    · by_cases hn : 0 ≤ n
      · rw [Skip_mk3 pre lv post n hl hn] at hp; cases hp
        exact ⟨_, _, _, rfl, ha.append (AllZero.replicate _), hb⟩
      · rw [Skip_mk3_neg pre lv post n hl (by omega)] at hp; cases hp
  | grow n _ hp ih =>
    obtain ⟨pre, lv, post, rfl, ha, hb⟩ := ih
    by_cases hn : 0 ≤ n
    · obtain ⟨k, rfl⟩ := Int.eq_ofNat_of_zero_le hn
      obtain ⟨pre', post', hp', _, _, _, hz⟩ := Grow_mk3_full pre lv post k
      rw [hp'] at hp; cases hp
      exact ⟨_, _, _, rfl, (hz ha hb).1, (hz ha hb).2⟩
    · rw [Grow_neg _ n (by omega)] at hp; cases hp
  | reset _ hp ih =>
    obtain ⟨pre, lv, post, rfl, ha, hb⟩ := ih
    rw [Reset_mk3] at hp; cases hp
    exact ⟨_, _, _, rfl, AllZero.nil, ha.append ((AllZero.replicate _).append hb)⟩

theorem Clean_mk3 (pre lv post : List α) (ha : AllZero pre) (hb : AllZero post) :
    (Queue.mk3 pre lv post).Clean := by
  intro i hi hout
  simp only [Queue.mk3, Slice.cap, List.length_append] at hi hout ⊢
  rcases hout with h | h
  · rw [List.getElem?_append_left h]
    exact ha.getElem? h
  · have hp : pre.length ≤ i := by omega
    have hv : lv.length ≤ i - pre.length := by omega
    rw [@List.getElem?_append_right _ pre _ _ hp, @List.getElem?_append_right _ lv _ _ hv]
    exact hb.getElem? (by omega)

theorem growAlloc_old_mk3 (pre lv post : List α) (c n : Int) (new old : Slice α)
    (h : (Queue.mk3 pre lv post).growAlloc c n = Except.ok (new, old)) :
    old = ⟨pre ++ (List.replicate lv.length default ++ post), pre.length + lv.length⟩ := by
  by_cases h0 : 2 * c + n < 0
  · simp [Queue.growAlloc, Slice.make, h0, bind, Except.bind] at h
  · simp [Queue.growAlloc, Slice.make, Slice.check, Slice.cap, Slice.store, Slice.view,
      resetSlice_eq, bind, Except.bind, pure, Except.pure, Queue.mk3, List.take_append,
      List.take_left, List.drop_left, List.drop_append, Int.add_nonneg, h0] at h
    exact h.2.symm

theorem sizingRule_ge (c l m n : Int) (hc : 0 ≤ c) (hn : 0 ≤ n) : c ≤ sizingRule c l m n := by
  unfold sizingRule
  split_ifs <;> omega

/-- The index returned by `grow` and the read offset afterwards, path by path. -/
theorem grow_mk3_index (pre lv post : List α) (k : Nat) :
    ∃ pre' fill post' : List α,
      (Queue.mk3 pre lv post).grow k =
        Except.ok (((pre'.length + lv.length : Nat) : Int), Queue.mk3 pre' (lv ++ fill) post') ∧
      fill.length = k ∧
      (((lv ≠ [] ∨ pre = []) ∧ k ≤ post.length) → pre' = pre) ∧
      (¬ ((lv ≠ [] ∨ pre = []) ∧ k ≤ post.length) → pre' = []) := by
  by_cases hr : lv ≠ [] ∨ pre = []
  · by_cases h : k ≤ post.length
    · exact ⟨pre, post.take k, post.drop k, grow_mk3_fit pre lv post k hr h, by simp [h],
        fun _ => rfl, fun hn => absurd ⟨hr, h⟩ hn⟩
    · obtain ⟨pre', fill, post', e, hf, _, hp, _⟩ := grow_mk3_full pre lv post k
      have hp' : pre' = [] := by
        rcases hp with ⟨hk, _⟩ | hp
        · exact absurd hk h
        · exact hp
      exact ⟨pre', fill, post', e, hf, fun hh => absurd hh.2 h, fun _ => hp'⟩
  · have h1 : lv = [] := by
      by_contra h; exact hr (Or.inl h)
    have h2 : pre ≠ [] := fun h => hr (Or.inr h)
    subst h1
    rw [grow_mk3_reset pre post k h2]
    obtain ⟨pre', fill, post', e, hf, _, hp, _⟩ := grow_mk3_full [] [] (pre ++ post) k
    have hp' : pre' = [] := by
      rcases hp with ⟨_, hp⟩ | hp <;> exact hp
    exact ⟨pre', fill, post', e, hf, fun hh => absurd hh.1 hr, fun _ => hp'⟩

theorem ResetT_of_ok {q q' : Queue α} (h : q.Reset = Except.ok q') :
    q.ResetT = (Except.ok (), q') := by
  unfold Queue.Reset at h
  unfold Queue.ResetT
  simp only [bind, Except.bind, pure, Except.pure] at h
  cases hc : q.buf.check q.off q.buf.len with
  | error e => rw [hc] at h; cases h
  | ok u =>
    rw [hc] at h
    simp only at h ⊢
    cases hr : (q.buf.store q.off (resetSlice (q.buf.view q.off q.buf.len))).reslice 0 with
    | error e => rw [hr] at h; cases h
    | ok b => rw [hr] at h; cases h; rfl

theorem tryGrowByResliceT_of_ok {q q' : Queue α} {n i : Int} {b : Bool}
    (h : q.tryGrowByReslice n = Except.ok (i, b, q')) :
    q.tryGrowByResliceT n = (Except.ok (i, b), q') := by
  unfold Queue.tryGrowByReslice at h
  unfold Queue.tryGrowByResliceT
  simp only [bind, Except.bind, pure, Except.pure] at h
  by_cases hc : n ≤ (q.buf.cap : Int) - (q.buf.len : Int)
  · simp only [hc, if_true] at h ⊢
    cases hr : q.buf.reslice ((q.buf.len : Int) + n) with
    | error e => rw [hr] at h; cases h
    | ok bf => rw [hr] at h; cases h; rfl
  · simp only [hc, if_false] at h ⊢
    cases h; rfl

theorem growSlideT_of_ok {q : Queue α} {m : Int} {buf : Slice α}
    (h : q.growSlide m = Except.ok buf) :
    q.growSlideT m = (Except.ok (), { q with buf := buf }) := by
  unfold Queue.growSlide at h
  unfold Queue.growSlideT
  simp only [bind, Except.bind, pure, Except.pure] at h
  cases hc : q.buf.check q.off q.buf.len with
  | error e => rw [hc] at h; cases h
  | ok u =>
    rw [hc] at h
    simp only at h ⊢
    cases hr : (q.buf.store 0 (copy (q.buf.view 0 q.buf.len)
        (q.buf.view q.off q.buf.len)).1).check m
        (q.buf.store 0 (copy (q.buf.view 0 q.buf.len) (q.buf.view q.off q.buf.len)).1).len with
    | error e => rw [hr] at h; cases h
    | ok b => rw [hr] at h; cases h; rfl

theorem wrapInt_of_range (x : Int) (h0 : -9223372036854775808 ≤ x)
    (h1 : x < 9223372036854775808) : wrapInt x = x := by
  unfold wrapInt
  omega

theorem makeLim_ok (lim : Nat) (n : Int) (h0 : 0 ≤ n) (h1 : n ≤ lim) :
    (Slice.makeLim lim n : Except Panic (Slice α)) = Slice.make n := by
  have a : ¬ (n < 0 ∨ (lim : Int) < n) := by omega
  have b : ¬ (n < 0) := by omega
  simp only [Slice.makeLim, Slice.make, if_neg a, if_neg b]

theorem makeLim_fail (lim : Nat) (n : Int) (h : n < 0 ∨ (lim : Int) < n) :
    (Slice.makeLim lim n : Except Panic (Slice α)) = Except.error Panic.makeLen := by
  simp [Slice.makeLim, h]

theorem growAllocT_of_ok {q : Queue α} {lim : Nat} {c n : Int} {new old : Slice α}
    (h0 : 0 ≤ 2 * c + n) (h1 : 2 * c + n ≤ lim) (hlim : lim < 9223372036854775808)
    (h : q.growAlloc c n = Except.ok (new, old)) :
    q.growAllocT lim c n = (Except.ok old, { q with buf := new }) := by
  have hw : wrapInt (2 * c + n) = 2 * c + n := wrapInt_of_range _ (by omega) (by omega)
  unfold Queue.growAlloc at h
  unfold Queue.growAllocT
  rw [hw, makeLim_ok lim _ h0 h1]
  simp only [bind, Except.bind, pure, Except.pure] at h
  cases hm : (Slice.make (2 * c + n) : Except Panic (Slice α)) with
  | error e => rw [hm] at h; cases h
  | ok bf =>
    rw [hm] at h
    simp only at h ⊢
    cases hc : q.buf.check q.off q.buf.len with
    | error e => rw [hc] at h; cases h
    | ok u => rw [hc] at h; cases h; rfl

theorem growAllocT_fail (q : Queue α) (lim : Nat) (c n : Int)
    (h : wrapInt (2 * c + n) < 0 ∨ (lim : Int) < wrapInt (2 * c + n)) :
    q.growAllocT lim c n = (Except.error Panic.makeLen, q) := by
  unfold Queue.growAllocT
  rw [makeLim_fail lim _ h]

theorem growT_mk3_reset (lim : Nat) (pre post : List α) (n : Int) (h : pre ≠ []) :
    (Queue.mk3 pre [] post).growT lim n = (Queue.mk3 [] [] (pre ++ post)).growT lim n := by
  have hl : pre.length ≠ 0 := fun h0 => h (List.length_eq_zero.mp h0)
  have e1 : (Queue.mk3 pre [] post).off ≠ 0 := by simpa [Queue.mk3] using hl
  have e2 : (Queue.mk3 ([] : List α) [] (pre ++ post)).off = 0 := by simp [Queue.mk3]
  have hR := ResetT_of_ok (Reset_mk3 pre [] post)
  simp only [List.length_nil, List.replicate, List.nil_append] at hR
  simp only [Queue.growT, Len_mk3, hR, e1, e2, List.length_nil, Nat.cast_zero,
    ne_eq, not_true_eq_false, not_false_eq_true, and_self, and_false, if_true, if_false]

theorem growT_mk3_fit (lim : Nat) (pre lv post : List α) (k : Nat)
    (hr : lv ≠ [] ∨ pre = []) (h : k ≤ post.length) :
    (Queue.mk3 pre lv post).growT lim k =
      (Except.ok (((pre.length + lv.length : Nat) : Int)),
        Queue.mk3 pre (lv ++ post.take k) (post.drop k), none) := by
  have hc : ¬ ((lv.length : Int) = 0 ∧ (Queue.mk3 pre lv post).off ≠ 0) := by
    rcases hr with hr | hr
    · have := List.length_pos.mpr hr; omega
    · simp [Queue.mk3, hr]
  simp only [Queue.growT, Len_mk3, if_neg hc,
    tryGrowByResliceT_of_ok (tryGrowByReslice_mk3_fit pre lv post k h)]

theorem growT_mk3_slide (lim : Nat) (pre lv post : List α) (k : Nat)
    (hr : lv ≠ [] ∨ pre = []) (h : post.length < k)
    (hs : (k : Int) ≤ ((pre.length + lv.length + post.length : Nat) : Int) / 2 - lv.length) :
    (Queue.mk3 pre lv post).growT lim k =
      (Except.ok (lv.length : Int),
        Queue.mk3 [] (lv ++ (List.replicate pre.length default ++ post).take k)
          ((List.replicate pre.length default ++ post).drop k), none) := by
  have hc : ¬ ((lv.length : Int) = 0 ∧ (Queue.mk3 pre lv post).off ≠ 0) := by
    rcases hr with hr | hr
    · have := List.length_pos.mpr hr; omega
    · simp [Queue.mk3, hr]
  have hcap : (Queue.mk3 pre lv post).buf.cap = pre.length + lv.length + post.length :=
    Cap_mk3 pre lv post
  simp only [Queue.growT, Len_mk3, if_neg hc,
    tryGrowByResliceT_of_ok (tryGrowByReslice_mk3_full pre lv post k h), hcap, if_pos hs,
    growSlideT_of_ok (growSlide_mk3 pre lv post)]
  rw [reslice_ok _ _ (by omega) (by simp; omega)]
  have e1 : ((lv.length : Int) + k).toNat = lv.length + k := by omega
  have e2 : min k (pre.length + post.length) = k := by omega
  simp [Queue.mk3, e1, e2]

theorem growT_mk3_alloc (lim : Nat) (pre lv post : List α) (k : Nat)
    (hr : lv ≠ [] ∨ pre = []) (h : post.length < k)
    (hs : ¬ (k : Int) ≤ ((pre.length + lv.length + post.length : Nat) : Int) / 2 - lv.length)
    (hb : 2 * (pre.length + lv.length + post.length) + k ≤ lim)
    (hlim : lim < 9223372036854775808) :
    (Queue.mk3 pre lv post).growT lim k =
      (Except.ok (lv.length : Int),
        Queue.mk3 [] (lv ++ List.replicate k default)
          (List.replicate (2 * (pre.length + lv.length + post.length) - lv.length) default),
        some ⟨pre ++ (List.replicate lv.length default ++ post), pre.length + lv.length⟩) := by
  have hc : ¬ ((lv.length : Int) = 0 ∧ (Queue.mk3 pre lv post).off ≠ 0) := by
    rcases hr with hr | hr
    · have := List.length_pos.mpr hr; omega
    · simp [Queue.mk3, hr]
  have hcap : (Queue.mk3 pre lv post).buf.cap = pre.length + lv.length + post.length :=
    Cap_mk3 pre lv post
  have ha := growAllocT_of_ok (by omega) (by push_cast; omega) hlim
    (growAlloc_mk3 pre lv post ((pre.length + lv.length + post.length : Nat) : Int) k
      (by omega))
  simp only [Queue.growT, Len_mk3, if_neg hc,
    tryGrowByResliceT_of_ok (tryGrowByReslice_mk3_full pre lv post k h), hcap, if_neg hs, ha]
  rw [reslice_ok _ _ (by omega) (by simp; omega)]
  have e1 : ((lv.length : Int) + k).toNat = lv.length + k := by omega
  simp [Queue.mk3, e1]
  omega

theorem growT_mk3_allocfail (lim : Nat) (pre lv post : List α) (k : Nat)
    (hr : lv ≠ [] ∨ pre = []) (h : post.length < k)
    (hs : ¬ (k : Int) ≤ ((pre.length + lv.length + post.length : Nat) : Int) / 2 - lv.length)
    (hf : wrapInt (2 * ((pre.length + lv.length + post.length : Nat) : Int) + k) < 0 ∨
      (lim : Int) < wrapInt (2 * ((pre.length + lv.length + post.length : Nat) : Int) + k)) :
    (Queue.mk3 pre lv post).growT lim k =
      (Except.error Panic.makeLen, Queue.mk3 pre lv post, none) := by
  have hc : ¬ ((lv.length : Int) = 0 ∧ (Queue.mk3 pre lv post).off ≠ 0) := by
    rcases hr with hr | hr
    · have := List.length_pos.mpr hr; omega
    · simp [Queue.mk3, hr]
  have hcap : (Queue.mk3 pre lv post).buf.cap = pre.length + lv.length + post.length :=
    Cap_mk3 pre lv post
  simp only [Queue.growT, Len_mk3, if_neg hc,
    tryGrowByResliceT_of_ok (tryGrowByReslice_mk3_full pre lv post k h), hcap, if_neg hs,
    growAllocT_fail _ lim _ _ hf]

/-- Within the allocation limit the tracked `grow` returns what `grow` returns. -/
theorem growT_agree_mk3 (lim : Nat) (pre lv post : List α) (k : Nat)
    (hlim : lim < 9223372036854775808)
    (hb : fitsInPlace ((pre.length + lv.length + post.length : Nat) : Int)
        ((pre.length + lv.length : Nat) : Int) (lv.length : Int) (k : Int) ∨
      2 * (pre.length + lv.length + post.length) + k ≤ lim) :
    ∃ (i : Int) (q' : Queue α) (old : Option (Slice α)),
      (Queue.mk3 pre lv post).growT lim k = (Except.ok i, q', old) ∧
      (Queue.mk3 pre lv post).grow k = Except.ok (i, q') := by
  by_cases hr : lv ≠ [] ∨ pre = []
  · by_cases h : k ≤ post.length
    · exact ⟨_, _, _, growT_mk3_fit lim pre lv post k hr h, grow_mk3_fit pre lv post k hr h⟩
    · have h' : post.length < k := by omega
      by_cases hs : (k : Int) ≤
          ((pre.length + lv.length + post.length : Nat) : Int) / 2 - lv.length
      · exact ⟨_, _, _, growT_mk3_slide lim pre lv post k hr h' hs,
          grow_mk3_slide pre lv post k hr h' hs⟩
      · have hb' : 2 * (pre.length + lv.length + post.length) + k ≤ lim := by
          rcases hb with hb | hb
          · exfalso
            unfold fitsInPlace at hb
            rcases hb with hb | ⟨hm, hb⟩ | hb
            · push_cast at hb; omega
            · have hp : pre = [] := by
                rcases hr with hr | hr
                · have := List.length_pos.mpr hr; omega
                · exact hr
              subst hp
              simp at hb h'
              omega
            · exact hs hb
          · exact hb
        exact ⟨_, _, _, growT_mk3_alloc lim pre lv post k hr h' hs hb' hlim,
          grow_mk3_alloc pre lv post k hr h' hs⟩
  · have h1 : lv = [] := by
      by_contra h; exact hr (Or.inl h)
    have h2 : pre ≠ [] := fun h => hr (Or.inr h)
    subst h1
    rw [growT_mk3_reset lim pre post k h2, grow_mk3_reset pre post k h2]
    by_cases h : k ≤ (pre ++ post).length
    · exact ⟨_, _, _, growT_mk3_fit lim [] [] (pre ++ post) k (Or.inr rfl) h,
        grow_mk3_fit [] [] (pre ++ post) k (Or.inr rfl) h⟩
    · have h' : (pre ++ post).length < k := by omega
      have hlen : (pre ++ post).length = pre.length + post.length := List.length_append _ _
      have hs : ¬ (k : Int) ≤
          ((([] : List α).length + ([] : List α).length + (pre ++ post).length : Nat) : Int) / 2
            - (([] : List α).length : Int) := by
        simp only [List.length_nil, Nat.zero_add, Nat.cast_zero, sub_zero]
        omega
      have hb' : 2 * (([] : List α).length + ([] : List α).length + (pre ++ post).length) + k
          ≤ lim := by
        simp only [List.length_nil, Nat.zero_add]
        rcases hb with hb | hb
        · exfalso
          unfold fitsInPlace at hb
          simp only [List.length_nil, Nat.add_zero, Nat.cast_zero] at hb
          rcases hb with hb | ⟨_, hb⟩ | hb <;> omega
        · simp only [List.length_nil, Nat.add_zero] at hb
          omega
      exact ⟨_, _, _, growT_mk3_alloc lim [] [] (pre ++ post) k (Or.inr rfl) h' hs hb' hlim,
        grow_mk3_alloc [] [] (pre ++ post) k (Or.inr rfl) h' hs⟩

/-- Beyond the allocation limit the tracked `grow` panics in `make`, after a
drained buffer has been reset. -/
theorem growT_fail_mk3 (lim : Nat) (pre lv post : List α) (k : Nat)
    (hnf : ¬ fitsInPlace ((pre.length + lv.length + post.length : Nat) : Int)
        ((pre.length + lv.length : Nat) : Int) (lv.length : Int) (k : Int))
    (hf : wrapInt (2 * ((pre.length + lv.length + post.length : Nat) : Int) + k) < 0 ∨
      (lim : Int) < wrapInt (2 * ((pre.length + lv.length + post.length : Nat) : Int) + k)) :
    (Queue.mk3 pre lv post).growT lim k =
      (Except.error Panic.makeLen,
        if lv.length = 0 ∧ pre.length ≠ 0 then Queue.mk3 [] [] (pre ++ post)
        else Queue.mk3 pre lv post,
        none) := by
  unfold fitsInPlace at hnf
  have n1 : ¬ (k : Int) ≤ ((pre.length + lv.length + post.length : Nat) : Int)
      - ((pre.length + lv.length : Nat) : Int) := fun h => hnf (Or.inl h)
  have n2 : ¬ ((lv.length : Int) = 0 ∧
      (k : Int) ≤ ((pre.length + lv.length + post.length : Nat) : Int)) :=
    fun h => hnf (Or.inr (Or.inl h))
  have n3 : ¬ (k : Int) ≤ ((pre.length + lv.length + post.length : Nat) : Int) / 2
      - lv.length := fun h => hnf (Or.inr (Or.inr h))
  by_cases hr : lv ≠ [] ∨ pre = []
  · have hq : ¬ (lv.length = 0 ∧ pre.length ≠ 0) := by
      rintro ⟨a, b⟩
      rcases hr with hr | hr
      · exact hr (List.length_eq_zero.mp a)
      · exact b (by simp [hr])
    rw [if_neg hq]
    exact growT_mk3_allocfail lim pre lv post k hr (by push_cast at n1; omega) n3 hf
  · have h1 : lv = [] := by
      by_contra h; exact hr (Or.inl h)
    have h2 : pre ≠ [] := fun h => hr (Or.inr h)
    subst h1
    have hq : ([] : List α).length = 0 ∧ pre.length ≠ 0 :=
      ⟨rfl, fun h0 => h2 (List.length_eq_zero.mp h0)⟩
    rw [if_pos hq, growT_mk3_reset lim pre post k h2]
    have hlen : (pre ++ post).length = pre.length + post.length := List.length_append _ _
    simp only [List.length_nil, Nat.add_zero, Nat.cast_zero, true_and] at n2 n3 hf
    refine growT_mk3_allocfail lim [] [] (pre ++ post) k (Or.inr rfl) ?_ ?_ ?_
    · push_cast at n2; omega
    · simp only [List.length_nil, Nat.zero_add, Nat.cast_zero, sub_zero]
      rw [hlen]
      simpa using n3
    · simp only [List.length_nil, Nat.zero_add]
      rw [hlen]
      exact hf

theorem GrowT_neg (lim : Nat) (q : Queue α) (n : Int) (hn : n < 0) :
    q.GrowT lim n = (Except.error Panic.growNegativeCount, q) := by
  simp [Queue.GrowT, hn]

theorem tryGrowOrGrowT_mk3_fit (lim : Nat) (pre lv post : List α) (k : Nat)
    (h : k ≤ post.length) :
    (Queue.mk3 pre lv post).tryGrowOrGrowT lim k =
      (Except.ok (((pre.length + lv.length : Nat) : Int)),
        Queue.mk3 pre (lv ++ post.take k) (post.drop k), none) := by
  simp only [Queue.tryGrowOrGrowT,
    tryGrowByResliceT_of_ok (tryGrowByReslice_mk3_fit pre lv post k h)]

theorem tryGrowOrGrowT_mk3_full (lim : Nat) (pre lv post : List α) (k : Nat)
    (h : post.length < k) :
    (Queue.mk3 pre lv post).tryGrowOrGrowT lim k = (Queue.mk3 pre lv post).growT lim k := by
  simp only [Queue.tryGrowOrGrowT,
    tryGrowByResliceT_of_ok (tryGrowByReslice_mk3_full pre lv post k h)]

/-- Within the allocation limit the tracked prologue of `Push` and `PushN`
returns normally, with the postcondition of `GrowPostFull`. -/
theorem tryGrowOrGrowT_ok_mk3 (lim : Nat) (pre lv post : List α) (k : Nat)
    (hlim : lim < 9223372036854775808)
    (hb : fitsInPlace ((pre.length + lv.length + post.length : Nat) : Int)
        ((pre.length + lv.length : Nat) : Int) (lv.length : Int) (k : Int) ∨
      2 * (pre.length + lv.length + post.length) + k ≤ lim) :
    ∃ (i : Int) (q' : Queue α) (old : Option (Slice α)),
      (Queue.mk3 pre lv post).tryGrowOrGrowT lim k = (Except.ok i, q', old) ∧
      GrowPostFull pre lv post k (Except.ok (i, q')) := by
  by_cases h : k ≤ post.length
  · refine ⟨_, _, _, tryGrowOrGrowT_mk3_fit lim pre lv post k h, ?_⟩
    have := tryGrow_or_grow_mk3_full pre lv post k
    simpa [tryGrowByReslice_mk3_fit pre lv post k h, bind, Except.bind, pure, Except.pure]
      using this
  · have h' : post.length < k := by omega
    obtain ⟨i, q', old, hT, hB⟩ := growT_agree_mk3 lim pre lv post k hlim hb
    refine ⟨i, q', old, by rw [tryGrowOrGrowT_mk3_full lim pre lv post k h', hT], ?_⟩
    have := grow_mk3_full pre lv post k
    rwa [hB] at this

/-- Beyond the allocation limit the tracked prologue panics in `make`. -/
theorem tryGrowOrGrowT_fail_mk3 (lim : Nat) (pre lv post : List α) (k : Nat)
    (hnf : ¬ fitsInPlace ((pre.length + lv.length + post.length : Nat) : Int)
        ((pre.length + lv.length : Nat) : Int) (lv.length : Int) (k : Int))
    (hf : wrapInt (2 * ((pre.length + lv.length + post.length : Nat) : Int) + k) < 0 ∨
      (lim : Int) < wrapInt (2 * ((pre.length + lv.length + post.length : Nat) : Int) + k)) :
    (Queue.mk3 pre lv post).tryGrowOrGrowT lim k =
      (Except.error Panic.makeLen,
        if lv.length = 0 ∧ pre.length ≠ 0 then Queue.mk3 [] [] (pre ++ post)
        else Queue.mk3 pre lv post,
        none) := by
  have h' : post.length < k := by
    by_contra hc
    apply hnf
    left
    push_cast
    omega
  rw [tryGrowOrGrowT_mk3_full lim pre lv post k h']
  exact growT_fail_mk3 lim pre lv post k hnf hf

theorem GrowT_ok_mk3 (lim : Nat) (pre lv post : List α) (k : Nat)
    (hlim : lim < 9223372036854775808)
    (hb : fitsInPlace ((pre.length + lv.length + post.length : Nat) : Int)
        ((pre.length + lv.length : Nat) : Int) (lv.length : Int) (k : Int) ∨
      2 * (pre.length + lv.length + post.length) + k ≤ lim) :
    ∃ pre' post' : List α,
      (Queue.mk3 pre lv post).GrowT lim k = (Except.ok (), Queue.mk3 pre' lv post') ∧
      (Queue.mk3 pre lv post).Grow k = Except.ok (Queue.mk3 pre' lv post') ∧
      k ≤ post'.length ∧
      ((pre'.length + lv.length + post'.length : Nat) : Int) =
        sizingRule ((pre.length + lv.length + post.length : Nat) : Int)
          ((pre.length + lv.length : Nat) : Int) (lv.length : Int) (k : Int) ∧
      ((k ≤ post.length ∧ pre' = pre) ∨ pre' = []) ∧
      (AllZero pre → AllZero post → AllZero pre' ∧ AllZero post') := by
  obtain ⟨i, q', old, hT, hB⟩ := growT_agree_mk3 lim pre lv post k hlim hb
  obtain ⟨pre', fill, post', hg, hf, hc, hp, hz⟩ := grow_mk3_full pre lv post k
  rw [hB] at hg
  simp only [Except.ok.injEq, Prod.mk.injEq] at hg
  obtain ⟨rfl, rfl⟩ := hg
  have h0 : ¬ ((k : Int) < 0) := by omega
  have hres := reslice_ok (Queue.mk3 pre' (lv ++ fill) post').buf
    ((pre'.length + lv.length : Nat) : Int) (by omega) (by simp [Queue.mk3]; omega)
  have heq : ({ Queue.mk3 pre' (lv ++ fill) post' with
      buf := { (Queue.mk3 pre' (lv ++ fill) post').buf with
        len := (((pre'.length + lv.length : Nat) : Int)).toNat } } : Queue α)
      = Queue.mk3 pre' lv (fill ++ post') := by
    have ht : (((pre'.length : Int) + (lv.length : Int))).toNat = pre'.length + lv.length := by
      omega
    simp [Queue.mk3, ht]
  refine ⟨pre', fill ++ post', ?_, ?_, by simp; omega, ?_, hp,
    fun ha hb => ⟨(hz ha hb).1, (hz ha hb).2.1.append (hz ha hb).2.2⟩⟩
  · simp only [Queue.GrowT, if_neg h0, hT, hres, heq]
  · simp only [Queue.Grow, hB, bind, Except.bind, pure, Except.pure, h0, if_false, hres, heq]
  · rw [← hc]; simp [hf]; omega

theorem GrowT_fail_mk3 (lim : Nat) (pre lv post : List α) (k : Nat)
    (hnf : ¬ fitsInPlace ((pre.length + lv.length + post.length : Nat) : Int)
        ((pre.length + lv.length : Nat) : Int) (lv.length : Int) (k : Int))
    (hf : wrapInt (2 * ((pre.length + lv.length + post.length : Nat) : Int) + k) < 0 ∨
      (lim : Int) < wrapInt (2 * ((pre.length + lv.length + post.length : Nat) : Int) + k)) :
    (Queue.mk3 pre lv post).GrowT lim k =
      (Except.error Panic.makeLen,
        if lv.length = 0 ∧ pre.length ≠ 0 then Queue.mk3 [] [] (pre ++ post)
        else Queue.mk3 pre lv post) := by
  have h0 : ¬ ((k : Int) < 0) := by omega
  simp only [Queue.GrowT, if_neg h0, growT_fail_mk3 lim pre lv post k hnf hf]

theorem copy_fst_length (dst src : List α) : (copy dst src).1.length = dst.length := by
  simp [copy]

theorem copy_full (dst src : List α) (h : dst.length = src.length) : (copy dst src).1 = src := by
  simp [copy, h]

theorem storeTail_any (pre lv fill post src : List α) :
    (Queue.mk3 pre (lv ++ fill) post).buf.store (pre.length + lv.length)
      (copy ((Queue.mk3 pre (lv ++ fill) post).buf.view (pre.length + lv.length)
        (Queue.mk3 pre (lv ++ fill) post).buf.len) src).1 =
      (Queue.mk3 pre (lv ++ (copy fill src).1) post).buf := by
  have v : (Queue.mk3 pre (lv ++ fill) post).buf.view (pre.length + lv.length)
      (Queue.mk3 pre (lv ++ fill) post).buf.len = fill := by
    simp [Slice.view, Queue.mk3, ← Nat.add_assoc, drop_take4]
  rw [v]
  have hl := copy_fst_length fill src
  generalize (copy fill src).1 = w at hl
  simp [Slice.store, Queue.mk3, ← Nat.add_assoc, drop4, take4, hl]

theorem check_tail_mk3 (pre lv fill post : List α) :
    (Queue.mk3 pre (lv ++ fill) post).buf.check ((pre.length + lv.length : Nat) : Int)
      (Queue.mk3 pre (lv ++ fill) post).buf.len = Except.ok () := by
  simp [Slice.check, Slice.cap, Queue.mk3]; omega

/-- Within the allocation limit the tracked `Push` returns normally. -/
theorem PushT_ok_mk3 (lim : Nat) (pre lv post : List α) (e : α)
    (hlim : lim < 9223372036854775808)
    (hb : fitsInPlace ((pre.length + lv.length + post.length : Nat) : Int)
        ((pre.length + lv.length : Nat) : Int) (lv.length : Int) 1 ∨
      2 * (pre.length + lv.length + post.length) + 1 ≤ lim) :
    ∃ pre' post' : List α,
      (Queue.mk3 pre lv post).PushT lim e = (Except.ok (), Queue.mk3 pre' (lv ++ [e]) post') ∧
      ((pre'.length + lv.length + 1 + post'.length : Nat) : Int) =
        sizingRule ((pre.length + lv.length + post.length : Nat) : Int)
          ((pre.length + lv.length : Nat) : Int) (lv.length : Int) 1 ∧
      ((1 ≤ post.length ∧ pre' = pre) ∨ pre' = []) := by
  obtain ⟨i, q', old, hT, pre', fill, post', hg, hf, hc, hp, _⟩ :=
    tryGrowOrGrowT_ok_mk3 lim pre lv post 1 hlim (by simpa using hb)
  simp only [Except.ok.injEq, Prod.mk.injEq] at hg
  obtain ⟨rfl, rfl⟩ := hg
  refine ⟨pre', post', ?_, by simpa using hc, hp⟩
  simp only [Nat.cast_one] at hT
  simp only [Queue.PushT, hT, setIndex_mk3 pre' lv fill post' e hf]
  rfl

/-- Within the allocation limit the tracked `PushN` returns normally, whatever
storage its argument has; `w` is what `copy` wrote into the new slots. -/
theorem PushNT_ok_mk3 (lim : Nat) (pre lv post : List α) (a : SliceArg α)
    (hlim : lim < 9223372036854775808)
    (hb : fitsInPlace ((pre.length + lv.length + post.length : Nat) : Int)
        ((pre.length + lv.length : Nat) : Int) (lv.length : Int) (a.len : Int) ∨
      2 * (pre.length + lv.length + post.length) + a.len ≤ lim) :
    ∃ pre' post' w : List α,
      (Queue.mk3 pre lv post).PushNT lim a = (Except.ok (), Queue.mk3 pre' (lv ++ w) post') ∧
      w.length = a.len ∧
      ((pre'.length + lv.length + a.len + post'.length : Nat) : Int) =
        sizingRule ((pre.length + lv.length + post.length : Nat) : Int)
          ((pre.length + lv.length : Nat) : Int) (lv.length : Int) (a.len : Int) ∧
      ((a.len ≤ post.length ∧ pre' = pre) ∨ pre' = []) ∧
      (∀ es : List α, a = SliceArg.own es → w = es) := by
  obtain ⟨i, q', old, hT, pre', fill, post', hg, hf, hc, hp, _⟩ :=
    tryGrowOrGrowT_ok_mk3 lim pre lv post a.len hlim hb
  simp only [Except.ok.injEq, Prod.mk.injEq] at hg
  obtain ⟨rfl, rfl⟩ := hg
  have hr : ∀ (X es : List α), a = SliceArg.own es → a.read X = es := by
    intro X es hes
    subst hes
    rfl
  have hP : ∃ src : List α, (∀ es : List α, a = SliceArg.own es → src = es) ∧
      (Queue.mk3 pre lv post).PushNT lim a =
        (Except.ok (), Queue.mk3 pre' (lv ++ (copy fill src).1) post') := by
    cases old with
    | none =>
      refine ⟨a.read (Queue.mk3 pre' (lv ++ fill) post').buf.arr, hr _, ?_⟩
      simp only [Queue.PushNT, hT, check_tail_mk3 pre' lv fill post', Int.toNat_ofNat,
        storeTail_any]
      rfl
    | some o =>
      refine ⟨a.read o.arr, hr _, ?_⟩
      simp only [Queue.PushNT, hT, check_tail_mk3 pre' lv fill post', Int.toNat_ofNat,
        storeTail_any]
      rfl
  obtain ⟨src, hs, hP⟩ := hP
  refine ⟨pre', post', (copy fill src).1, hP, ?_, hc, hp, ?_⟩
  · rw [copy_fst_length, hf]
  · intro es hes
    rw [hs es hes]
    subst hes
    exact copy_full _ _ (by simpa [SliceArg.len] using hf)

theorem PushT_fail_mk3 (lim : Nat) (pre lv post : List α) (e : α)
    (hnf : ¬ fitsInPlace ((pre.length + lv.length + post.length : Nat) : Int)
        ((pre.length + lv.length : Nat) : Int) (lv.length : Int) 1)
    (hf : wrapInt (2 * ((pre.length + lv.length + post.length : Nat) : Int) + 1) < 0 ∨
      (lim : Int) < wrapInt (2 * ((pre.length + lv.length + post.length : Nat) : Int) + 1)) :
    (Queue.mk3 pre lv post).PushT lim e =
      (Except.error Panic.makeLen,
        if lv.length = 0 ∧ pre.length ≠ 0 then Queue.mk3 [] [] (pre ++ post)
        else Queue.mk3 pre lv post) := by
  have := tryGrowOrGrowT_fail_mk3 lim pre lv post 1 (by simpa using hnf) (by simpa using hf)
  simp only [Nat.cast_one] at this
  simp only [Queue.PushT, this]

theorem PushNT_fail_mk3 (lim : Nat) (pre lv post : List α) (a : SliceArg α)
    (hnf : ¬ fitsInPlace ((pre.length + lv.length + post.length : Nat) : Int)
        ((pre.length + lv.length : Nat) : Int) (lv.length : Int) (a.len : Int))
    (hf : wrapInt (2 * ((pre.length + lv.length + post.length : Nat) : Int) + a.len) < 0 ∨
      (lim : Int) <
        wrapInt (2 * ((pre.length + lv.length + post.length : Nat) : Int) + a.len)) :
    (Queue.mk3 pre lv post).PushNT lim a =
      (Except.error Panic.makeLen,
        if lv.length = 0 ∧ pre.length ≠ 0 then Queue.mk3 [] [] (pre ++ post)
        else Queue.mk3 pre lv post) := by
  simp only [Queue.PushNT, tryGrowOrGrowT_fail_mk3 lim pre lv post a.len hnf hf]

theorem PushT_mk3_fit (lim : Nat) (pre lv post : List α) (e : α) (h : 1 ≤ post.length) :
    (Queue.mk3 pre lv post).PushT lim e =
      (Except.ok (), Queue.mk3 pre (lv ++ [e]) (post.drop 1)) := by
  have ht := tryGrowOrGrowT_mk3_fit lim pre lv post 1 h
  simp only [Nat.cast_one] at ht
  simp only [Queue.PushT, ht,
    setIndex_mk3 pre lv (post.take 1) (post.drop 1) e (by simp; omega)]
  rfl

theorem PushNT_mk3_fit (lim : Nat) (pre lv post : List α) (a : SliceArg α)
    (h : a.len ≤ post.length) :
    ∃ w : List α,
      (Queue.mk3 pre lv post).PushNT lim a =
        (Except.ok (), Queue.mk3 pre (lv ++ w) (post.drop a.len)) ∧
      w.length = a.len ∧ (∀ es : List α, a = SliceArg.own es → w = es) := by
  have ht := tryGrowOrGrowT_mk3_fit lim pre lv post a.len h
  refine ⟨(copy (post.take a.len) (a.read
    (Queue.mk3 pre (lv ++ post.take a.len) (post.drop a.len)).buf.arr)).1, ?_, ?_, ?_⟩
  · simp only [Queue.PushNT, ht, check_tail_mk3 pre lv (post.take a.len) (post.drop a.len),
      Int.toNat_ofNat, storeTail_any]
    rfl
  · rw [copy_fst_length]; simp; omega
  · intro es hes
    subst hes
    simp only [SliceArg.read]
    exact copy_full _ _ (by simp [SliceArg.len] at h ⊢; omega)

theorem pushAllT_mk3_fit (lim : Nat) (es : List α) :
    ∀ pre lv post : List α, es.length ≤ post.length →
      pushAllT lim (Queue.mk3 pre lv post) es =
        (Except.ok (), Queue.mk3 pre (lv ++ es) (post.drop es.length)) := by
  induction es with
  | nil => intro pre lv post _; simp [pushAllT]
  | cons e es ih =>
    intro pre lv post h
    have h1 : 1 ≤ post.length := by simp at h; omega
    have h2 : es.length ≤ (post.drop 1).length := by simp at h ⊢; omega
    simp only [pushAllT, PushT_mk3_fit lim pre lv post e h1]
    rw [ih pre (lv ++ [e]) (post.drop 1) h2]
    simp [List.drop_drop, Nat.add_comm]

/-- Repeated tracked `Push` returns normally when four times the final length is
within the allocation limit: an allocation happens only at a capacity of at most
`2*m + 1`, `m` being the live count at that moment. -/
theorem pushAllT_ok_mk3 (lim : Nat) (hlim : lim < 9223372036854775808) (es : List α) :
    ∀ pre lv post : List α, 4 * (lv.length + es.length) ≤ lim →
      ∃ pre' post' : List α,
        pushAllT lim (Queue.mk3 pre lv post) es =
          (Except.ok (), Queue.mk3 pre' (lv ++ es) post') := by
  induction es with
  | nil => intro pre lv post _; exact ⟨pre, post, by simp [pushAllT]⟩
  | cons e es ih =>
    intro pre lv post h
    simp only [List.length_cons] at h
    have hb : fitsInPlace ((pre.length + lv.length + post.length : Nat) : Int)
        ((pre.length + lv.length : Nat) : Int) (lv.length : Int) 1 ∨
        2 * (pre.length + lv.length + post.length) + 1 ≤ lim := by
      by_cases hfit : fitsInPlace ((pre.length + lv.length + post.length : Nat) : Int)
          ((pre.length + lv.length : Nat) : Int) (lv.length : Int) 1
      · exact Or.inl hfit
      · right
        unfold fitsInPlace at hfit
        push_cast at hfit
        omega
    obtain ⟨pre1, post1, hp, _⟩ := PushT_ok_mk3 lim pre lv post e hlim hb
    obtain ⟨pre2, post2, h2⟩ := ih pre1 (lv ++ [e]) post1 (by simp; omega)
    refine ⟨pre2, post2, ?_⟩
    simp only [pushAllT, hp, h2]
    simp

theorem PopNT_own (q : Queue α) (dst : List α) : q.PopNT (SliceArg.own dst) = q.PopN dst := by
  unfold Queue.PopNT Queue.PopN
  simp only [SliceArg.read, SliceArg.after, SliceArg.writeThrough]

/-- On a well-formed queue the tracked `PopN` returns normally, whatever storage the
destination has. -/
theorem PopNT_returns (q : Queue α) (a : SliceArg α) (h : q.WF) :
    ∃ (n : Nat) (dst' : List α) (q' : Queue α), q.PopNT a = Except.ok (n, dst', q') := by
  cases a with
  | own dst =>
    obtain ⟨pre, lv, post, rfl⟩ := h.split
    rw [PopNT_own]
    by_cases hl : lv = []
    · subst hl; exact ⟨_, _, _, PopN_mk3_nil pre post dst⟩
    · exact ⟨_, _, _, PopN_mk3 pre lv post dst hl⟩
  | shared lo hi =>
    obtain ⟨h1, h2⟩ := h
    by_cases he : q.Empty = true
    · obtain ⟨pre, lv, post, rfl⟩ := Queue.WF.split ⟨h1, h2⟩
      simp only [Queue.PopNT, he, if_true, Reset_mk3, bind, Except.bind, pure, Except.pure]
      exact ⟨_, _, _, rfl⟩
    · have he' : ¬ q.buf.len ≤ q.off := by simpa [Queue.Empty] using he
      have hc1 : q.buf.check q.off q.buf.len = Except.ok () := by
        simp [Slice.check]; omega
      have hcap : ∀ w : List α, w.length = ((q.buf.arr.take hi).drop lo).length →
          (q.buf.store lo w).cap = q.buf.cap := by
        intro w hw
        simp [Slice.store, Slice.cap] at hw ⊢
        omega
      have hw := copy_fst_length ((q.buf.arr.take hi).drop lo) (q.buf.view q.off q.buf.len)
      have hn : (copy ((q.buf.arr.take hi).drop lo) (q.buf.view q.off q.buf.len)).2
          ≤ q.buf.len - q.off := by
        simp [copy, Slice.view]; omega
      have hc2 : ((SliceArg.shared lo hi : SliceArg α).writeThrough q.buf
          (copy ((q.buf.arr.take hi).drop lo) (q.buf.view q.off q.buf.len)).1).check q.off
          ((q.off : Int) +
            (copy ((q.buf.arr.take hi).drop lo) (q.buf.view q.off q.buf.len)).2)
          = Except.ok () := by
        simp only [SliceArg.writeThrough, Slice.check, hcap _ hw]
        rw [if_pos]
        refine ⟨by omega, by omega, ?_⟩
        unfold Slice.cap at h2 ⊢
        omega
      simp only [Queue.PopNT, he, SliceArg.read, hc1, hc2, bind, Except.bind, pure,
        Except.pure]
      exact ⟨_, _, _, rfl⟩

theorem wrapInt_beyond (lim : Nat) (c n : Int) (hlim : lim < 4611686018427387904)
    (hc0 : 0 ≤ c) (hc : c ≤ lim) (hn0 : 0 ≤ n) (hn : n < 9223372036854775808)
    (h : (lim : Int) < 2 * c + n) :
    wrapInt (2 * c + n) < 0 ∨ (lim : Int) < wrapInt (2 * c + n) := by
  unfold wrapInt
  omega

theorem canGrow_mk3 (lim : Nat) (pre lv post : List α) (k : Nat) :
    (Queue.mk3 pre lv post).canGrow lim k ↔
      (fitsInPlace ((pre.length + lv.length + post.length : Nat) : Int)
        ((pre.length + lv.length : Nat) : Int) (lv.length : Int) (k : Int) ∨
      2 * (pre.length + lv.length + post.length) + k ≤ lim) := by
  have e : (Queue.mk3 pre lv post).buf.len = pre.length + lv.length := rfl
  unfold Queue.canGrow
  rw [Cap_mk3, Len_mk3, e]
  constructor
  · rintro (h | h)
    · exact Or.inl h
    · right; omega
  · rintro (h | h)
    · exact Or.inl h
    · right; omega

theorem resetIfDrained_mk3 (pre lv post : List α) :
    (Queue.mk3 pre lv post).resetIfDrained =
      if lv.length = 0 ∧ pre.length ≠ 0 then Queue.mk3 [] [] (pre ++ post)
      else Queue.mk3 pre lv post := by
  have e : (Queue.mk3 pre lv post).off = pre.length := rfl
  unfold Queue.resetIfDrained
  rw [Len_mk3, e]
  by_cases h : lv.length = 0 ∧ pre.length ≠ 0
  · have hl : lv = [] := List.length_eq_zero.mp h.1
    subst hl
    have h' : ((([] : List α).length : Nat) : Int) = 0 ∧ pre.length ≠ 0 := ⟨by simp, h.2⟩
    rw [if_pos h', if_pos h, ResetT_of_ok (Reset_mk3 pre [] post)]
    simp
  · have h' : ¬ (((lv.length : Nat) : Int) = 0 ∧ pre.length ≠ 0) := by
      intro hh; exact h ⟨by omega, hh.2⟩
    rw [if_neg h', if_neg h]

/-- What the first statement of `grow` changes: nothing of the storage or the
capacity; a drained queue with a non-zero read offset gets length and read
offset 0, any other queue is left as it is. -/
theorem resetIfDrained_spec (q : Queue α) (h : q.WF) :
    q.resetIfDrained.buf.arr = q.buf.arr ∧ q.resetIfDrained.Cap = q.Cap ∧
    (q.Len = 0 ∧ q.off ≠ 0 → q.resetIfDrained.off = 0 ∧ q.resetIfDrained.buf.len = 0) ∧
    (¬ (q.Len = 0 ∧ q.off ≠ 0) → q.resetIfDrained = q) := by
  obtain ⟨pre, lv, post, rfl⟩ := h.split
  have e : (Queue.mk3 pre lv post).off = pre.length := rfl
  rw [resetIfDrained_mk3, Len_mk3, e]
  by_cases hd : lv.length = 0 ∧ pre.length ≠ 0
  · have hl : lv = [] := List.length_eq_zero.mp hd.1
    subst hl
    rw [if_pos hd]
    refine ⟨by simp [Queue.mk3], by simp [Queue.Cap, Slice.cap, Queue.mk3], fun _ => ⟨rfl, rfl⟩,
      fun hn => absurd ⟨by simp, hd.2⟩ hn⟩
  · rw [if_neg hd]
    exact ⟨rfl, rfl, fun hh => absurd ⟨by omega, hh.2⟩ hd, fun _ => rfl⟩

theorem growT_ret_mk3 (lim : Nat) (pre lv post : List α) (k : Nat)
    (hlim : lim < 4611686018427387904) (hc : pre.length + lv.length + post.length ≤ lim)
    (hk : (k : Int) < 9223372036854775808) {i : Int} {q' : Queue α} {old : Option (Slice α)}
    (h : (Queue.mk3 pre lv post).growT lim k = (Except.ok i, q', old)) :
    fitsInPlace ((pre.length + lv.length + post.length : Nat) : Int)
        ((pre.length + lv.length : Nat) : Int) (lv.length : Int) (k : Int) ∨
      2 * (pre.length + lv.length + post.length) + k ≤ lim := by
  by_contra hcon
  push_neg at hcon
  rw [growT_fail_mk3 lim pre lv post k hcon.1
    (wrapInt_beyond lim _ _ hlim (by omega) (by exact_mod_cast hc) (by omega) hk
      (by omega))] at h
  simp at h

theorem GrowT_ret_mk3 (lim : Nat) (pre lv post : List α) (k : Nat)
    (hlim : lim < 4611686018427387904) (hc : pre.length + lv.length + post.length ≤ lim)
    (hk : (k : Int) < 9223372036854775808) {q' : Queue α}
    (h : (Queue.mk3 pre lv post).GrowT lim k = (Except.ok (), q')) :
    fitsInPlace ((pre.length + lv.length + post.length : Nat) : Int)
        ((pre.length + lv.length : Nat) : Int) (lv.length : Int) (k : Int) ∨
      2 * (pre.length + lv.length + post.length) + k ≤ lim := by
  by_contra hcon
  push_neg at hcon
  rw [GrowT_fail_mk3 lim pre lv post k hcon.1
    (wrapInt_beyond lim _ _ hlim (by omega) (by exact_mod_cast hc) (by omega) hk
      (by omega))] at h
  simp at h

theorem PushT_ret_mk3 (lim : Nat) (pre lv post : List α) (e : α)
    (hlim : lim < 4611686018427387904) (hc : pre.length + lv.length + post.length ≤ lim)
    {q' : Queue α} (h : (Queue.mk3 pre lv post).PushT lim e = (Except.ok (), q')) :
    fitsInPlace ((pre.length + lv.length + post.length : Nat) : Int)
        ((pre.length + lv.length : Nat) : Int) (lv.length : Int) 1 ∨
      2 * (pre.length + lv.length + post.length) + 1 ≤ lim := by
  by_contra hcon
  push_neg at hcon
  rw [PushT_fail_mk3 lim pre lv post e hcon.1
    (wrapInt_beyond lim _ _ hlim (by omega) (by exact_mod_cast hc) (by omega) (by omega)
      (by omega))] at h
  simp at h

theorem PushNT_ret_mk3 (lim : Nat) (pre lv post : List α) (a : SliceArg α)
    (hlim : lim < 4611686018427387904) (hc : pre.length + lv.length + post.length ≤ lim)
    (ha : a.len ≤ lim) {q' : Queue α}
    (h : (Queue.mk3 pre lv post).PushNT lim a = (Except.ok (), q')) :
    fitsInPlace ((pre.length + lv.length + post.length : Nat) : Int)
        ((pre.length + lv.length : Nat) : Int) (lv.length : Int) (a.len : Int) ∨
      2 * (pre.length + lv.length + post.length) + a.len ≤ lim := by
  by_contra hcon
  push_neg at hcon
  rw [PushNT_fail_mk3 lim pre lv post a hcon.1
    (wrapInt_beyond lim _ _ hlim (by omega) (by exact_mod_cast hc) (by omega) (by omega)
      (by omega))] at h
  simp at h

/-- Whenever repeated tracked `Push` returns, the elements have been appended. -/
theorem pushAllT_ret_mk3 (lim : Nat) (hlim : lim < 4611686018427387904) (es : List α) :
    ∀ (pre lv post : List α) (q' : Queue α), pre.length + lv.length + post.length ≤ lim →
      pushAllT lim (Queue.mk3 pre lv post) es = (Except.ok (), q') →
      ∃ pre' post' : List α, q' = Queue.mk3 pre' (lv ++ es) post' := by
  induction es with
  | nil =>
    intro pre lv post q' _ h
    simp only [pushAllT, Prod.mk.injEq, true_and] at h
    exact ⟨pre, post, by simp [← h]⟩
  | cons e es ih =>
    intro pre lv post q' hc h
    cases hp : (Queue.mk3 pre lv post).PushT lim e with
    | mk r q1 =>
      cases r with
      | error x => simp [pushAllT, hp] at h
      | ok u =>
        have hb := PushT_ret_mk3 lim pre lv post e hlim hc hp
        obtain ⟨pre1, post1, hg, hs, _⟩ :=
          PushT_ok_mk3 lim pre lv post e (by omega) hb
        rw [hg] at hp
        simp only [Prod.mk.injEq, true_and] at hp
        subst hp
        have hc1 : pre1.length + (lv ++ [e]).length + post1.length ≤ lim := by
          have hs' : ((pre1.length + lv.length + 1 + post1.length : Nat) : Int) ≤ lim := by
            rw [hs]
            unfold sizingRule
            unfold fitsInPlace at hb
            split_ifs <;> omega
          simp only [List.length_append, List.length_singleton]
          omega
        simp only [pushAllT, hg] at h
        obtain ⟨pre2, post2, h2⟩ := ih pre1 (lv ++ [e]) post1 q' hc1 h
        exact ⟨pre2, post2, by simp [h2]⟩

theorem noOverPop_le (ops : List (Op α)) :
    ∀ n : Nat, noOverPop n ops = true → popCount ops ≤ n + (pushed ops).length := by
  induction ops with
  | nil => intro n _; simp [popCount]
  | cons op ops ih =>
    intro n h
    cases op with
    | push e =>
      have := ih (n + 1) (by simpa [noOverPop] using h)
      simp only [popCount, pushed, List.length_cons]; omega
    | pop =>
      cases n with
      | zero => simp [noOverPop] at h
      | succ k =>
        have := ih k (by simpa [noOverPop] using h)
        simp only [popCount, pushed]; omega

end Basic

section Claims

variable {α : Type} [Inhabited α]

/-- C1 (FIFO, no loss under growth). Starting from the zero-value queue, for every
interleaving of Push and Pop in which no Pop meets an empty queue, the run does
not panic, the Pops return, in order, the first `popCount` pushed elements, each
with `ok = true`, and a final drain by repeated Pop (given fuel for more calls than
there are elements left) returns exactly the remaining pushed elements in push
order. -/
theorem C1_fifo_no_loss (ops : List (Op α)) (h : noOverPop 0 ops = true) :
    ∃ q : Queue α,
      runOps Queue.zero ops =
        Except.ok (q, ((pushed ops).take (popCount ops)).map (fun x => (x, true))) ∧
      ∀ fuel : Nat, q.Len < fuel →
        drain fuel q = Except.ok (some ((pushed ops).drop (popCount ops))) := by
  obtain ⟨pre, post, hr⟩ := runOps_mk3 ops [] [] [] h
  refine ⟨_, by simpa [zero_eq_mk3] using hr, ?_⟩
  intro fuel hf
  rw [Len_mk3] at hf
  exact drain_mk3 _ pre post fuel (by exact_mod_cast hf)

/-- C1 at a concrete interleaving that goes through reallocation, reslice and a
final drain. -/
theorem C1_fifo_no_loss_witness :
    noOverPop 0 [Op.push 1, Op.push 2, Op.pop, Op.push 3, Op.push 4, Op.pop] = true ∧
    ∃ q : Queue Nat,
      runOps Queue.zero [Op.push 1, Op.push 2, Op.pop, Op.push 3, Op.push 4, Op.pop] =
        Except.ok (q, [(1, true), (2, true)]) ∧
      ∀ fuel : Nat, q.Len < fuel → drain fuel q = Except.ok (some [3, 4]) :=
  ⟨by decide,
   C1_fifo_no_loss [Op.push 1, Op.push 2, Op.pop, Op.push 3, Op.push 4, Op.pop] (by decide)⟩

/-- C2 (length). Starting from the zero-value queue, after an interleaving of
k Push calls and j Pop calls in which no Pop meets an empty queue, j <= k and
Len() = k - j; moreover on every well-formed queue Push increases Len() by
exactly 1 and Pop on a non-empty queue decreases it by exactly 1. -/
theorem C2_len_after_pushes_pops (ops : List (Op α)) (h : noOverPop 0 ops = true) :
    (∃ (q : Queue α) (outs : List (α × Bool)),
      runOps Queue.zero ops = Except.ok (q, outs) ∧
      popCount ops ≤ (pushed ops).length ∧
      q.Len = ((pushed ops).length : Int) - (popCount ops : Int)) ∧
    (∀ (q : Queue α) (e : α), q.WF →
      ∃ q', q.Push e = Except.ok q' ∧ q'.Len = q.Len + 1) ∧
    (∀ q : Queue α, q.WF → q.Empty = false →
      ∃ v q', q.Pop = Except.ok (v, true, q') ∧ q'.Len = q.Len - 1) := by
  have hle := noOverPop_le ops 0 h
  refine ⟨?_, ?_, ?_⟩
  · obtain ⟨pre, post, hr⟩ := runOps_mk3 ops [] [] [] h
    refine ⟨_, _, by simpa [zero_eq_mk3] using hr, by omega, ?_⟩
    rw [Len_mk3]
    simp only [List.nil_append, List.length_drop]
    omega
  · intro q e hq
    obtain ⟨pre, lv, post, rfl⟩ := hq.split
    obtain ⟨pre', post', hp, _⟩ := Push_mk3 pre lv post e
    exact ⟨_, hp, by simp [Len_mk3]⟩
  · intro q hq he
    obtain ⟨pre, lv, post, rfl⟩ := hq.split
    cases lv with
    | nil => simp [Empty_mk3] at he
    | cons x xs => exact ⟨x, _, Pop_mk3_cons pre x xs post, by simp [Len_mk3]⟩

/-- C2 at the interleaving push, push, pop, push: three pushes and one pop. -/
theorem C2_len_after_pushes_pops_witness :
    noOverPop 0 [Op.push 7, Op.push 8, Op.pop, Op.push 9] = true ∧
    ((∃ (q : Queue Nat) (outs : List (Nat × Bool)),
      runOps Queue.zero [Op.push 7, Op.push 8, Op.pop, Op.push 9] = Except.ok (q, outs) ∧
      popCount [Op.push 7, Op.push 8, Op.pop, Op.push 9] ≤
        (pushed [Op.push 7, Op.push 8, Op.pop, Op.push 9]).length ∧
      q.Len = ((pushed [Op.push 7, Op.push 8, Op.pop, Op.push 9]).length : Int)
        - (popCount [Op.push 7, Op.push 8, Op.pop, Op.push 9] : Int)) ∧
    (∀ (q : Queue Nat) (e : Nat), q.WF →
      ∃ q', q.Push e = Except.ok q' ∧ q'.Len = q.Len + 1) ∧
    (∀ q : Queue Nat, q.WF → q.Empty = false →
      ∃ v q', q.Pop = Except.ok (v, true, q') ∧ q'.Len = q.Len - 1)) :=
  ⟨by decide, C2_len_after_pushes_pops [Op.push 7, Op.push 8, Op.pop, Op.push 9] (by decide)⟩

/-- C3 (result of Pop). On a well-formed non-empty queue Pop returns the front
element (the head of Elems, which is Get(0)) with ok = true and leaves exactly the
former tail as live elements; on a well-formed empty queue it returns the zero
value with ok = false and leaves Len() = 0, read offset 0, storage length 0 and
the capacity unchanged. -/
theorem C3_pop_result (q : Queue α) (h : q.WF) :
    (q.Empty = false →
      ∃ (x : α) (xs : List α) (q' : Queue α),
        q.Elems = Except.ok (x :: xs) ∧ q.Get 0 = Except.ok x ∧
        q.Pop = Except.ok (x, true, q') ∧ q'.Elems = Except.ok xs ∧ q'.WF ∧
        q'.Cap = q.Cap) ∧
    (q.Empty = true →
      ∃ q' : Queue α,
        q.Pop = Except.ok (default, false, q') ∧ q'.Len = 0 ∧ q'.off = 0 ∧
        q'.buf.len = 0 ∧ q'.Cap = q.Cap) := by
  obtain ⟨pre, lv, post, rfl⟩ := h.split
  constructor
  · intro he
    cases lv with
    | nil => simp [Empty_mk3] at he
    | cons x xs =>
      refine ⟨x, xs, _, Elems_mk3 _ _ _, ?_, Pop_mk3_cons pre x xs post, Elems_mk3 _ _ _,
        WF_mk3 _ _ _, ?_⟩
      · simpa using Get_mk3 pre (x :: xs) post 0 x (by simp)
      · simp [Cap_mk3]; omega
  · intro he
    cases lv with
    | cons x xs => simp [Empty_mk3] at he
    | nil =>
      refine ⟨_, Pop_mk3_nil pre post, by simp [Len_mk3], rfl, rfl, ?_⟩
      simp [Cap_mk3]

/-- C3 at a queue holding 5, 6 behind one consumed slot. -/
theorem C3_pop_result_witness :
    (Queue.mk3 [0] [5, 6] [0] : Queue Nat).WF ∧
    (((Queue.mk3 [0] [5, 6] [0] : Queue Nat).Empty = false →
      ∃ (x : Nat) (xs : List Nat) (q' : Queue Nat),
        (Queue.mk3 [0] [5, 6] [0] : Queue Nat).Elems = Except.ok (x :: xs) ∧
        (Queue.mk3 [0] [5, 6] [0] : Queue Nat).Get 0 = Except.ok x ∧
        (Queue.mk3 [0] [5, 6] [0] : Queue Nat).Pop = Except.ok (x, true, q') ∧
        q'.Elems = Except.ok xs ∧ q'.WF ∧
        q'.Cap = (Queue.mk3 [0] [5, 6] [0] : Queue Nat).Cap) ∧
    ((Queue.mk3 [0] [5, 6] [0] : Queue Nat).Empty = true →
      ∃ q' : Queue Nat,
        (Queue.mk3 [0] [5, 6] [0] : Queue Nat).Pop = Except.ok (default, false, q') ∧
        q'.Len = 0 ∧ q'.off = 0 ∧ q'.buf.len = 0 ∧
        q'.Cap = (Queue.mk3 [0] [5, 6] [0] : Queue Nat).Cap)) :=
  ⟨WF_mk3 _ _ _, C3_pop_result _ (WF_mk3 _ _ _)⟩

/-- C4 as stated fails for a destination that shares the queue's storage: with
live elements 1, 2, 3 and the destination q.Elems()[1:], which holds 2, 3,
PopN returns 2 but leaves the destination holding nil, 2, not 1, 2, and the live
elements 2, not 3: copy overwrites live slots, and resetSlice clears a slot of
the destination. -/
theorem C4_popN_shared_counterexample :
    (Queue.mk3 [] [some 1, some 2, some 3] [] : Queue (Option Nat)).WF ∧
    (Queue.mk3 [] [some 1, some 2, some 3] [] : Queue (Option Nat)).Elems =
      Except.ok [some 1, some 2, some 3] ∧
    (SliceArg.shared 1 3 : SliceArg (Option Nat)).read
      (Queue.mk3 [] [some 1, some 2, some 3] [] : Queue (Option Nat)).buf.arr =
        [some 2, some 3] ∧
    (∃ q' : Queue (Option Nat),
      (Queue.mk3 [] [some 1, some 2, some 3] [] : Queue (Option Nat)).PopNT
        (SliceArg.shared 1 3) = Except.ok (2, [none, some 2], q') ∧
      q'.Elems = Except.ok [some 2]) ∧
    ([none, some 2] : List (Option Nat)) ≠ [some 1, some 2] ∧
    ([some 2] : List (Option Nat)) ≠ [some 3] :=
  ⟨WF_mk3 _ _ _, rfl, rfl,
   ⟨{ buf := { arr := [none, none, some 2], len := 3 }, off := 2 }, rfl, rfl⟩,
   by decide, by decide⟩

/-- C4 (amended). On a well-formed queue with live elements xs and for a
destination dst that shares no storage with the queue's buffer, PopN(dst)
returns n = min(len(dst), Len()); afterwards dst has its old length, dst[0..n)
holds the first n elements of xs, dst[n..) is unchanged, and the live elements
are xs without its first n elements; on an empty queue n = 0, dst is unchanged
and the queue is reset (read offset 0, storage length 0). -/
theorem C4_popN (q : Queue α) (dst : List α) (h : q.WF) :
    ∃ (xs dst' : List α) (q' : Queue α),
      q.Elems = Except.ok xs ∧
      q.PopNT (SliceArg.own dst) = Except.ok (min dst.length xs.length, dst', q') ∧
      ((min dst.length xs.length : Nat) : Int) = min (dst.length : Int) q.Len ∧
      dst'.length = dst.length ∧
      dst'.take (min dst.length xs.length) = xs.take (min dst.length xs.length) ∧
      dst'.drop (min dst.length xs.length) = dst.drop (min dst.length xs.length) ∧
      q'.Elems = Except.ok (xs.drop (min dst.length xs.length)) ∧ q'.WF ∧
      (q.Empty = true → dst' = dst ∧ q'.off = 0 ∧ q'.buf.len = 0) := by
  obtain ⟨pre, lv, post, rfl⟩ := h.split
  rw [PopNT_own]
  by_cases hl : lv = []
  · subst hl
    refine ⟨[], dst, Queue.mk3 [] [] (pre ++ post), Elems_mk3 _ _ _,
      by simpa using PopN_mk3_nil pre post dst,
      by simp [Len_mk3], rfl, by simp, by simp, by simpa using Elems_mk3 _ _ _, WF_mk3 _ _ _,
      fun _ => ⟨rfl, rfl, rfl⟩⟩
  · refine ⟨lv, _, _, Elems_mk3 _ _ _, PopN_mk3 pre lv post dst hl, ?_, ?_, ?_, ?_,
      Elems_mk3 _ _ _, WF_mk3 _ _ _, ?_⟩
    · rw [Len_mk3]; omega
    · simp
    · rw [List.take_append_of_le_length (by simp), List.take_take]; simp
    · rw [List.drop_append_of_le_length (by simp), List.drop_of_length_le (by simp)]
      simp
    · intro he
      cases lv with
      | nil => exact absurd rfl hl
      | cons x xs => simp [Empty_mk3] at he

/-- C4 (amended) at the spec scenario: live elements 20, 30 behind one consumed
slot, popped into a destination of three slots with storage of its own. -/
theorem C4_popN_witness :
    (Queue.mk3 [0] [20, 30] [] : Queue Nat).WF ∧
    ∃ (xs dst' : List Nat) (q' : Queue Nat),
      (Queue.mk3 [0] [20, 30] [] : Queue Nat).Elems = Except.ok xs ∧
      (Queue.mk3 [0] [20, 30] [] : Queue Nat).PopNT (SliceArg.own [7, 8, 9]) =
        Except.ok (min [7, 8, 9].length xs.length, dst', q') ∧
      ((min [7, 8, 9].length xs.length : Nat) : Int) =
        min ([7, 8, 9].length : Int) (Queue.mk3 [0] [20, 30] [] : Queue Nat).Len ∧
      dst'.length = [7, 8, 9].length ∧
      dst'.take (min [7, 8, 9].length xs.length) = xs.take (min [7, 8, 9].length xs.length) ∧
      dst'.drop (min [7, 8, 9].length xs.length) =
        [7, 8, 9].drop (min [7, 8, 9].length xs.length) ∧
      q'.Elems = Except.ok (xs.drop (min [7, 8, 9].length xs.length)) ∧ q'.WF ∧
      ((Queue.mk3 [0] [20, 30] [] : Queue Nat).Empty = true →
        dst' = [7, 8, 9] ∧ q'.off = 0 ∧ q'.buf.len = 0) :=
  ⟨WF_mk3 _ _ _, C4_popN _ [7, 8, 9] (WF_mk3 _ _ _)⟩

/-- C5 (Skip). On a well-formed queue with live elements xs and n >= 0, Skip(n)
returns r = min(n, Len()) and leaves xs without its first r elements as the live
elements; on an empty queue it returns 0 and resets the queue (read offset 0,
storage length 0). -/
theorem C5_skip (q : Queue α) (n : Int) (h : q.WF) (hn : 0 ≤ n) :
    ∃ (xs : List α) (q' : Queue α),
      q.Elems = Except.ok xs ∧
      q.Skip n = Except.ok (min n q.Len, q') ∧
      q'.Elems = Except.ok (xs.drop (min n q.Len).toNat) ∧ q'.WF ∧
      (q.Empty = true → min n q.Len = 0 ∧ q'.off = 0 ∧ q'.buf.len = 0) := by
  obtain ⟨pre, lv, post, rfl⟩ := h.split
  by_cases hl : lv = []
  · subst hl
    have e : min n (Queue.mk3 pre [] post).Len = 0 := by rw [Len_mk3]; simpa using hn
    refine ⟨[], Queue.mk3 [] [] (pre ++ post), Elems_mk3 _ _ _, ?_,
      by simpa using Elems_mk3 _ _ _, WF_mk3 _ _ _, fun _ => ⟨e, rfl, rfl⟩⟩
    rw [e]; exact Skip_mk3_nil pre post n
  · have e : min n (Queue.mk3 pre lv post).Len = ((min n.toNat lv.length : Nat) : Int) := by
      rw [Len_mk3]; omega
    refine ⟨lv, Queue.mk3 (pre ++ List.replicate (min n.toNat lv.length) default)
      (lv.drop (min n.toNat lv.length)) post, Elems_mk3 _ _ _, ?_, ?_, WF_mk3 _ _ _, ?_⟩
    · rw [e]; exact Skip_mk3 pre lv post n hl hn
    · rw [e, Int.toNat_ofNat]; exact Elems_mk3 _ _ _
    · intro he
      cases lv with
      | nil => exact absurd rfl hl
      | cons x xs => simp [Empty_mk3] at he

/-- C5 at the spec scenario: Skip(5) on a queue of length 2 returns 2 and leaves
the queue empty. -/
theorem C5_skip_witness :
    (Queue.mk3 [] [1, 2] [0] : Queue Nat).WF ∧ (0 : Int) ≤ 5 ∧
    min (5 : Int) (Queue.mk3 [] [1, 2] [0] : Queue Nat).Len = 2 ∧
    ∃ (xs : List Nat) (q' : Queue Nat),
      (Queue.mk3 [] [1, 2] [0] : Queue Nat).Elems = Except.ok xs ∧
      (Queue.mk3 [] [1, 2] [0] : Queue Nat).Skip 5 =
        Except.ok (min 5 (Queue.mk3 [] [1, 2] [0] : Queue Nat).Len, q') ∧
      q'.Elems =
        Except.ok (xs.drop (min 5 (Queue.mk3 [] [1, 2] [0] : Queue Nat).Len).toNat) ∧
      q'.WF ∧
      ((Queue.mk3 [] [1, 2] [0] : Queue Nat).Empty = true →
        min 5 (Queue.mk3 [] [1, 2] [0] : Queue Nat).Len = 0 ∧ q'.off = 0 ∧ q'.buf.len = 0) :=
  ⟨WF_mk3 _ _ _, by decide, by decide, C5_skip _ 5 (WF_mk3 _ _ _) (by decide)⟩

/-- C6 as stated fails for an argument that shares the queue's storage: on a full
queue of capacity 2 holding 1, 2, PushN(q.Elems()) reallocates, resetSlice clears
the old array the argument points into, and copy then reads nils: the live
elements afterwards are 1, 2, nil, nil, not 1, 2, 1, 2. -/
theorem C6_pushN_shared_counterexample :
    (Queue.mk3 [] [some 1, some 2] [] : Queue (Option Nat)).WF ∧
    (Queue.mk3 [] [some 1, some 2] [] : Queue (Option Nat)).Elems =
      Except.ok [some 1, some 2] ∧
    (SliceArg.shared 0 2 : SliceArg (Option Nat)).read
      (Queue.mk3 [] [some 1, some 2] [] : Queue (Option Nat)).buf.arr = [some 1, some 2] ∧
    (∃ q1 : Queue (Option Nat),
      (Queue.mk3 [] [some 1, some 2] [] : Queue (Option Nat)).PushNT 17592186044416
        (SliceArg.shared 0 2) = (Except.ok (), q1) ∧
      q1.Elems = Except.ok [some 1, some 2, none, none]) ∧
    ([some 1, some 2, none, none] : List (Option Nat)) ≠
      [some 1, some 2] ++ [some 1, some 2] :=
  ⟨WF_mk3 _ _ _, rfl, rfl,
   ⟨{ buf := { arr := [some 1, some 2, none, none, none, none], len := 4 }, off := 0 }, rfl,
    rfl⟩,
   by decide⟩

/-- C6 (amended). On a well-formed queue with live elements xs, for a list ys
that shares no storage with the queue's buffer and under an allocation limit
lim of make (capacities and lim below 2^62, len(ys) at most lim): whenever
PushN(ys) returns, the live elements are xs ++ ys, and whenever Push of each
element of ys in order returns, the live elements are xs ++ ys as well; PushN(ys)
returns when the request of len(ys) slots is served in place or the allocation
of 2*Cap() + len(ys) slots is within the limit, and the repeated Push returns
when four times the final length is within the limit (which covers each of its
allocations). -/
theorem C6_pushN_as_repeated_push (lim : Nat) (q : Queue α) (ys : List α) (h : q.WF)
    (hlim : lim < 4611686018427387904) (hc : q.Cap ≤ lim) (hy : ys.length ≤ lim) :
    ∃ xs : List α,
      q.Elems = Except.ok xs ∧
      (∀ q1 : Queue α, q.PushNT lim (SliceArg.own ys) = (Except.ok (), q1) →
        q1.Elems = Except.ok (xs ++ ys) ∧ q1.WF) ∧
      (∀ q2 : Queue α, pushAllT lim q ys = (Except.ok (), q2) →
        q2.Elems = Except.ok (xs ++ ys) ∧ q2.WF) ∧
      (q.canGrow lim ys.length →
        ∃ q1 : Queue α, q.PushNT lim (SliceArg.own ys) = (Except.ok (), q1)) ∧
      (4 * (q.Len + ys.length) ≤ lim →
        ∃ q2 : Queue α, pushAllT lim q ys = (Except.ok (), q2)) := by
  obtain ⟨pre, lv, post, rfl⟩ := h.split
  rw [Cap_mk3] at hc
  have hlim' : lim < 9223372036854775808 := by omega
  have hok : fitsInPlace ((pre.length + lv.length + post.length : Nat) : Int)
        ((pre.length + lv.length : Nat) : Int) (lv.length : Int) (ys.length : Int) ∨
      2 * (pre.length + lv.length + post.length) + ys.length ≤ lim →
      ∃ pre1 post1 : List α,
        (Queue.mk3 pre lv post).PushNT lim (SliceArg.own ys) =
          (Except.ok (), Queue.mk3 pre1 (lv ++ ys) post1) := by
    intro hb
    obtain ⟨pre1, post1, w, h1, _, _, _, hw⟩ :=
      PushNT_ok_mk3 lim pre lv post (SliceArg.own ys) hlim' hb
    have hwy : w = ys := hw ys rfl
    subst hwy
    exact ⟨pre1, post1, h1⟩
  refine ⟨lv, Elems_mk3 _ _ _, fun q1 hq1 => ?_, fun q2 hq2 => ?_, fun hb => ?_, fun hr => ?_⟩
  · have hb := PushNT_ret_mk3 lim pre lv post (SliceArg.own ys) hlim hc hy hq1
    obtain ⟨pre1, post1, h1⟩ := hok hb
    rw [h1] at hq1
    simp only [Prod.mk.injEq, true_and] at hq1
    subst hq1
    exact ⟨Elems_mk3 _ _ _, WF_mk3 _ _ _⟩
  · obtain ⟨pre2, post2, rfl⟩ := pushAllT_ret_mk3 lim hlim ys pre lv post q2 hc hq2
    exact ⟨Elems_mk3 _ _ _, WF_mk3 _ _ _⟩
  · obtain ⟨pre1, post1, h1⟩ := hok ((canGrow_mk3 lim pre lv post ys.length).mp hb)
    exact ⟨_, h1⟩
  · rw [Len_mk3] at hr
    obtain ⟨pre2, post2, h2⟩ := pushAllT_ok_mk3 lim hlim' ys pre lv post (by omega)
    exact ⟨_, h2⟩

/-- C6 (amended) at a full queue of capacity 2 holding 1, 2, the batch 3, 4, 5
and an allocation limit of 100 slots, within which both ways of pushing are. -/
theorem C6_pushN_as_repeated_push_witness :
    (Queue.mk3 [] [1, 2] [] : Queue Nat).WF ∧ 100 < 4611686018427387904 ∧
    (Queue.mk3 [] [1, 2] [] : Queue Nat).Cap ≤ 100 ∧ ([3, 4, 5] : List Nat).length ≤ 100 ∧
    (Queue.mk3 [] [1, 2] [] : Queue Nat).canGrow 100 ([3, 4, 5] : List Nat).length ∧
    4 * ((Queue.mk3 [] [1, 2] [] : Queue Nat).Len + ([3, 4, 5] : List Nat).length) ≤ 100 ∧
    ∃ xs : List Nat,
      (Queue.mk3 [] [1, 2] [] : Queue Nat).Elems = Except.ok xs ∧
      (∀ q1 : Queue Nat,
        (Queue.mk3 [] [1, 2] [] : Queue Nat).PushNT 100 (SliceArg.own [3, 4, 5]) =
          (Except.ok (), q1) →
        q1.Elems = Except.ok (xs ++ [3, 4, 5]) ∧ q1.WF) ∧
      (∀ q2 : Queue Nat,
        pushAllT 100 (Queue.mk3 [] [1, 2] [] : Queue Nat) [3, 4, 5] = (Except.ok (), q2) →
        q2.Elems = Except.ok (xs ++ [3, 4, 5]) ∧ q2.WF) ∧
      ((Queue.mk3 [] [1, 2] [] : Queue Nat).canGrow 100 ([3, 4, 5] : List Nat).length →
        ∃ q1 : Queue Nat,
          (Queue.mk3 [] [1, 2] [] : Queue Nat).PushNT 100 (SliceArg.own [3, 4, 5]) =
            (Except.ok (), q1)) ∧
      (4 * ((Queue.mk3 [] [1, 2] [] : Queue Nat).Len + ([3, 4, 5] : List Nat).length) ≤ 100 →
        ∃ q2 : Queue Nat,
          pushAllT 100 (Queue.mk3 [] [1, 2] [] : Queue Nat) [3, 4, 5] = (Except.ok (), q2)) :=
  ⟨WF_mk3 _ _ _, by decide, by decide, by decide, Or.inr (by decide), by decide,
   C6_pushN_as_repeated_push 100 _ [3, 4, 5] (WF_mk3 _ _ _) (by decide) (by decide)
     (by decide)⟩

/-- C7 (Reset). On a well-formed queue Reset returns normally; afterwards
Len() = 0, Empty() is true, the read offset is 0, the capacity is what it was,
every slot that was live holds the zero value and every other slot of the
storage is unchanged. -/
theorem C7_reset (q : Queue α) (h : q.WF) :
    ∃ q' : Queue α,
      q.Reset = Except.ok q' ∧ q'.Len = 0 ∧ q'.Empty = true ∧ q'.off = 0 ∧
      q'.Cap = q.Cap ∧
      (∀ i : Nat, q.off ≤ i → i < q.buf.len → q'.buf.arr[i]? = some default) ∧
      (∀ i : Nat, i < q.off ∨ q.buf.len ≤ i → q'.buf.arr[i]? = q.buf.arr[i]?) := by
  obtain ⟨pre, lv, post, rfl⟩ := h.split
  refine ⟨_, Reset_mk3 pre lv post, by simp [Len_mk3], by simp [Empty_mk3], rfl,
    by simp [Cap_mk3]; omega, ?_, ?_⟩
  · intro i h1 h2
    simp only [Queue.mk3] at h1 h2 ⊢
    simp only [List.nil_append]
    rw [List.getElem?_append_right h1,
      List.getElem?_append_left (by rw [List.length_replicate]; omega),
      List.getElem?_replicate, if_pos (by omega)]
  · intro i hi
    simp only [Queue.mk3] at hi ⊢
    simp only [List.nil_append]
    rcases hi with hi | hi
    · rw [List.getElem?_append_left hi, List.getElem?_append_left hi]
    · have hr : (List.replicate lv.length (default : α)).length ≤ i - pre.length := by
        rw [List.length_replicate]; omega
      have hp : pre.length ≤ i := by omega
      have hv : lv.length ≤ i - pre.length := by omega
      rw [@List.getElem?_append_right _ pre _ _ hp, List.getElem?_append_right hr,
        @List.getElem?_append_right _ pre _ _ hp,
        @List.getElem?_append_right _ lv _ _ hv, List.length_replicate]

/-- C7 at a queue holding 5, 6 behind one consumed slot, with one spare slot. -/
theorem C7_reset_witness :
    (Queue.mk3 [0] [5, 6] [0] : Queue Nat).WF ∧
    ∃ q' : Queue Nat,
      (Queue.mk3 [0] [5, 6] [0] : Queue Nat).Reset = Except.ok q' ∧ q'.Len = 0 ∧
      q'.Empty = true ∧ q'.off = 0 ∧
      q'.Cap = (Queue.mk3 [0] [5, 6] [0] : Queue Nat).Cap ∧
      (∀ i : Nat, (Queue.mk3 [0] [5, 6] [0] : Queue Nat).off ≤ i →
        i < (Queue.mk3 [0] [5, 6] [0] : Queue Nat).buf.len →
        q'.buf.arr[i]? = some default) ∧
      (∀ i : Nat, i < (Queue.mk3 [0] [5, 6] [0] : Queue Nat).off ∨
        (Queue.mk3 [0] [5, 6] [0] : Queue Nat).buf.len ≤ i →
        q'.buf.arr[i]? = (Queue.mk3 [0] [5, 6] [0] : Queue Nat).buf.arr[i]?) :=
  ⟨WF_mk3 _ _ _, C7_reset _ (WF_mk3 _ _ _)⟩

/-- C8 (a reset queue is observationally fresh). For every state q reachable
from the zero-value queue, Reset returns normally, and every sequence of Push,
PushN, Pop, PopN, Skip(n >= 0), Len, Empty, Elems and Get calls whose Get indices
are in range, run on the reset queue, returns normally with the same return
values and the same live contents after every step as on the zero-value queue. -/
theorem C8_reset_is_fresh (q : Queue α) (cs : List (Call α)) (hq : Reachable q)
    (hr : getsInRange (Queue.zero : Queue α) cs = true) :
    ∃ (q0 : Queue α) (obs : List (Ret α × List α)),
      q.Reset = Except.ok q0 ∧ getsInRange q0 cs = true ∧
      runCalls Queue.zero cs = Except.ok obs ∧ runCalls q0 cs = Except.ok obs := by
  obtain ⟨pre, lv, post, rfl⟩ := hq.wf.split
  rw [zero_eq_mk3] at hr ⊢
  obtain ⟨h1, obs, h2, h3⟩ := runCalls_mk3 cs [] [] [] []
    (pre ++ (List.replicate lv.length default ++ post)) hr
  exact ⟨_, obs, Reset_mk3 pre lv post, h1, h2, h3⟩

/-- C8 at the state reached by one Push, then reset, against a sequence that
pushes, reads index 0, pops twice and asks for the length. -/
theorem C8_reset_is_fresh_witness :
    Reachable ({ buf := { arr := [1], len := 1 }, off := 0 } : Queue Nat) ∧
    getsInRange (Queue.zero : Queue Nat)
      [Call.push 5, Call.get 0, Call.pop, Call.pop, Call.len] = true ∧
    ∃ (q0 : Queue Nat) (obs : List (Ret Nat × List Nat)),
      ({ buf := { arr := [1], len := 1 }, off := 0 } : Queue Nat).Reset = Except.ok q0 ∧
      getsInRange q0 [Call.push 5, Call.get 0, Call.pop, Call.pop, Call.len] = true ∧
      runCalls Queue.zero [Call.push 5, Call.get 0, Call.pop, Call.pop, Call.len]
        = Except.ok obs ∧
      runCalls q0 [Call.push 5, Call.get 0, Call.pop, Call.pop, Call.len] = Except.ok obs :=
  ⟨Reachable.push 1 Reachable.zero rfl, by decide,
   C8_reset_is_fresh _ [Call.push 5, Call.get 0, Call.pop, Call.pop, Call.len]
     (Reachable.push 1 Reachable.zero rfl) (by decide)⟩

/-- C9 as stated fails: on a queue of length 2, after Grow(3) the length is
still 2, not 5, also under an allocation limit (2^44 slots, that of a 64-bit
platform for two-word elements); and Grow of the largest int on that queue does
not return at all: it panics in make. -/
theorem C9_grow_len_counterexample :
    (Queue.mk3 [] [1, 2] [] : Queue Nat).WF ∧
    (Queue.mk3 [] [1, 2] [] : Queue Nat).Len = 2 ∧
    (∃ q' : Queue Nat,
      (Queue.mk3 [] [1, 2] [] : Queue Nat).Grow 3 = Except.ok q' ∧ q'.Len = 2 ∧
      q'.Len ≠ (Queue.mk3 [] [1, 2] [] : Queue Nat).Len + 3) ∧
    (∃ q' : Queue Nat,
      (Queue.mk3 [] [1, 2] [] : Queue Nat).GrowT 17592186044416 3 = (Except.ok (), q') ∧
      q'.Len = 2 ∧ q'.Len ≠ (Queue.mk3 [] [1, 2] [] : Queue Nat).Len + 3) ∧
    (Queue.mk3 [] [1, 2] [] : Queue Nat).GrowT 17592186044416 9223372036854775807 =
      (Except.error Panic.makeLen, Queue.mk3 [] [1, 2] []) :=
  ⟨WF_mk3 _ _ _, by decide,
   ⟨{ buf := { arr := [1, 2, 0, 0, 0, 0, 0], len := 2 }, off := 0 }, rfl, by decide,
    by decide⟩,
   ⟨{ buf := { arr := [1, 2, 0, 0, 0, 0, 0], len := 2 }, off := 0 }, rfl, by decide,
    by decide⟩,
   rfl⟩

/-- C9 (amended). On a well-formed queue of length L, for a count n >= 0 and
under an allocation limit lim of make (capacities and lim below 2^62, n an int):
Grow(n) returns normally whenever the request is served in place or the
allocation of 2*Cap() + n slots is within the limit; and whenever Grow(n)
returns, Len() = L and the live elements are unchanged: the slots it reserves
are not part of the queue. -/
theorem C9_grow_keeps_len (lim : Nat) (q : Queue α) (n : Int) (h : q.WF) (hn : 0 ≤ n)
    (hn63 : n < 9223372036854775808) (hlim : lim < 4611686018427387904)
    (hc : q.Cap ≤ lim) :
    (q.canGrow lim n → ∃ q' : Queue α, q.GrowT lim n = (Except.ok (), q')) ∧
    (∀ q' : Queue α, q.GrowT lim n = (Except.ok (), q') →
      q'.Len = q.Len ∧ q'.Elems = q.Elems ∧ q'.WF) := by
  obtain ⟨pre, lv, post, rfl⟩ := h.split
  obtain ⟨k, rfl⟩ := Int.eq_ofNat_of_zero_le hn
  rw [Cap_mk3] at hc
  have hlim' : lim < 9223372036854775808 := by omega
  refine ⟨fun hb => ?_, fun q' hq' => ?_⟩
  · obtain ⟨pre', post', hg, _⟩ :=
      GrowT_ok_mk3 lim pre lv post k hlim' ((canGrow_mk3 lim pre lv post k).mp hb)
    exact ⟨_, hg⟩
  · have hb := GrowT_ret_mk3 lim pre lv post k hlim hc hn63 hq'
    obtain ⟨pre', post', hg, _⟩ := GrowT_ok_mk3 lim pre lv post k hlim' hb
    rw [hg] at hq'
    simp only [Prod.mk.injEq, true_and] at hq'
    subst hq'
    exact ⟨by rw [Len_mk3, Len_mk3], by rw [Elems_mk3, Elems_mk3], WF_mk3 _ _ _⟩

/-- C9 (amended) at a full queue holding 1, 2, Grow(3) and an allocation limit
of 100 slots. -/
theorem C9_grow_keeps_len_witness :
    (Queue.mk3 [] [1, 2] [] : Queue Nat).WF ∧ (0 : Int) ≤ 3 ∧
    (3 : Int) < 9223372036854775808 ∧ 100 < 4611686018427387904 ∧
    (Queue.mk3 [] [1, 2] [] : Queue Nat).Cap ≤ 100 ∧
    (Queue.mk3 [] [1, 2] [] : Queue Nat).canGrow 100 3 ∧
    ((Queue.mk3 [] [1, 2] [] : Queue Nat).canGrow 100 3 →
      ∃ q' : Queue Nat, (Queue.mk3 [] [1, 2] [] : Queue Nat).GrowT 100 3 = (Except.ok (), q')) ∧
    (∀ q' : Queue Nat, (Queue.mk3 [] [1, 2] [] : Queue Nat).GrowT 100 3 = (Except.ok (), q') →
      q'.Len = (Queue.mk3 [] [1, 2] [] : Queue Nat).Len ∧
      q'.Elems = (Queue.mk3 [] [1, 2] [] : Queue Nat).Elems ∧ q'.WF) :=
  ⟨WF_mk3 _ _ _, by decide, by decide, by decide, by decide, Or.inr (by decide),
   C9_grow_keeps_len 100 _ 3 (WF_mk3 _ _ _) (by decide) (by decide) (by decide) (by decide)⟩

/-- C10 (Grow reserves capacity). On a well-formed queue, for a count n >= 0 and
under an allocation limit lim of make (capacities and lim below 2^62, n an int):
Grow(n) returns normally whenever the request is served in place or the
allocation of 2*Cap() + n slots is within the limit; and whenever Grow(n)
returns, at least n spare slots follow the tail; from there, pushing any list of
at most n elements one by one returns normally with Cap() unchanged, and as long
as fewer than n have been pushed the next Push finds tryGrowByReslice(1)
successful; likewise one PushN of at most n elements, whatever storage its
argument has, takes the reslice path and leaves Cap() unchanged. -/
theorem C10_grow_reserves (lim : Nat) (q : Queue α) (n : Int) (h : q.WF) (hn : 0 ≤ n)
    (hn63 : n < 9223372036854775808) (hlim : lim < 4611686018427387904)
    (hc : q.Cap ≤ lim) :
    (q.canGrow lim n → ∃ q' : Queue α, q.GrowT lim n = (Except.ok (), q')) ∧
    (∀ q' : Queue α, q.GrowT lim n = (Except.ok (), q') →
      n ≤ (q'.Cap : Int) - (q'.buf.len : Int) ∧
      (∀ es : List α, (es.length : Int) ≤ n →
        ∃ q'' : Queue α, pushAllT lim q' es = (Except.ok (), q'') ∧ q''.Cap = q'.Cap ∧
          ((es.length : Int) < n →
            ∃ (m : Int) (q3 : Queue α),
              q''.tryGrowByResliceT 1 = (Except.ok (m, true), q3))) ∧
      (∀ a : SliceArg α, (a.len : Int) ≤ n →
        ∃ (m : Int) (q3 q'' : Queue α),
          q'.tryGrowByResliceT a.len = (Except.ok (m, true), q3) ∧
          q'.PushNT lim a = (Except.ok (), q'') ∧ q''.Cap = q'.Cap)) := by
  obtain ⟨pre, lv, post, rfl⟩ := h.split
  obtain ⟨k, rfl⟩ := Int.eq_ofNat_of_zero_le hn
  rw [Cap_mk3] at hc
  have hlim' : lim < 9223372036854775808 := by omega
  refine ⟨fun hb => ?_, fun q' hq' => ?_⟩
  · obtain ⟨pre', post', hg, _⟩ :=
      GrowT_ok_mk3 lim pre lv post k hlim' ((canGrow_mk3 lim pre lv post k).mp hb)
    exact ⟨_, hg⟩
  · have hb := GrowT_ret_mk3 lim pre lv post k hlim hc hn63 hq'
    obtain ⟨pre', post', hg, _, hk, _⟩ := GrowT_ok_mk3 lim pre lv post k hlim' hb
    rw [hg] at hq'
    simp only [Prod.mk.injEq, true_and] at hq'
    subst hq'
    refine ⟨?_, ?_, ?_⟩
    · simp [Queue.Cap, Slice.cap, Queue.mk3]; omega
    · intro es hes
      have hes' : es.length ≤ post'.length := by omega
      refine ⟨_, pushAllT_mk3_fit lim es pre' lv post' hes', ?_, ?_⟩
      · simp [Cap_mk3]; omega
      · intro hlt
        have h1 : 1 ≤ (post'.drop es.length).length := by simp; omega
        have ht := tryGrowByResliceT_of_ok
          (tryGrowByReslice_mk3_fit pre' (lv ++ es) (post'.drop es.length) 1 h1)
        simp only [Nat.cast_one] at ht
        exact ⟨_, _, ht⟩
    · intro a ha
      have ha' : a.len ≤ post'.length := by omega
      obtain ⟨w, hw, hwl, _⟩ := PushNT_mk3_fit lim pre' lv post' a ha'
      refine ⟨_, _, _, tryGrowByResliceT_of_ok
        (tryGrowByReslice_mk3_fit pre' lv post' a.len ha'), hw, ?_⟩
      simp [Cap_mk3, hwl]; omega

/-- C10 at a full queue holding 1, 2, Grow(3) and an allocation limit of 100
slots. -/
theorem C10_grow_reserves_witness :
    (Queue.mk3 [] [1, 2] [] : Queue Nat).WF ∧ (0 : Int) ≤ 3 ∧
    (3 : Int) < 9223372036854775808 ∧ 100 < 4611686018427387904 ∧
    (Queue.mk3 [] [1, 2] [] : Queue Nat).Cap ≤ 100 ∧
    (Queue.mk3 [] [1, 2] [] : Queue Nat).canGrow 100 3 ∧
    ((Queue.mk3 [] [1, 2] [] : Queue Nat).canGrow 100 3 →
      ∃ q' : Queue Nat, (Queue.mk3 [] [1, 2] [] : Queue Nat).GrowT 100 3 = (Except.ok (), q')) ∧
    (∀ q' : Queue Nat, (Queue.mk3 [] [1, 2] [] : Queue Nat).GrowT 100 3 = (Except.ok (), q') →
      (3 : Int) ≤ (q'.Cap : Int) - (q'.buf.len : Int) ∧
      (∀ es : List Nat, (es.length : Int) ≤ 3 →
        ∃ q'' : Queue Nat, pushAllT 100 q' es = (Except.ok (), q'') ∧ q''.Cap = q'.Cap ∧
          ((es.length : Int) < 3 →
            ∃ (m : Int) (q3 : Queue Nat),
              q''.tryGrowByResliceT 1 = (Except.ok (m, true), q3))) ∧
      (∀ a : SliceArg Nat, (a.len : Int) ≤ 3 →
        ∃ (m : Int) (q3 q'' : Queue Nat),
          q'.tryGrowByResliceT a.len = (Except.ok (m, true), q3) ∧
          q'.PushNT 100 a = (Except.ok (), q'') ∧ q''.Cap = q'.Cap)) :=
  ⟨WF_mk3 _ _ _, by decide, by decide, by decide, by decide, Or.inr (by decide),
   C10_grow_reserves 100 _ 3 (WF_mk3 _ _ _) (by decide) (by decide) (by decide) (by decide)⟩

/-- C11 as stated fails, in both halves (allocation limit 2^44 slots, that of a
64-bit platform for two-word elements): Grow of the largest int, a non-negative
count, panics in make; and in the drained state reached by Push(1), Push(2),
Pop(), Pop() that panic comes after the reset, so it leaves the storage length
and the read offset at 0 where they were 2. -/
theorem C11_grow_panic_counterexample :
    (Queue.mk3 [] [1, 2] [] : Queue Nat).WF ∧ (0 : Int) ≤ 9223372036854775807 ∧
    (Queue.mk3 [] [1, 2] [] : Queue Nat).GrowT 17592186044416 9223372036854775807 =
      (Except.error Panic.makeLen, Queue.mk3 [] [1, 2] []) ∧
    Reachable ({ buf := { arr := [0, 0, 0], len := 2 }, off := 2 } : Queue Nat) ∧
    ({ buf := { arr := [0, 0, 0], len := 2 }, off := 2 } : Queue Nat).GrowT 17592186044416
        9223372036854775807 =
      (Except.error Panic.makeLen, { buf := { arr := [0, 0, 0], len := 0 }, off := 0 }) ∧
    ({ buf := { arr := [0, 0, 0], len := 0 }, off := 0 } : Queue Nat) ≠
      { buf := { arr := [0, 0, 0], len := 2 }, off := 2 } :=
  ⟨WF_mk3 _ _ _, by decide, rfl,
   Reachable.pop 2 true
     (Reachable.pop 1 true (Reachable.push 2 (Reachable.push 1 Reachable.zero rfl) rfl) rfl)
     rfl,
   rfl, by decide⟩

/-- C11 (amended). On a well-formed queue and under an allocation limit lim of
make (capacities and lim below 2^62, n an int): Grow(n) with n < 0 panics with
the negative-count panic and leaves the queue exactly as it was; Grow(n) with
n >= 0 returns normally when the request is served in place or the allocation
of 2*Cap() + n slots is within the limit, and otherwise panics in make, leaving
the queue as the first statement of grow left it; so Grow(n) panics if and only
if n < 0 or the request can be served neither way. The first statement of grow
changes neither storage contents nor capacity: it sets length and read offset of
a drained queue with a non-zero read offset to 0 and leaves any other queue as
it is. -/
theorem C11_grow_panics (lim : Nat) (q : Queue α) (n : Int) (h : q.WF)
    (hn63 : n < 9223372036854775808) (hlim : lim < 4611686018427387904)
    (hc : q.Cap ≤ lim) :
    (n < 0 → q.GrowT lim n = (Except.error Panic.growNegativeCount, q)) ∧
    (0 ≤ n → q.canGrow lim n → ∃ q' : Queue α, q.GrowT lim n = (Except.ok (), q')) ∧
    (0 ≤ n → ¬ q.canGrow lim n →
      q.GrowT lim n = (Except.error Panic.makeLen, q.resetIfDrained)) ∧
    ((∃ (e : Panic) (q' : Queue α), q.GrowT lim n = (Except.error e, q')) ↔
      (n < 0 ∨ ¬ q.canGrow lim n)) ∧
    q.resetIfDrained.buf.arr = q.buf.arr ∧ q.resetIfDrained.Cap = q.Cap ∧
    (q.Len = 0 ∧ q.off ≠ 0 → q.resetIfDrained.off = 0 ∧ q.resetIfDrained.buf.len = 0) ∧
    (¬ (q.Len = 0 ∧ q.off ≠ 0) → q.resetIfDrained = q) := by
  have hspec := resetIfDrained_spec q h
  obtain ⟨pre, lv, post, rfl⟩ := h.split
  rw [Cap_mk3] at hc
  have hlim' : lim < 9223372036854775808 := by omega
  have hok : ∀ k : Nat, (Queue.mk3 pre lv post).canGrow lim k →
      ∃ q' : Queue α, (Queue.mk3 pre lv post).GrowT lim k = (Except.ok (), q') := by
    intro k hb
    obtain ⟨pre', post', hg, _⟩ :=
      GrowT_ok_mk3 lim pre lv post k hlim' ((canGrow_mk3 lim pre lv post k).mp hb)
    exact ⟨_, hg⟩
  have hfail : ∀ k : Nat, (k : Int) < 9223372036854775808 →
      ¬ (Queue.mk3 pre lv post).canGrow lim k →
      (Queue.mk3 pre lv post).GrowT lim k =
        (Except.error Panic.makeLen, (Queue.mk3 pre lv post).resetIfDrained) := by
    intro k hk hb
    rw [canGrow_mk3] at hb
    push_neg at hb
    rw [resetIfDrained_mk3]
    exact GrowT_fail_mk3 lim pre lv post k hb.1
      (wrapInt_beyond lim _ _ hlim (by omega) (by exact_mod_cast hc) (by omega) hk (by omega))
  refine ⟨fun hneg => GrowT_neg lim _ n hneg, ?_, ?_, ?_, hspec⟩
  · intro hn hb
    obtain ⟨k, rfl⟩ := Int.eq_ofNat_of_zero_le hn
    exact hok k hb
  · intro hn hb
    obtain ⟨k, rfl⟩ := Int.eq_ofNat_of_zero_le hn
    exact hfail k hn63 hb
  · constructor
    · rintro ⟨e, q', he⟩
      by_contra hcon
      push_neg at hcon
      obtain ⟨k, rfl⟩ := Int.eq_ofNat_of_zero_le hcon.1
      obtain ⟨q'', hq''⟩ := hok k hcon.2
      rw [hq''] at he
      simp at he
    · intro hor
      by_cases hneg : n < 0
      · exact ⟨_, _, GrowT_neg lim _ n hneg⟩
      · have hn : 0 ≤ n := by omega
        have hb : ¬ (Queue.mk3 pre lv post).canGrow lim n := by
          rcases hor with hor | hor
          · exact absurd hor hneg
          · exact hor
        obtain ⟨k, rfl⟩ := Int.eq_ofNat_of_zero_le hn
        exact ⟨_, _, hfail k hn63 hb⟩

/-- C11 (amended) at the drained state reached by Push(1), Push(2), Pop(), Pop()
(read offset 2, storage length 2, capacity 3), with Grow of the largest int and
the allocation limit 2^44. -/
theorem C11_grow_panics_witness :
    (Queue.mk3 [0, 0] [] [0] : Queue Nat).WF ∧
    (9223372036854775807 : Int) < 9223372036854775808 ∧
    17592186044416 < 4611686018427387904 ∧
    (Queue.mk3 [0, 0] [] [0] : Queue Nat).Cap ≤ 17592186044416 ∧
    (((9223372036854775807 : Int) < 0 →
      (Queue.mk3 [0, 0] [] [0] : Queue Nat).GrowT 17592186044416 9223372036854775807 =
        (Except.error Panic.growNegativeCount, (Queue.mk3 [0, 0] [] [0] : Queue Nat))) ∧
    ((0 : Int) ≤ 9223372036854775807 →
      (Queue.mk3 [0, 0] [] [0] : Queue Nat).canGrow 17592186044416 9223372036854775807 →
      ∃ q' : Queue Nat,
        (Queue.mk3 [0, 0] [] [0] : Queue Nat).GrowT 17592186044416 9223372036854775807 =
          (Except.ok (), q')) ∧
    ((0 : Int) ≤ 9223372036854775807 →
      ¬ (Queue.mk3 [0, 0] [] [0] : Queue Nat).canGrow 17592186044416 9223372036854775807 →
      (Queue.mk3 [0, 0] [] [0] : Queue Nat).GrowT 17592186044416 9223372036854775807 =
        (Except.error Panic.makeLen, (Queue.mk3 [0, 0] [] [0] : Queue Nat).resetIfDrained)) ∧
    ((∃ (e : Panic) (q' : Queue Nat),
        (Queue.mk3 [0, 0] [] [0] : Queue Nat).GrowT 17592186044416 9223372036854775807 =
          (Except.error e, q')) ↔
      ((9223372036854775807 : Int) < 0 ∨
        ¬ (Queue.mk3 [0, 0] [] [0] : Queue Nat).canGrow 17592186044416 9223372036854775807)) ∧
    (Queue.mk3 [0, 0] [] [0] : Queue Nat).resetIfDrained.buf.arr =
        (Queue.mk3 [0, 0] [] [0] : Queue Nat).buf.arr ∧
    (Queue.mk3 [0, 0] [] [0] : Queue Nat).resetIfDrained.Cap =
        (Queue.mk3 [0, 0] [] [0] : Queue Nat).Cap ∧
    ((Queue.mk3 [0, 0] [] [0] : Queue Nat).Len = 0 ∧ (Queue.mk3 [0, 0] [] [0] : Queue Nat).off ≠ 0 →
      (Queue.mk3 [0, 0] [] [0] : Queue Nat).resetIfDrained.off = 0 ∧
      (Queue.mk3 [0, 0] [] [0] : Queue Nat).resetIfDrained.buf.len = 0) ∧
    (¬ ((Queue.mk3 [0, 0] [] [0] : Queue Nat).Len = 0 ∧
        (Queue.mk3 [0, 0] [] [0] : Queue Nat).off ≠ 0) →
      (Queue.mk3 [0, 0] [] [0] : Queue Nat).resetIfDrained = (Queue.mk3 [0, 0] [] [0] : Queue Nat))) :=
  ⟨WF_mk3 _ _ _, by decide, by decide, by decide,
   C11_grow_panics 17592186044416 _ 9223372036854775807 (WF_mk3 _ _ _) (by decide)
     (by decide) (by decide)⟩

/-- C12 (defect in Get). In the state reached from the zero-value queue by
Push(1), Push(2), Pop(), where Len() = 1, Get(-1) does not panic: it returns the
zero value of the cleared slot in front of the live region. -/
theorem C12_get_negative_index_answered :
    Reachable ({ buf := { arr := [none, some 2, none], len := 2 }, off := 1 } :
      Queue (Option Nat)) ∧
    ({ buf := { arr := [none, some 2, none], len := 2 }, off := 1 } :
      Queue (Option Nat)).Len = 1 ∧
    ({ buf := { arr := [none, some 2, none], len := 2 }, off := 1 } :
      Queue (Option Nat)).Get (-1) = Except.ok none :=
  ⟨Reachable.pop (some 1) true
      (Reachable.push (some 2) (Reachable.push (some 1) Reachable.zero rfl) rfl) rfl,
    by decide, rfl⟩

/-- C13 (structural invariant). In every state reached from the zero-value queue,
or from NewQueue(buf) for a slice buf, by public operations that return normally,
0 <= readOffset <= len(storage) <= Cap(); hence Len() >= 0, Elems returns a list
of Len() elements, and Empty() is true exactly when Len() = 0; the zero-value
queue is empty. -/
theorem C13_structural_invariant (q0 q : Queue α)
    (h0 : q0 = Queue.zero ∨ ∃ buf : Slice α, buf.len ≤ buf.cap ∧ q0 = NewQueue buf)
    (h : ReachableFrom q0 q) :
    (0 ≤ q.off ∧ q.off ≤ q.buf.len ∧ q.buf.len ≤ q.Cap) ∧
    0 ≤ q.Len ∧
    (∃ l : List α, q.Elems = Except.ok l ∧ q.Len = (l.length : Int)) ∧
    (q.Empty = true ↔ q.Len = 0) ∧
    (Queue.zero : Queue α).Empty = true := by
  have hq0 : q0.WF := by
    rcases h0 with rfl | ⟨buf, hb, rfl⟩
    · exact WF_mk3 [] [] []
    · exact NewQueue_wf buf hb
  have hw := h.from_wf hq0
  obtain ⟨pre, lv, post, rfl⟩ := hw.split
  refine ⟨⟨Nat.zero_le _, hw.1, hw.2⟩, by rw [Len_mk3]; omega,
    ⟨lv, Elems_mk3 _ _ _, Len_mk3 _ _ _⟩, ?_, rfl⟩
  rw [Empty_mk3, Len_mk3]
  cases lv with
  | nil => simp
  | cons x xs =>
    simp only [List.isEmpty_cons, Bool.false_eq_true, List.length_cons, false_iff]
    push_cast
    omega

/-- C13 at the state reached from NewQueue of a slice of length 2 and capacity 3
by one Pop. -/
theorem C13_structural_invariant_witness :
    ((NewQueue { arr := [4, 5, 0], len := 2 } : Queue Nat) = Queue.zero ∨
      ∃ buf : Slice Nat, buf.len ≤ buf.cap ∧
        (NewQueue { arr := [4, 5, 0], len := 2 } : Queue Nat) = NewQueue buf) ∧
    ReachableFrom (NewQueue { arr := [4, 5, 0], len := 2 } : Queue Nat)
      { buf := { arr := [0, 5, 0], len := 2 }, off := 1 } ∧
    ((0 ≤ ({ buf := { arr := [0, 5, 0], len := 2 }, off := 1 } : Queue Nat).off ∧
      ({ buf := { arr := [0, 5, 0], len := 2 }, off := 1 } : Queue Nat).off ≤
        ({ buf := { arr := [0, 5, 0], len := 2 }, off := 1 } : Queue Nat).buf.len ∧
      ({ buf := { arr := [0, 5, 0], len := 2 }, off := 1 } : Queue Nat).buf.len ≤
        ({ buf := { arr := [0, 5, 0], len := 2 }, off := 1 } : Queue Nat).Cap) ∧
    0 ≤ ({ buf := { arr := [0, 5, 0], len := 2 }, off := 1 } : Queue Nat).Len ∧
    (∃ l : List Nat,
      ({ buf := { arr := [0, 5, 0], len := 2 }, off := 1 } : Queue Nat).Elems = Except.ok l ∧
      ({ buf := { arr := [0, 5, 0], len := 2 }, off := 1 } : Queue Nat).Len = (l.length : Int)) ∧
    (({ buf := { arr := [0, 5, 0], len := 2 }, off := 1 } : Queue Nat).Empty = true ↔
      ({ buf := { arr := [0, 5, 0], len := 2 }, off := 1 } : Queue Nat).Len = 0) ∧
    (Queue.zero : Queue Nat).Empty = true) :=
  ⟨Or.inr ⟨{ arr := [4, 5, 0], len := 2 }, by decide, rfl⟩,
   ReachableFrom.step ReachableFrom.start (Step.pop 4 true rfl),
   C13_structural_invariant _ _ (Or.inr ⟨{ arr := [4, 5, 0], len := 2 }, by decide, rfl⟩)
     (ReachableFrom.step ReachableFrom.start (Step.pop 4 true rfl))⟩

/-- C14 as stated fails: Pop on the empty zero-value queue returns ok = false,
and Pop on a queue holding one element returns ok = true. -/
theorem C14_pop_ok_flag_counterexample :
    (Queue.zero : Queue Nat).Empty = true ∧
    (Queue.zero : Queue Nat).Pop = Except.ok (0, false, Queue.zero) ∧
    (Queue.mk3 [] [7] [] : Queue Nat).Empty = false ∧
    (Queue.mk3 [] [7] [] : Queue Nat).Pop = Except.ok (7, true, Queue.mk3 [0] [] []) :=
  ⟨rfl, rfl, rfl, rfl⟩

/-- C14 (amended). Whenever Pop returns, its ok flag is false if the queue was
empty at the time of the call and true otherwise; on a well-formed queue Pop
does return. -/
theorem C14_pop_ok_flag (q : Queue α) :
    (∀ (v : α) (ok : Bool) (q' : Queue α),
      q.Pop = Except.ok (v, ok, q') → ok = !q.Empty) ∧
    (q.WF → ∃ (v : α) (q' : Queue α), q.Pop = Except.ok (v, !q.Empty, q')) := by
  constructor
  · intro v ok q' hp
    simp only [Queue.Pop, bind, Except.bind, pure, Except.pure] at hp
    cases he : q.Empty with
    | true =>
      rw [he] at hp
      simp only [if_true] at hp
      cases hr : q.Reset with
      | error x => rw [hr] at hp; cases hp
      | ok q1 => rw [hr] at hp; cases hp; rfl
    | false =>
      rw [he] at hp
      simp only [Bool.false_eq_true, if_false] at hp
      cases hi : q.buf.index q.off with
      | error x => rw [hi] at hp; cases hp
      | ok v1 =>
        rw [hi] at hp
        cases hc : q.buf.check q.off ((q.off : Int) + 1) with
        | error x => rw [hc] at hp; cases hp
        | ok u => rw [hc] at hp; cases hp; rfl
  · intro hw
    obtain ⟨pre, lv, post, rfl⟩ := hw.split
    cases lv with
    | nil => exact ⟨default, _, by simpa [Empty_mk3] using Pop_mk3_nil pre post⟩
    | cons x xs => exact ⟨x, _, by simpa [Empty_mk3] using Pop_mk3_cons pre x xs post⟩

/-- C14 (amended) at a queue holding one element. -/
theorem C14_pop_ok_flag_witness :
    (∀ (v : Nat) (ok : Bool) (q' : Queue Nat),
      (Queue.mk3 [] [7] [] : Queue Nat).Pop = Except.ok (v, ok, q') →
        ok = !(Queue.mk3 [] [7] [] : Queue Nat).Empty) ∧
    ((Queue.mk3 [] [7] [] : Queue Nat).WF →
      ∃ (v : Nat) (q' : Queue Nat),
        (Queue.mk3 [] [7] [] : Queue Nat).Pop =
          Except.ok (v, !(Queue.mk3 [] [7] [] : Queue Nat).Empty, q')) :=
  C14_pop_ok_flag (Queue.mk3 [] [7] [])

/-- C15 (no reference to a removed element survives). In every state reachable
from the zero-value queue by Push, PushN, Pop, PopN, Skip, Grow and Reset, every
slot of the storage outside the live region holds the zero value; and when
growth allocates a new buffer from such a state, the old buffer is left with its
capacity and with the zero value in every slot, its former live region included. -/
theorem C15_no_stale_reference (q : Queue α) (h : Reachable q) :
    q.Clean ∧
    (∀ (c n : Int) (new old : Slice α), q.growAlloc c n = Except.ok (new, old) →
      old.cap = q.Cap ∧
      (∀ i : Nat, q.off ≤ i → i < q.buf.len → old.arr[i]? = some default) ∧
      (∀ i : Nat, i < old.cap → old.arr[i]? = some default)) := by
  obtain ⟨pre, lv, post, rfl, ha, hb⟩ := h.split_zero
  refine ⟨Clean_mk3 pre lv post ha hb, ?_⟩
  intro c n new old hg
  have ho := growAlloc_old_mk3 pre lv post c n new old hg
  subst ho
  have hz : AllZero (pre ++ (List.replicate lv.length (default : α) ++ post)) :=
    ha.append ((AllZero.replicate _).append hb)
  have hall : ∀ i : Nat, i < (pre ++ (List.replicate lv.length (default : α) ++ post)).length →
      (pre ++ (List.replicate lv.length (default : α) ++ post))[i]? = some default :=
    fun i hi => hz.getElem? hi
  refine ⟨by simp [Slice.cap, Queue.Cap, Queue.mk3], ?_, fun i hi => hall i hi⟩
  intro i _ h2
  apply hall
  simp only [Queue.mk3] at h2
  simp
  omega

/-- C15 at the state reached by Push(1), Push(2), Pop(). -/
theorem C15_no_stale_reference_witness :
    Reachable ({ buf := { arr := [0, 2, 0], len := 2 }, off := 1 } : Queue Nat) ∧
    (({ buf := { arr := [0, 2, 0], len := 2 }, off := 1 } : Queue Nat).Clean ∧
    (∀ (c n : Int) (new old : Slice Nat),
      ({ buf := { arr := [0, 2, 0], len := 2 }, off := 1 } : Queue Nat).growAlloc c n =
        Except.ok (new, old) →
      old.cap = ({ buf := { arr := [0, 2, 0], len := 2 }, off := 1 } : Queue Nat).Cap ∧
      (∀ i : Nat, ({ buf := { arr := [0, 2, 0], len := 2 }, off := 1 } : Queue Nat).off ≤ i →
        i < ({ buf := { arr := [0, 2, 0], len := 2 }, off := 1 } : Queue Nat).buf.len →
        old.arr[i]? = some default) ∧
      (∀ i : Nat, i < old.cap → old.arr[i]? = some default))) :=
  ⟨Reachable.pop 1 true (Reachable.push 2 (Reachable.push 1 Reachable.zero rfl) rfl) rfl,
   C15_no_stale_reference _
     (Reachable.pop 1 true (Reachable.push 2 (Reachable.push 1 Reachable.zero rfl) rfl) rfl)⟩

/-- C16 as stated fails: in the state reached by Push(1), Skip(-1) panics on the
bounds of its slice expression, and Grow of the largest int, a non-negative
count, panics in make (allocation limit 2^44 slots, that of a 64-bit platform
for two-word elements). -/
theorem C16_failure_kinds_counterexample :
    Reachable ({ buf := { arr := [1], len := 1 }, off := 0 } : Queue Nat) ∧
    ({ buf := { arr := [1], len := 1 }, off := 0 } : Queue Nat).Skip (-1) =
      Except.error Panic.sliceBounds ∧
    (0 : Int) ≤ 9223372036854775807 ∧
    ({ buf := { arr := [1], len := 1 }, off := 0 } : Queue Nat).GrowT 17592186044416
        9223372036854775807 =
      (Except.error Panic.makeLen, { buf := { arr := [1], len := 1 }, off := 0 }) :=
  ⟨Reachable.push 1 Reachable.zero rfl, rfl, by decide, rfl⟩

/-- C16 (amended). On every well-formed queue, which every state reachable from
the zero-value queue is, and under an allocation limit lim of make (capacities
and lim below 2^62, counts ints, slice lengths at most lim): Pop, PopN into any
destination whatever storage it has, Reset, Elems and Get(i) for
0 <= i < Len() return normally; Push, PushN of any slice and Grow(n) for n >= 0
return normally when their request (1, len(elems), n slots) is served in place
or the allocation of 2*Cap() + request slots is within the limit, and otherwise
panic in make, leaving the queue as the first statement of grow left it; Skip(n)
returns normally whenever n >= 0 or the queue is empty, with a count r such
that 0 <= r <= Len() and a well-formed queue afterwards. The failures are:
Grow(n) with n < 0 (negative count), Get(i) with i >= Len() or i below minus the
read offset (index out of range), the panic in make of Push, PushN and Grow, and
Skip(n) with n < 0 on a non-empty queue (slice bounds). -/
theorem C16_total_operations (lim : Nat) (q : Queue α) (h : q.WF)
    (hlim : lim < 4611686018427387904) (hc : q.Cap ≤ lim) :
    (∀ e : α,
      (q.canGrow lim 1 → ∃ q' : Queue α, q.PushT lim e = (Except.ok (), q')) ∧
      (¬ q.canGrow lim 1 →
        q.PushT lim e = (Except.error Panic.makeLen, q.resetIfDrained))) ∧
    (∀ a : SliceArg α, a.len ≤ lim →
      (q.canGrow lim a.len → ∃ q' : Queue α, q.PushNT lim a = (Except.ok (), q')) ∧
      (¬ q.canGrow lim a.len →
        q.PushNT lim a = (Except.error Panic.makeLen, q.resetIfDrained))) ∧
    (∃ v ok q', q.Pop = Except.ok (v, ok, q')) ∧
    (∀ a : SliceArg α, ∃ n dst' q', q.PopNT a = Except.ok (n, dst', q')) ∧
    (∃ q', q.Reset = Except.ok q') ∧
    (∃ l, q.Elems = Except.ok l) ∧
    (∀ n : Int, 0 ≤ n → n < 9223372036854775808 →
      (q.canGrow lim n → ∃ q' : Queue α, q.GrowT lim n = (Except.ok (), q')) ∧
      (¬ q.canGrow lim n →
        q.GrowT lim n = (Except.error Panic.makeLen, q.resetIfDrained))) ∧
    (∀ n : Int, n < 0 → q.GrowT lim n = (Except.error Panic.growNegativeCount, q)) ∧
    (∀ i : Int, 0 ≤ i → i < q.Len → ∃ v, q.Get i = Except.ok v) ∧
    (∀ i : Int, q.Len ≤ i ∨ i < -(q.off : Int) →
      q.Get i = Except.error Panic.indexOutOfRange) ∧
    (∀ n : Int, 0 ≤ n ∨ q.Empty = true →
      ∃ r q', q.Skip n = Except.ok (r, q') ∧ 0 ≤ r ∧ r ≤ q.Len ∧ q'.WF) ∧
    (∀ n : Int, n < 0 → q.Empty = false → q.Skip n = Except.error Panic.sliceBounds) := by
  have hget : ∀ i : Int, q.Len ≤ i ∨ i < -(q.off : Int) →
      q.Get i = Except.error Panic.indexOutOfRange := by
    intro i hi
    have hno : ¬ (0 ≤ (q.off : Int) + i ∧ (q.off : Int) + i < (q.buf.len : Int)) := by
      unfold Queue.Len at hi
      omega
    simp only [Queue.Get, Slice.index, if_neg hno]
  obtain ⟨pre, lv, post, rfl⟩ := h.split
  rw [Cap_mk3] at hc
  have hlim' : lim < 9223372036854775808 := by omega
  have hw : ∀ k : Nat, (k : Int) < 9223372036854775808 →
      ¬ (Queue.mk3 pre lv post).canGrow lim k →
      (¬ fitsInPlace ((pre.length + lv.length + post.length : Nat) : Int)
        ((pre.length + lv.length : Nat) : Int) (lv.length : Int) (k : Int)) ∧
      (wrapInt (2 * ((pre.length + lv.length + post.length : Nat) : Int) + k) < 0 ∨
        (lim : Int) <
          wrapInt (2 * ((pre.length + lv.length + post.length : Nat) : Int) + k)) := by
    intro k hk hb
    rw [canGrow_mk3] at hb
    push_neg at hb
    exact ⟨hb.1, wrapInt_beyond lim _ _ hlim (by omega) (by exact_mod_cast hc) (by omega) hk
      (by omega)⟩
  refine ⟨?_, ?_, ?_, ?_, ⟨_, Reset_mk3 pre lv post⟩, ⟨_, Elems_mk3 pre lv post⟩, ?_,
    fun n hn => GrowT_neg lim _ n hn, ?_, hget, ?_, ?_⟩
  · intro e
    refine ⟨fun hb => ?_, fun hb => ?_⟩
    · obtain ⟨pre', post', hp, _⟩ := PushT_ok_mk3 lim pre lv post e hlim'
        (by simpa using (canGrow_mk3 lim pre lv post 1).mp (by simpa using hb))
      exact ⟨_, hp⟩
    · obtain ⟨h1, h2⟩ := hw 1 (by omega) (by simpa using hb)
      rw [resetIfDrained_mk3]
      exact PushT_fail_mk3 lim pre lv post e (by simpa using h1) (by simpa using h2)
  · intro a ha
    refine ⟨fun hb => ?_, fun hb => ?_⟩
    · obtain ⟨pre', post', w, hp, _⟩ := PushNT_ok_mk3 lim pre lv post a hlim'
        ((canGrow_mk3 lim pre lv post a.len).mp hb)
      exact ⟨_, hp⟩
    · obtain ⟨h1, h2⟩ := hw a.len (by omega) hb
      rw [resetIfDrained_mk3]
      exact PushNT_fail_mk3 lim pre lv post a h1 h2
  · cases lv with
    | nil => exact ⟨_, _, _, Pop_mk3_nil pre post⟩
    | cons x xs => exact ⟨_, _, _, Pop_mk3_cons pre x xs post⟩
  · intro a
    exact PopNT_returns _ a (WF_mk3 _ _ _)
  · intro n hn hn63
    obtain ⟨k, rfl⟩ := Int.eq_ofNat_of_zero_le hn
    refine ⟨fun hb => ?_, fun hb => ?_⟩
    · obtain ⟨pre', post', hg, _⟩ := GrowT_ok_mk3 lim pre lv post k hlim'
        ((canGrow_mk3 lim pre lv post k).mp hb)
      exact ⟨_, hg⟩
    · obtain ⟨h1, h2⟩ := hw k hn63 hb
      rw [resetIfDrained_mk3]
      exact GrowT_fail_mk3 lim pre lv post k h1 h2
  · intro i h0 h1
    obtain ⟨k, rfl⟩ := Int.eq_ofNat_of_zero_le h0
    rw [Len_mk3] at h1
    have hk : k < lv.length := by omega
    exact ⟨_, Get_mk3 pre lv post k lv[k] (List.getElem?_eq_getElem hk)⟩
  · intro n hn
    by_cases hl : lv = []
    · subst hl
      exact ⟨0, _, Skip_mk3_nil pre post n, le_refl _, by simp [Len_mk3], WF_mk3 _ _ _⟩
    · have hn0 : 0 ≤ n := by
        rcases hn with hn | hn
        · exact hn
        · cases lv with
          | nil => exact absurd rfl hl
          | cons x xs => simp [Empty_mk3] at hn
      refine ⟨_, _, Skip_mk3 pre lv post n hl hn0, by omega, ?_, WF_mk3 _ _ _⟩
      rw [Len_mk3]; omega
  · intro n hn he
    have hl : lv ≠ [] := by
      intro hl
      subst hl
      simp [Empty_mk3] at he
    exact Skip_mk3_neg pre lv post n hl hn

/-- C16 (amended) at the state reached by Push(1), with an allocation limit of
100 slots, within which a Push is. -/
theorem C16_total_operations_witness :
    (Queue.mk3 [] [1] [] : Queue Nat).WF ∧ 100 < 4611686018427387904 ∧
    (Queue.mk3 [] [1] [] : Queue Nat).Cap ≤ 100 ∧
    (Queue.mk3 [] [1] [] : Queue Nat).canGrow 100 1 ∧
    ((∀ e : Nat,
      ((Queue.mk3 [] [1] [] : Queue Nat).canGrow 100 1 →
        ∃ q' : Queue Nat, (Queue.mk3 [] [1] [] : Queue Nat).PushT 100 e = (Except.ok (), q')) ∧
      (¬ (Queue.mk3 [] [1] [] : Queue Nat).canGrow 100 1 →
        (Queue.mk3 [] [1] [] : Queue Nat).PushT 100 e =
          (Except.error Panic.makeLen, (Queue.mk3 [] [1] [] : Queue Nat).resetIfDrained))) ∧
    (∀ a : SliceArg Nat, a.len ≤ 100 →
      ((Queue.mk3 [] [1] [] : Queue Nat).canGrow 100 a.len →
        ∃ q' : Queue Nat, (Queue.mk3 [] [1] [] : Queue Nat).PushNT 100 a = (Except.ok (), q')) ∧
      (¬ (Queue.mk3 [] [1] [] : Queue Nat).canGrow 100 a.len →
        (Queue.mk3 [] [1] [] : Queue Nat).PushNT 100 a =
          (Except.error Panic.makeLen, (Queue.mk3 [] [1] [] : Queue Nat).resetIfDrained))) ∧
    (∃ v ok q', (Queue.mk3 [] [1] [] : Queue Nat).Pop = Except.ok (v, ok, q')) ∧
    (∀ a : SliceArg Nat, ∃ n dst' q',
      (Queue.mk3 [] [1] [] : Queue Nat).PopNT a = Except.ok (n, dst', q')) ∧
    (∃ q', (Queue.mk3 [] [1] [] : Queue Nat).Reset = Except.ok q') ∧
    (∃ l, (Queue.mk3 [] [1] [] : Queue Nat).Elems = Except.ok l) ∧
    (∀ n : Int, 0 ≤ n → n < 9223372036854775808 →
      ((Queue.mk3 [] [1] [] : Queue Nat).canGrow 100 n →
        ∃ q' : Queue Nat, (Queue.mk3 [] [1] [] : Queue Nat).GrowT 100 n = (Except.ok (), q')) ∧
      (¬ (Queue.mk3 [] [1] [] : Queue Nat).canGrow 100 n →
        (Queue.mk3 [] [1] [] : Queue Nat).GrowT 100 n =
          (Except.error Panic.makeLen, (Queue.mk3 [] [1] [] : Queue Nat).resetIfDrained))) ∧
    (∀ n : Int, n < 0 →
      (Queue.mk3 [] [1] [] : Queue Nat).GrowT 100 n =
        (Except.error Panic.growNegativeCount, (Queue.mk3 [] [1] [] : Queue Nat))) ∧
    (∀ i : Int, 0 ≤ i → i < (Queue.mk3 [] [1] [] : Queue Nat).Len →
      ∃ v, (Queue.mk3 [] [1] [] : Queue Nat).Get i = Except.ok v) ∧
    (∀ i : Int, (Queue.mk3 [] [1] [] : Queue Nat).Len ≤ i ∨
        i < -((Queue.mk3 [] [1] [] : Queue Nat).off : Int) →
      (Queue.mk3 [] [1] [] : Queue Nat).Get i = Except.error Panic.indexOutOfRange) ∧
    (∀ n : Int, 0 ≤ n ∨ (Queue.mk3 [] [1] [] : Queue Nat).Empty = true →
      ∃ r q', (Queue.mk3 [] [1] [] : Queue Nat).Skip n = Except.ok (r, q') ∧
        0 ≤ r ∧ r ≤ (Queue.mk3 [] [1] [] : Queue Nat).Len ∧ q'.WF) ∧
    (∀ n : Int, n < 0 → (Queue.mk3 [] [1] [] : Queue Nat).Empty = false →
      (Queue.mk3 [] [1] [] : Queue Nat).Skip n = Except.error Panic.sliceBounds)) :=
  ⟨WF_mk3 _ _ _, by decide, by decide, Or.inr (by decide),
   C16_total_operations 100 _ (WF_mk3 _ _ _) (by decide) (by decide)⟩

/-- C17 (growth sizing rule). On a well-formed queue with capacity c, storage
length l and live count m, under an allocation limit lim of make (capacities and
lim below 2^62, n an int, slice lengths at most lim): a request of n >= 0 slots
by Grow(n), of 1 slot by Push, or of len(elems) slots by PushN returns normally
whenever it is served in place or the allocation of 2*c + n slots is within the
limit; and whenever the call returns, the capacity afterwards is exactly c when
n <= c - l, or m = 0 and n <= c, or n <= c/2 - m, and exactly 2*c + n otherwise;
the capacity has not decreased, and whenever the request did not fit behind the
tail the read offset afterwards is 0. -/
theorem C17_growth_sizing (lim : Nat) (q : Queue α) (n : Int) (e : α) (a : SliceArg α)
    (h : q.WF) (hn : 0 ≤ n) (hn63 : n < 9223372036854775808)
    (hlim : lim < 4611686018427387904) (hc : q.Cap ≤ lim) (ha : a.len ≤ lim) :
    ((q.canGrow lim n → ∃ q' : Queue α, q.GrowT lim n = (Except.ok (), q')) ∧
      (∀ q' : Queue α, q.GrowT lim n = (Except.ok (), q') →
        (q'.Cap : Int) = sizingRule q.Cap q.buf.len q.Len n ∧ q.Cap ≤ q'.Cap ∧
        (¬ n ≤ (q.Cap : Int) - q.buf.len → q'.off = 0))) ∧
    ((q.canGrow lim 1 → ∃ q' : Queue α, q.PushT lim e = (Except.ok (), q')) ∧
      (∀ q' : Queue α, q.PushT lim e = (Except.ok (), q') →
        (q'.Cap : Int) = sizingRule q.Cap q.buf.len q.Len 1 ∧ q.Cap ≤ q'.Cap ∧
        (¬ (1 : Int) ≤ (q.Cap : Int) - q.buf.len → q'.off = 0))) ∧
    ((q.canGrow lim a.len → ∃ q' : Queue α, q.PushNT lim a = (Except.ok (), q')) ∧
      (∀ q' : Queue α, q.PushNT lim a = (Except.ok (), q') →
        (q'.Cap : Int) = sizingRule q.Cap q.buf.len q.Len a.len ∧ q.Cap ≤ q'.Cap ∧
        (¬ (a.len : Int) ≤ (q.Cap : Int) - q.buf.len → q'.off = 0))) := by
  obtain ⟨pre, lv, post, rfl⟩ := h.split
  obtain ⟨k, rfl⟩ := Int.eq_ofNat_of_zero_le hn
  have hcap : ((Queue.mk3 pre lv post).Cap : Int)
      = ((pre.length + lv.length + post.length : Nat) : Int) := by rw [Cap_mk3]
  have hlen : (((Queue.mk3 pre lv post).buf.len : Nat) : Int)
      = ((pre.length + lv.length : Nat) : Int) := rfl
  rw [Cap_mk3] at hc
  have hlim' : lim < 9223372036854775808 := by omega
  have hoff : ∀ (j : Nat) (pre' : List α), ((j ≤ post.length ∧ pre' = pre) ∨ pre' = []) →
      ¬ (j : Int) ≤ ((Queue.mk3 pre lv post).Cap : Int) - (Queue.mk3 pre lv post).buf.len →
      pre'.length = 0 := by
    intro j pre' hp hnot
    rcases hp with ⟨hj, _⟩ | hp
    · exfalso; apply hnot; rw [hcap, hlen]; push_cast; omega
    · simp [hp]
  have hmono : ∀ (j : Nat) (c' : Nat),
      (c' : Int) = sizingRule ((pre.length + lv.length + post.length : Nat) : Int)
        ((pre.length + lv.length : Nat) : Int) (lv.length : Int) (j : Int) →
      (Queue.mk3 pre lv post).Cap ≤ c' := by
    intro j c' hc
    have := sizingRule_ge ((pre.length + lv.length + post.length : Nat) : Int)
      ((pre.length + lv.length : Nat) : Int) (lv.length : Int) (j : Int) (by omega) (by omega)
    rw [Cap_mk3]; omega
  refine ⟨⟨fun hb => ?_, fun q' hq' => ?_⟩, ⟨fun hb => ?_, fun q' hq' => ?_⟩,
    ⟨fun hb => ?_, fun q' hq' => ?_⟩⟩
  · obtain ⟨pre', post', hg, _⟩ :=
      GrowT_ok_mk3 lim pre lv post k hlim' ((canGrow_mk3 lim pre lv post k).mp hb)
    exact ⟨_, hg⟩
  · have hb := GrowT_ret_mk3 lim pre lv post k hlim hc hn63 hq'
    obtain ⟨pre', post', hg, _, _, hs, hp, _⟩ := GrowT_ok_mk3 lim pre lv post k hlim' hb
    rw [hg] at hq'
    simp only [Prod.mk.injEq, true_and] at hq'
    subst hq'
    refine ⟨?_, ?_, fun hnot => hoff k pre' hp hnot⟩
    · rw [hcap, hlen, Len_mk3, ← hs, Cap_mk3]
    · rw [Cap_mk3 pre' lv post']; exact hmono k _ hs
  · obtain ⟨pre', post', hg, _⟩ := PushT_ok_mk3 lim pre lv post e hlim'
      (by simpa using (canGrow_mk3 lim pre lv post 1).mp (by simpa using hb))
    exact ⟨_, hg⟩
  · have hb := PushT_ret_mk3 lim pre lv post e hlim hc hq'
    obtain ⟨pre', post', hg, hs, hp⟩ := PushT_ok_mk3 lim pre lv post e hlim' hb
    rw [hg] at hq'
    simp only [Prod.mk.injEq, true_and] at hq'
    subst hq'
    refine ⟨?_, ?_, fun hnot => hoff 1 pre' hp (by simpa using hnot)⟩
    · rw [hcap, hlen, Len_mk3, ← hs, Cap_mk3]; simp; omega
    · rw [Cap_mk3 pre' (lv ++ [e]) post']
      have := hmono 1 (pre'.length + lv.length + 1 + post'.length) (by simpa using hs)
      simp; omega
  · obtain ⟨pre', post', w, hg, _⟩ :=
      PushNT_ok_mk3 lim pre lv post a hlim' ((canGrow_mk3 lim pre lv post a.len).mp hb)
    exact ⟨_, hg⟩
  · have hb := PushNT_ret_mk3 lim pre lv post a hlim hc ha hq'
    obtain ⟨pre', post', w, hg, hwl, hs, hp, _⟩ := PushNT_ok_mk3 lim pre lv post a hlim' hb
    rw [hg] at hq'
    simp only [Prod.mk.injEq, true_and] at hq'
    subst hq'
    refine ⟨?_, ?_, fun hnot => hoff a.len pre' hp hnot⟩
    · rw [hcap, hlen, Len_mk3, ← hs, Cap_mk3]; simp [hwl]; omega
    · rw [Cap_mk3 pre' (lv ++ w) post']
      have := hmono a.len (pre'.length + lv.length + a.len + post'.length) hs
      simp [hwl]; omega

/-- C17 at a full queue of capacity 3 holding 5, 6 behind one consumed slot, with
requests of 2 slots by Grow, 1 by Push and 3 by PushN and an allocation limit of
100 slots, within which all three requests are. -/
theorem C17_growth_sizing_witness :
    (Queue.mk3 [0] [5, 6] [] : Queue Nat).WF ∧ (0 : Int) ≤ 2 ∧
    (2 : Int) < 9223372036854775808 ∧ 100 < 4611686018427387904 ∧
    (Queue.mk3 [0] [5, 6] [] : Queue Nat).Cap ≤ 100 ∧
    (SliceArg.own [7, 8, 9] : SliceArg Nat).len ≤ 100 ∧
    (Queue.mk3 [0] [5, 6] [] : Queue Nat).canGrow 100 2 ∧
    (Queue.mk3 [0] [5, 6] [] : Queue Nat).canGrow 100 1 ∧
    (Queue.mk3 [0] [5, 6] [] : Queue Nat).canGrow 100
      (SliceArg.own [7, 8, 9] : SliceArg Nat).len ∧
    ((((Queue.mk3 [0] [5, 6] [] : Queue Nat).canGrow 100 2 →
        ∃ q' : Queue Nat,
          (Queue.mk3 [0] [5, 6] [] : Queue Nat).GrowT 100 2 =
            (Except.ok (), q')) ∧
      (∀ q' : Queue Nat,
        (Queue.mk3 [0] [5, 6] [] : Queue Nat).GrowT 100 2 =
          (Except.ok (), q') →
        (q'.Cap : Int) =
          sizingRule (Queue.mk3 [0] [5, 6] [] : Queue Nat).Cap
            (Queue.mk3 [0] [5, 6] [] : Queue Nat).buf.len
            (Queue.mk3 [0] [5, 6] [] : Queue Nat).Len 2 ∧
        (Queue.mk3 [0] [5, 6] [] : Queue Nat).Cap ≤ q'.Cap ∧
        (¬ (2 : Int) ≤
            ((Queue.mk3 [0] [5, 6] [] : Queue Nat).Cap : Int) -
              (Queue.mk3 [0] [5, 6] [] : Queue Nat).buf.len →
          q'.off = 0))) ∧
    (((Queue.mk3 [0] [5, 6] [] : Queue Nat).canGrow 100 1 →
        ∃ q' : Queue Nat,
          (Queue.mk3 [0] [5, 6] [] : Queue Nat).PushT 100 7 =
            (Except.ok (), q')) ∧
      (∀ q' : Queue Nat,
        (Queue.mk3 [0] [5, 6] [] : Queue Nat).PushT 100 7 =
          (Except.ok (), q') →
        (q'.Cap : Int) =
          sizingRule (Queue.mk3 [0] [5, 6] [] : Queue Nat).Cap
            (Queue.mk3 [0] [5, 6] [] : Queue Nat).buf.len
            (Queue.mk3 [0] [5, 6] [] : Queue Nat).Len 1 ∧
        (Queue.mk3 [0] [5, 6] [] : Queue Nat).Cap ≤ q'.Cap ∧
        (¬ (1 : Int) ≤
            ((Queue.mk3 [0] [5, 6] [] : Queue Nat).Cap : Int) -
              (Queue.mk3 [0] [5, 6] [] : Queue Nat).buf.len →
          q'.off = 0))) ∧
    (((Queue.mk3 [0] [5, 6] [] : Queue Nat).canGrow 100 
            (SliceArg.own [7, 8, 9] : SliceArg Nat).len →
        ∃ q' : Queue Nat,
          (Queue.mk3 [0] [5, 6] [] : Queue Nat).PushNT 100
          (SliceArg.own [7, 8, 9] : SliceArg Nat) =
            (Except.ok (), q')) ∧
      (∀ q' : Queue Nat,
        (Queue.mk3 [0] [5, 6] [] : Queue Nat).PushNT 100
          (SliceArg.own [7, 8, 9] : SliceArg Nat) =
          (Except.ok (), q') →
        (q'.Cap : Int) =
          sizingRule (Queue.mk3 [0] [5, 6] [] : Queue Nat).Cap
            (Queue.mk3 [0] [5, 6] [] : Queue Nat).buf.len
            (Queue.mk3 [0] [5, 6] [] : Queue Nat).Len 
            (SliceArg.own [7, 8, 9] : SliceArg Nat).len ∧
        (Queue.mk3 [0] [5, 6] [] : Queue Nat).Cap ≤ q'.Cap ∧
        (¬ ((SliceArg.own [7, 8, 9] : SliceArg Nat).len : Int) ≤
            ((Queue.mk3 [0] [5, 6] [] : Queue Nat).Cap : Int) -
              (Queue.mk3 [0] [5, 6] [] : Queue Nat).buf.len →
          q'.off = 0)))) :=
  ⟨WF_mk3 _ _ _, by decide, by decide, by decide, by decide, by decide, Or.inr (by decide),
   Or.inr (by decide), Or.inr (by decide),
   C17_growth_sizing 100 _ 2 7 (SliceArg.own [7, 8, 9]) (WF_mk3 _ _ _) (by decide) (by decide)
     (by decide) (by decide) (by decide)⟩

/-- C18 as stated fails: on a queue with read offset 1, storage length 2,
capacity 3 and one live element, grow(1) takes the reslice path and returns 2,
the old storage length, not the old logical length 1; the same under an
allocation limit (2^44 slots). -/
theorem C18_grow_return_counterexample :
    (Queue.mk3 [0] [5] [0] : Queue Nat).WF ∧
    (Queue.mk3 [0] [5] [0] : Queue Nat).Len = 1 ∧
    (Queue.mk3 [0] [5] [0] : Queue Nat).grow 1 =
      Except.ok (2, { buf := { arr := [0, 5, 0], len := 3 }, off := 1 }) ∧
    (Queue.mk3 [0] [5] [0] : Queue Nat).growT 17592186044416 1 =
      (Except.ok 2, { buf := { arr := [0, 5, 0], len := 3 }, off := 1 }, none) ∧
    (2 : Int) ≠ (Queue.mk3 [0] [5] [0] : Queue Nat).Len :=
  ⟨WF_mk3 _ _ _, by decide, rfl, rfl, by decide⟩

/-- C18 (amended). On a well-formed queue with live count m, for n >= 0 and
under an allocation limit lim of make (capacities and lim below 2^62, n an int):
grow(n) returns normally whenever the request is served in place or the
allocation of 2*Cap() + n slots is within the limit; and whenever grow(n)
returns, it leaves the visible logical length at m + n and returns the storage
index of the first new slot, which is the read offset afterwards plus m: on the
plain reslice path (no reset, n <= cap - len) that is the old storage length
with the read offset kept, and on every other path (reset-then-reslice, slide,
reallocate) it is m with the read offset 0. -/
theorem C18_grow_return (lim : Nat) (q : Queue α) (n : Int) (h : q.WF) (hn : 0 ≤ n)
    (hn63 : n < 9223372036854775808) (hlim : lim < 4611686018427387904)
    (hc : q.Cap ≤ lim) :
    (q.canGrow lim n →
      ∃ (i : Int) (q' : Queue α) (old : Option (Slice α)),
        q.growT lim n = (Except.ok i, q', old)) ∧
    (∀ (i : Int) (q' : Queue α) (old : Option (Slice α)),
      q.growT lim n = (Except.ok i, q', old) →
      q'.WF ∧
      q'.Len = q.Len + n ∧
      i = (q'.off : Int) + q.Len ∧
      ((¬ (q.Len = 0 ∧ q.off ≠ 0) ∧ n ≤ (q.Cap : Int) - q.buf.len) →
        i = (q.buf.len : Int) ∧ q'.off = q.off) ∧
      (¬ (¬ (q.Len = 0 ∧ q.off ≠ 0) ∧ n ≤ (q.Cap : Int) - q.buf.len) →
        i = q.Len ∧ q'.off = 0)) := by
  obtain ⟨pre, lv, post, rfl⟩ := h.split
  obtain ⟨k, rfl⟩ := Int.eq_ofNat_of_zero_le hn
  have hpath : (¬ ((Queue.mk3 pre lv post).Len = 0 ∧ (Queue.mk3 pre lv post).off ≠ 0) ∧
      (k : Int) ≤ ((Queue.mk3 pre lv post).Cap : Int) - (Queue.mk3 pre lv post).buf.len) ↔
      ((lv ≠ [] ∨ pre = []) ∧ k ≤ post.length) := by
    rw [Len_mk3, Cap_mk3]
    have e1 : (Queue.mk3 pre lv post).off = pre.length := rfl
    have e2 : (Queue.mk3 pre lv post).buf.len = pre.length + lv.length := rfl
    rw [e1, e2]
    have a1 : lv ≠ [] ↔ lv.length ≠ 0 := by simp
    have a2 : pre = [] ↔ pre.length = 0 := by simp
    rw [a1, a2]
    push_cast
    omega
  rw [Cap_mk3] at hc
  have hlim' : lim < 9223372036854775808 := by omega
  refine ⟨fun hb => ?_, fun i q' old hq' => ?_⟩
  · obtain ⟨i, q', old, hT, _⟩ :=
      growT_agree_mk3 lim pre lv post k hlim' ((canGrow_mk3 lim pre lv post k).mp hb)
    exact ⟨i, q', old, hT⟩
  · have hb := growT_ret_mk3 lim pre lv post k hlim hc hn63 hq'
    obtain ⟨i0, q0, old0, hT, hB⟩ := growT_agree_mk3 lim pre lv post k hlim' hb
    rw [hT] at hq'
    simp only [Prod.mk.injEq, Except.ok.injEq] at hq'
    obtain ⟨rfl, rfl, _⟩ := hq'
    obtain ⟨pre', fill, post', hg, hf, h1, h2⟩ := grow_mk3_index pre lv post k
    rw [hB] at hg
    simp only [Except.ok.injEq, Prod.mk.injEq] at hg
    obtain ⟨rfl, rfl⟩ := hg
    refine ⟨WF_mk3 _ _ _, ?_, ?_, ?_, ?_⟩
    · rw [Len_mk3, Len_mk3]; simp [hf]
    · rw [Len_mk3]; simp [Queue.mk3]
    · intro hp
      have := h1 (hpath.mp hp)
      subst this
      exact ⟨rfl, rfl⟩
    · intro hp
      have := h2 (fun hh => hp (hpath.mpr hh))
      subst this
      rw [Len_mk3]
      exact ⟨by simp, rfl⟩

/-- C18 (amended) at the queue with read offset 1, storage length 2 and
capacity 3, grow(1) and an allocation limit of 100 slots. -/
theorem C18_grow_return_witness :
    (Queue.mk3 [0] [5] [0] : Queue Nat).WF ∧ (0 : Int) ≤ 1 ∧ (1 : Int) < 9223372036854775808 ∧
    100 < 4611686018427387904 ∧ (Queue.mk3 [0] [5] [0] : Queue Nat).Cap ≤ 100 ∧
    (Queue.mk3 [0] [5] [0] : Queue Nat).canGrow 100 1 ∧
    ((Queue.mk3 [0] [5] [0] : Queue Nat).canGrow 100 1 →
      ∃ (i : Int) (q' : Queue Nat) (old : Option (Slice Nat)),
        (Queue.mk3 [0] [5] [0] : Queue Nat).growT 100 1 = (Except.ok i, q', old)) ∧
    (∀ (i : Int) (q' : Queue Nat) (old : Option (Slice Nat)),
      (Queue.mk3 [0] [5] [0] : Queue Nat).growT 100 1 = (Except.ok i, q', old) →
      q'.WF ∧
      q'.Len = (Queue.mk3 [0] [5] [0] : Queue Nat).Len + 1 ∧
      i = (q'.off : Int) + (Queue.mk3 [0] [5] [0] : Queue Nat).Len ∧
      ((¬ ((Queue.mk3 [0] [5] [0] : Queue Nat).Len = 0 ∧ (Queue.mk3 [0] [5] [0] : Queue Nat).off ≠ 0) ∧
        (1 : Int) ≤ ((Queue.mk3 [0] [5] [0] : Queue Nat).Cap : Int) -
            (Queue.mk3 [0] [5] [0] : Queue Nat).buf.len) →
        i = ((Queue.mk3 [0] [5] [0] : Queue Nat).buf.len : Int) ∧ q'.off =
            (Queue.mk3 [0] [5] [0] : Queue Nat).off) ∧
      (¬ (¬ ((Queue.mk3 [0] [5] [0] : Queue Nat).Len = 0 ∧
          (Queue.mk3 [0] [5] [0] : Queue Nat).off ≠ 0) ∧
        (1 : Int) ≤ ((Queue.mk3 [0] [5] [0] : Queue Nat).Cap : Int) -
            (Queue.mk3 [0] [5] [0] : Queue Nat).buf.len) →
        i = (Queue.mk3 [0] [5] [0] : Queue Nat).Len ∧ q'.off = 0)) :=
  ⟨WF_mk3 _ _ _, by decide, by decide, by decide, by decide, Or.inl (Or.inl (by decide)),
   C18_grow_return 100 _ 1 (WF_mk3 _ _ _) (by decide) (by decide) (by decide) (by decide)⟩

/-- C19 (SyncQueue.Pop is Queue.Pop with the flag dropped). With the inner queue
after the possible wait given, SyncQueue.Pop returns the first component of
Queue.Pop on that queue and stores the queue Queue.Pop leaves; when that queue is
non-empty the result is its front element and Len() drops by one; when it is
still empty the result is the zero value and the inner queue is left empty and
reset; no wait happens when the inner queue was non-empty on entry;
SyncQueue.Push and SyncQueue.Len act on the inner queue as Queue.Push and
Queue.Len do. -/
theorem C19_syncqueue_delegates (s : SyncQueue α) (woken : Queue α) (e : α)
    (hs : s.queue.WF) (hw : woken.WF) :
    s.Pop woken =
      (fun r => (r.1, decide (s.queue.Len ≤ 0), SyncQueue.mk r.2.2)) <$>
        (s.afterWait woken).Pop ∧
    ((s.afterWait woken).Empty = false →
      ∃ (x : α) (xs : List α) (q' : Queue α),
        (s.afterWait woken).Elems = Except.ok (x :: xs) ∧
        s.Pop woken = Except.ok (x, decide (s.queue.Len ≤ 0), SyncQueue.mk q') ∧
        q'.Elems = Except.ok xs ∧ q'.Len = (s.afterWait woken).Len - 1) ∧
    ((s.afterWait woken).Empty = true →
      ∃ q' : Queue α,
        s.Pop woken = Except.ok (default, true, SyncQueue.mk q') ∧
        q'.Len = 0 ∧ q'.off = 0 ∧ q'.buf.len = 0) ∧
    (s.queue.Empty = false →
      s.afterWait woken = s.queue ∧
      ∃ (x : α) (q' : Queue α),
        s.queue.Pop = Except.ok (x, true, q') ∧
        s.Pop woken = Except.ok (x, false, SyncQueue.mk q')) ∧
    s.Push e = SyncQueue.mk <$> s.queue.Push e ∧
    s.Len = s.queue.Len := by
  have hdef : s.Pop woken =
      (fun r => (r.1, decide (s.queue.Len ≤ 0), SyncQueue.mk r.2.2)) <$>
        (s.afterWait woken).Pop := by
    simp only [SyncQueue.Pop, SyncQueue.afterWait, decide_eq_true_eq, bind, Except.bind,
      Functor.map, Except.map, pure, Except.pure]
  have hq : (s.afterWait woken).WF := by
    unfold SyncQueue.afterWait
    split
    · exact hw
    · exact hs
  refine ⟨hdef, ?_, ?_, ?_, ?_, rfl⟩
  · intro he
    obtain ⟨pre, lv, post, hsplit⟩ := hq.split
    rw [hdef]
    rw [hsplit] at he ⊢
    cases lv with
    | nil => simp [Empty_mk3] at he
    | cons x xs =>
      refine ⟨x, xs, Queue.mk3 (pre ++ [default]) xs post, Elems_mk3 _ _ _, ?_,
        Elems_mk3 _ _ _, by simp [Len_mk3]⟩
      rw [Pop_mk3_cons]; rfl
  · intro he
    have hwaited : decide (s.queue.Len ≤ 0) = true := by
      by_contra hc
      have hc' : ¬ s.queue.Len ≤ 0 := by simpa using hc
      have : s.afterWait woken = s.queue := by simp [SyncQueue.afterWait, hc']
      rw [this] at he
      simp [Queue.Empty, Queue.Len] at he hc'
      omega
    obtain ⟨pre, lv, post, hsplit⟩ := hq.split
    rw [hdef, hwaited]
    rw [hsplit] at he ⊢
    cases lv with
    | cons x xs => simp [Empty_mk3] at he
    | nil =>
      refine ⟨Queue.mk3 [] [] (pre ++ post), ?_, by simp [Len_mk3], rfl, rfl⟩
      rw [Pop_mk3_nil]; rfl
  · intro he
    have hpos : ¬ s.queue.Len ≤ 0 := by
      simp [Queue.Empty, Queue.Len] at he ⊢
      omega
    have haw : s.afterWait woken = s.queue := by simp [SyncQueue.afterWait, hpos]
    refine ⟨haw, ?_⟩
    have hd : decide (s.queue.Len ≤ 0) = false := by simpa using hpos
    rw [hdef, haw, hd]
    obtain ⟨pre, lv, post, hsplit⟩ := hs.split
    rw [hsplit] at he ⊢
    cases lv with
    | nil => simp [Empty_mk3] at he
    | cons x xs =>
      exact ⟨x, _, Pop_mk3_cons pre x xs post, by rw [Pop_mk3_cons]; rfl⟩
  · simp only [SyncQueue.Push, bind, Except.bind, Functor.map, Except.map, pure, Except.pure]

/-- C19 at a new SyncQueue whose consumer waits and then finds the element 9
pushed by a producer. -/
theorem C19_syncqueue_delegates_witness :
    (NewSyncQueue : SyncQueue Nat).queue.WF ∧ (Queue.mk3 [] [9] [] : Queue Nat).WF ∧
    (NewSyncQueue : SyncQueue Nat).Pop (Queue.mk3 [] [9] []) =
      Except.ok (9, true, SyncQueue.mk (Queue.mk3 [0] [] [])) ∧
    ((NewSyncQueue : SyncQueue Nat).Pop (Queue.mk3 [] [9] []) =
      (fun r => (r.1, decide ((NewSyncQueue : SyncQueue Nat).queue.Len ≤ 0),
          SyncQueue.mk r.2.2)) <$>
        ((NewSyncQueue : SyncQueue Nat).afterWait (Queue.mk3 [] [9] [])).Pop ∧
    (((NewSyncQueue : SyncQueue Nat).afterWait (Queue.mk3 [] [9] [])).Empty = false →
      ∃ (x : Nat) (xs : List Nat) (q' : Queue Nat),
        ((NewSyncQueue : SyncQueue Nat).afterWait (Queue.mk3 [] [9] [])).Elems
          = Except.ok (x :: xs) ∧
        (NewSyncQueue : SyncQueue Nat).Pop (Queue.mk3 [] [9] []) =
          Except.ok (x, decide ((NewSyncQueue : SyncQueue Nat).queue.Len ≤ 0),
            SyncQueue.mk q') ∧
        q'.Elems = Except.ok xs ∧
        q'.Len = ((NewSyncQueue : SyncQueue Nat).afterWait (Queue.mk3 [] [9] [])).Len - 1) ∧
    (((NewSyncQueue : SyncQueue Nat).afterWait (Queue.mk3 [] [9] [])).Empty = true →
      ∃ q' : Queue Nat,
        (NewSyncQueue : SyncQueue Nat).Pop (Queue.mk3 [] [9] []) =
          Except.ok (default, true, SyncQueue.mk q') ∧
        q'.Len = 0 ∧ q'.off = 0 ∧ q'.buf.len = 0) ∧
    ((NewSyncQueue : SyncQueue Nat).queue.Empty = false →
      (NewSyncQueue : SyncQueue Nat).afterWait (Queue.mk3 [] [9] []) =
        (NewSyncQueue : SyncQueue Nat).queue ∧
      ∃ (x : Nat) (q' : Queue Nat),
        (NewSyncQueue : SyncQueue Nat).queue.Pop = Except.ok (x, true, q') ∧
        (NewSyncQueue : SyncQueue Nat).Pop (Queue.mk3 [] [9] []) =
          Except.ok (x, false, SyncQueue.mk q')) ∧
    (NewSyncQueue : SyncQueue Nat).Push 9 =
      SyncQueue.mk <$> (NewSyncQueue : SyncQueue Nat).queue.Push 9 ∧
    (NewSyncQueue : SyncQueue Nat).Len = (NewSyncQueue : SyncQueue Nat).queue.Len) :=
  ⟨WF_mk3 [] [] [], WF_mk3 _ _ _, rfl,
   C19_syncqueue_delegates NewSyncQueue (Queue.mk3 [] [9] []) 9 (WF_mk3 [] [] [])
     (WF_mk3 _ _ _)⟩

end Claims


end CnotchQueue
